import Mathlib

/-!
# Scheduling core of `ray_state.c`

A shallow embedding of the suspend/resume protocol implemented in
`src/ray_state.c`: execution contexts (`ray_state_t`), the intrusive wait
queues that link them (`ngx_queue_t`), value transfer between Lua stacks
(`rayS_xcopy`), the wake operations (`rayS_rouse`, `rayS_notify`), suspension
(`rayS_await`), the main drive loop (`rayM_main_await`) and close
(`rayS_close`, `rayM_state_close`).

Contexts live in an arena indexed by natural numbers; the address of the
`queue` field of context `c` is `Ptr.queue c` and the address of its `cond`
field is `Ptr.cond c`.  Lua threads are indexed by natural numbers as well and
each owns a value stack.  External collaborators (capabilities installed by
other translation units, the reactor) are supplied through `Env`.
-/

namespace Ray

/-! ## Data model -/

/-- Values held on a Lua stack. -/
inductive TValue where
  | nil
  | number (n : Int)
  | userdata (c : Nat)
  | thread (l : Nat)
  deriving DecidableEq, Repr

/-- Addresses of list nodes: `NULL`, `&ctx->queue` or `&ctx->cond`. -/
inductive Ptr where
  | null
  | queue (c : Nat)
  | cond (c : Nat)
  deriving DecidableEq, Repr

/-- Modelled from the spec: the node type of the intrusive doubly-linked list
(`ngx_queue_t`, declared in a header that is not under src/): a pair of
`prev`/`next` links. -/
structure ngx_queue_t where
  prev : Ptr
  next : Ptr
  deriving DecidableEq, Repr

/-- Function pointers that may sit in the `await` slot of a capability set:
`NULL`, the drive loop of this file, or a function of another translation
unit (identified by a number and interpreted by `Env.await_cb`). -/
inductive AwaitFn where
  | null
  | rayM_main_await
  | ext (f : Nat)
  deriving DecidableEq, Repr

/-- Function pointers that may sit in the `rouse` slot. -/
inductive RouseFn where
  | null
  | rayM_main_rouse
  | ext (f : Nat)
  deriving DecidableEq, Repr

/-- Function pointers that may sit in the `close` slot. -/
inductive CloseFn where
  | null
  | rayM_state_close
  | ext (f : Nat)
  deriving DecidableEq, Repr

/-- Modelled from the spec: the capability set `ray_vtable_t` (declared in
`ray_state.h`, not under src/) with its three operations await, rouse and
close. -/
structure ray_vtable_t where
  await : AwaitFn
  rouse : RouseFn
  close : CloseFn
  deriving DecidableEq, Repr

/-- Modelled from the spec: the fields of `ray_state_t` (declared in
`ray_state.h`, not under src/) that `ray_state.c` reads or writes: the
capability set `v`, the `flags` bitset, the environment `L` (a Lua thread or
`NULL`), the wait queue head `queue`, the link node `cond` and the pin
`ref`. -/
structure ray_state_t where
  v : ray_vtable_t
  flags : Nat
  L : Option Nat
  queue : ngx_queue_t
  cond : ngx_queue_t
  ref : Int
  deriving DecidableEq, Repr

/-- Observable steps recorded while the code runs: the `TRACE` lines of the
source, the dispatch of a capability, and calls to the reactor and to the
Lua reference table. -/
inductive Event where
  | trace_rouse (self frm : Nat)
  | trace_await (self that : Nat)
  | trace_main_rouse (self frm : Nat)
  | trace_enter_main_await (empty : Bool)
  | trace_unloop
  | invoke_await (self that : Nat)
  | invoke_rouse (self frm : Nat)
  | invoke_close (self : Nat)
  | uv_async_send (self : Nat)
  | uv_run_once (loop : Option Nat)
  | uv_loop_new
  | luaL_unref (l : Nat) (ref : Int)
  | uv_async_init (self : Nat)
  | uv_unref (self : Nat)
  deriving DecidableEq, Repr

/-- The whole machine state: the arena of contexts, the Lua stacks, the Lua
registry entries used by this file, and the record of observable steps. -/
structure State where
  ctx : Nat → ray_state_t
  lua : Nat → List TValue
  reg_loop : Option Nat
  reg_main : Option Nat
  reg_self : Nat → Option Nat
  reg_ref : Int → Bool
  log : List Event

/-- Outcome of running a C function: normal return with a value, a failed
`assert` (with the state at the moment of the abort), undefined behaviour
(a `NULL` dereference or an invalid stack index), or exhaustion of the loop
budget of the model. -/
inductive Res (α : Type) where
  | ok (ret : α) (s : State)
  | assert_fail (s : State)
  | undefined
  | out_of_fuel

/-- Sequencing of outcomes: continue only after a normal return. -/
def Res.bind {α β : Type} (r : Res α) (k : α → State → Res β) : Res β :=
  match r with
  | .ok a s => k a s
  | .assert_fail s => .assert_fail s
  | .undefined => .undefined
  | .out_of_fuel => .out_of_fuel

/-- External collaborators: capabilities defined in other translation units,
the reactor (`uv_run_once`, `uv_loop_new`) and the stack limit of the host
Lua. -/
structure Env where
  await_cb : Nat → Nat → Nat → State → Res Int
  rouse_cb : Nat → Nat → Nat → State → Res Int
  close_cb : Nat → Nat → State → Res Int
  uv_run_once : Nat → State → Res Int
  uv_loop_new : State → Option Nat
  LUAI_MAXCSTACK : Nat

/-! ## Flags -/

/-- Modelled from the spec: mask of the ACTIVE bit of `flags` (the header
defining it is not under src/; the spec only fixes that ACTIVE and CLOSED are
two distinct bits of the bitset). -/
def RAY_ACTIVE : Nat := 1

/-- Modelled from the spec: mask of the CLOSED bit of `flags` (see
`RAY_ACTIVE`). -/
def RAY_CLOSED : Nat := 2

/-- Bitwise complement on the 32 bits of a C `int`. -/
def bnot32 (x : Nat) : Nat := (2 ^ 32 - 1) ^^^ x

/-- Modelled from the spec: the macro `rayS_is_active` (not under src/):
the ACTIVE bit of `flags` is set. -/
def rayS_is_active (st : ray_state_t) : Bool := (st.flags &&& RAY_ACTIVE) != 0

/-- Modelled from the spec: the macro `rayS_is_closed` (not under src/):
the CLOSED bit of `flags` is set. -/
def rayS_is_closed (st : ray_state_t) : Bool := (st.flags &&& RAY_CLOSED) != 0

/-! ## State access -/

/-- Replace the record of context `c`. -/
def State.setCtx (s : State) (c : Nat) (r : ray_state_t) : State :=
  { s with ctx := fun i => if i = c then r else s.ctx i }

/-- Assignment to `ctx->flags`. -/
def State.setFlags (s : State) (c : Nat) (f : Nat) : State :=
  s.setCtx c { s.ctx c with flags := f }

/-- Replace the stack of Lua thread `l`. -/
def State.setLua (s : State) (l : Nat) (st : List TValue) : State :=
  { s with lua := fun i => if i = l then st else s.lua i }

/-- Append one observable step to the record. -/
def State.trace (s : State) (e : Event) : State :=
  { s with log := s.log ++ [e] }

/-- The links stored at a node address (total; `NULL` reads as a node with
`NULL` links and is only used in specifications). -/
def State.links (s : State) : Ptr → ngx_queue_t
  | .null => ⟨.null, .null⟩
  | .queue c => (s.ctx c).queue
  | .cond c => (s.ctx c).cond

/-- Read `p->prev`; undefined for `NULL`. -/
def State.getPrev (s : State) : Ptr → Option Ptr
  | .null => none
  | p => some (s.links p).prev

/-- Read `p->next`; undefined for `NULL`. -/
def State.getNext (s : State) : Ptr → Option Ptr
  | .null => none
  | p => some (s.links p).next

/-- Store `p->prev = v`; undefined for `NULL`. -/
def State.setPrev (s : State) (p : Ptr) (v : Ptr) : Option State :=
  match p with
  | .null => none
  | .queue c => some (s.setCtx c { s.ctx c with queue := { (s.ctx c).queue with prev := v } })
  | .cond c => some (s.setCtx c { s.ctx c with cond := { (s.ctx c).cond with prev := v } })

/-- Store `p->next = v`; undefined for `NULL`. -/
def State.setNext (s : State) (p : Ptr) (v : Ptr) : Option State :=
  match p with
  | .null => none
  | .queue c => some (s.setCtx c { s.ctx c with queue := { (s.ctx c).queue with next := v } })
  | .cond c => some (s.setCtx c { s.ctx c with cond := { (s.ctx c).cond with next := v } })

/-! ## Intrusive queue macros -/

/-- Modelled from the spec: macro `ngx_queue_init(q)` (its header is not
under src/): `q->prev = q; q->next = q`. -/
def ngx_queue_init (q : Ptr) (s : State) : Option State :=
  (s.setPrev q q).bind fun s1 => s1.setNext q q

/-- Modelled from the spec: macro `ngx_queue_empty(h)` (its header is not
under src/): `h == h->prev`. -/
def ngx_queue_empty (h : Ptr) (s : State) : Option Bool :=
  (s.getPrev h).map fun p => decide (h = p)

/-- Modelled from the spec: macro `ngx_queue_insert_tail(h, x)` (its header
is not under src/): `x->prev = h->prev; x->prev->next = x; x->next = h;
h->prev = x`. -/
def ngx_queue_insert_tail (h x : Ptr) (s : State) : Option State :=
  (s.getPrev h).bind fun hp =>
  (s.setPrev x hp).bind fun s1 =>
  (s1.getPrev x).bind fun xp =>
  (s1.setNext xp x).bind fun s2 =>
  (s2.setNext x h).bind fun s3 =>
  s3.setPrev h x

/-- Modelled from the spec: macro `ngx_queue_head(h)` (its header is not
under src/): `h->next`. -/
def ngx_queue_head (h : Ptr) (s : State) : Option Ptr := s.getNext h

/-- Modelled from the spec: macro `ngx_queue_remove(x)` (its header is not
under src/): `x->next->prev = x->prev; x->prev->next = x->next`.  The links
stored in `x` itself are left as they were. -/
def ngx_queue_remove (x : Ptr) (s : State) : Option State :=
  (s.getNext x).bind fun xn =>
  (s.getPrev x).bind fun xp =>
  (s.setPrev xn xp).bind fun s1 =>
  (s1.getPrev x).bind fun xp1 =>
  (s1.getNext x).bind fun xn1 =>
  s1.setNext xp1 xn1

/-- Modelled from the spec: macro `ngx_queue_data(q, ray_state_t, cond)` (its
header is not under src/): the context whose `cond` field lives at `q`.  A
pointer that is not the address of a `cond` field has no such context. -/
def ngx_queue_data : Ptr → Option Nat
  | .cond c => some c
  | _ => none

/-! ## Lua stack primitives -/

/-- Modelled from the spec: the sentinel for all available values,
`LUA_MULTRET` of the Lua C API of the host (its header is not under src/). -/
def LUA_MULTRET : Int := -1

/-- Modelled from the spec: the value of `ref` that stands for no pin held,
`LUA_NOREF` of the Lua auxiliary library of the host (its header is not
under src/). -/
def LUA_NOREF : Int := -2

/-- Modelled from the spec: the stack primitive `lua_gettop` (Lua C
API, not under src/), the top-count of the stack abstraction: number of
values on the stack. -/
def lua_gettop (st : List TValue) : Int := st.length

/-- Modelled from the spec: the capacity check `lua_checkstack` (Lua C
API, not under src/): whether the stack may grow by `n` slots. -/
def lua_checkstack (env : Env) (st : List TValue) (n : Int) : Bool :=
  !(decide (n > env.LUAI_MAXCSTACK) || decide ((st.length : Int) + n > env.LUAI_MAXCSTACK))

/-- Modelled from the spec: the stack primitive `lua_settop` (Lua C
API, not under src/), the clear/pop of the stack abstraction: a non-negative
index truncates the stack or pads it with nil; a negative index `-k-1` drops
the top `k` values and is invalid when fewer than `k` are present. -/
def lua_settop (st : List TValue) (idx : Int) : Option (List TValue) :=
  if 0 ≤ idx then
    some (st.take idx.toNat ++ List.replicate (idx.toNat - st.length) TValue.nil)
  else if -(idx + 1) ≤ st.length then
    some (st.take (st.length - (-(idx + 1)).toNat))
  else none

/-- Modelled from the spec: the stack primitive `lua_pop(L, n)` (Lua C
API, not under src/), the macro `lua_settop(L, -(n)-1)`. -/
def lua_pop (st : List TValue) (n : Int) : Option (List TValue) :=
  lua_settop st (-n - 1)

/-- Modelled from the spec: the stack primitive `lua_pushvalue` (Lua C
API, not under src/): push a copy of the value at index `i`.  Positive
indices count from the bottom (an index above the top reads nil), negative
ones from the top; index `0` and indices below the bottom are invalid. -/
def lua_pushvalue (st : List TValue) (i : Int) : Option (List TValue) :=
  if 0 < i then some (st ++ [st.getD (i.toNat - 1) TValue.nil])
  else if i < 0 ∧ -i ≤ st.length then some (st ++ [st.getD (st.length - (-i).toNat) TValue.nil])
  else none

/-- Modelled from the spec: the transfer primitive
`lua_xmove(from, to, n)` (Lua C API, not under src/): nothing when both are
the same thread; otherwise the top `n` values of `from` are popped and pushed onto `to` in the
same order.  Invalid when `n` is negative or exceeds the size of `from`. -/
def lua_xmove (frm dst : Nat) (n : Int) (s : State) : Option State :=
  if frm = dst then some s
  else if 0 ≤ n ∧ n ≤ (s.lua frm).length then
    let k := (s.lua frm).length - n.toNat
    some ((s.setLua frm ((s.lua frm).take k)).setLua dst (s.lua dst ++ (s.lua frm).drop k))
  else none

/-! ## Value transfer -/

/-- The loop `for (i = base; i < base + narg; i++) lua_pushvalue(a->L, i)` of
`rayS_xcopy`, with `n` iterations left and `i` the current index. -/
def xcopy_push (l : Nat) : Nat → Int → State → Res Unit
  | 0, _, s => .ok () s
  | n + 1, i, s =>
    match lua_pushvalue (s.lua l) i with
    | none => .undefined
    | some st => xcopy_push l n (i + 1) (s.setLua l st)

/-- Source function `rayS_xcopy(a, b, narg)`. -/
def rayS_xcopy (env : Env) (a b : Nat) (narg : Int) (s : State) : Res Int :=
  match (s.ctx a).L with
  | none => .undefined
  | some la =>
    let top := lua_gettop (s.lua la)
    let base := lua_gettop (s.lua la) - narg + 1
    let _chk_a := lua_checkstack env (s.lua la) narg
    match (s.ctx b).L with
    | none => .undefined
    | some lb =>
      let _chk_b := lua_checkstack env (s.lua lb) narg
      match lua_settop (s.lua lb) 0 with
      | none => .undefined
      | some stb =>
        (xcopy_push la narg.toNat base (s.setLua lb stb)).bind fun _ s1 =>
          match lua_xmove la lb narg s1 with
          | none => .undefined
          | some s2 =>
            if lua_gettop (s2.lua la) = top then .ok narg s2 else .assert_fail s2

/-! ## Rouse -/

/-- Source function `rayM_main_rouse(self, from)`. -/
def rayM_main_rouse (self frm : Nat) (s : State) : Res Int :=
  let s0 := s.trace (.trace_main_rouse self frm)
  match ngx_queue_empty (.queue self) s0 with
  | none => .undefined
  | some true => .ok 1 (s0.trace (.uv_async_send self))
  | some false => .ok 1 s0

/-- Indirect call `self->v.rouse(self, from)`. -/
def call_rouse (env : Env) (f : RouseFn) (self frm : Nat) (s : State) : Res Int :=
  match f with
  | .null => .undefined
  | .rayM_main_rouse => rayM_main_rouse self frm s
  | .ext g => env.rouse_cb g self frm s

/-- Source function `rayS_rouse(self, from)`. -/
def rayS_rouse (env : Env) (self frm : Nat) (s : State) : Res Int :=
  let s0 := s.trace (.trace_rouse self frm)
  if rayS_is_active (s0.ctx self) then .assert_fail s0
  else
    let s1 := s0.setFlags self ((s0.ctx self).flags ||| RAY_ACTIVE)
    match ngx_queue_remove (.cond self) s1 with
    | none => .undefined
    | some s2 => call_rouse env (s2.ctx self).v.rouse self frm (s2.trace (.invoke_rouse self frm))

/-! ## Notify -/

/-- The `while (!ngx_queue_empty(&self->queue))` loop of `rayS_notify`; the
first argument bounds the number of loop tests. -/
def rayS_notify_loop (env : Env) : Nat → Nat → Int → Int → State → Res Int
  | 0, _, _, _, _ => .out_of_fuel
  | fuel + 1, self, narg, count, s =>
    match ngx_queue_empty (.queue self) s with
    | none => .undefined
    | some true => .ok count s
    | some false =>
      match ngx_queue_head (.queue self) s with
      | none => .undefined
      | some q =>
        match ngx_queue_data q with
        | none => .undefined
        | some w =>
          ((if narg ≠ 0 then rayS_xcopy env self w narg s else .ok 0 s).bind fun _ s1 =>
            rayS_rouse env w self s1).bind fun _ s2 =>
              rayS_notify_loop env fuel self narg (count + 1) s2

/-- Source function `rayS_notify(self, narg)`. -/
def rayS_notify (env : Env) (fuel : Nat) (self : Nat) (narg : Int) (s : State) : Res Int :=
  match (if narg = LUA_MULTRET then (s.ctx self).L.map (fun l => lua_gettop (s.lua l))
         else some narg) with
  | none => .undefined
  | some n =>
    (rayS_notify_loop env fuel self n 0 s).bind fun count s1 =>
      if n ≠ 0 then
        match (s1.ctx self).L with
        | none => .undefined
        | some l =>
          match lua_pop (s1.lua l) n with
          | none => .undefined
          | some st => .ok count (s1.setLua l st)
      else .ok count s1

/-! ## Main context -/

/-- Source function `rayS_get_loop(L)` for a non-`NULL` `L`: the cached
reactor handle, created and cached on first use. -/
def rayS_get_loop (env : Env) (s : State) : Option Nat × State :=
  match s.reg_loop with
  | some loop => (some loop, s)
  | none =>
    let s1 := s.trace .uv_loop_new
    (env.uv_loop_new s, { s1 with reg_loop := env.uv_loop_new s })

/-- Call `uv_run_once(loop)`; a `NULL` loop is undefined. -/
def uv_run_once (env : Env) (loop : Option Nat) (s : State) : Res Int :=
  match loop with
  | none => .undefined
  | some lp => env.uv_run_once lp (s.trace (.uv_run_once loop))

/-- The `do ... while (events)` loop of `rayM_main_await`; the first argument
bounds the number of iterations. -/
def main_await_loop (env : Env) : Nat → Nat → Option Nat → State → Res Unit
  | 0, _, _, _ => .out_of_fuel
  | fuel + 1, self, loop, s =>
    (rayS_notify env (fuel + 1) self 0 s).bind fun _ s1 =>
      (uv_run_once env loop s1).bind fun events s2 =>
        if rayS_is_active (s2.ctx self) then .ok () s2
        else if events ≠ 0 then main_await_loop env fuel self loop s2
        else .ok () s2

/-- Source function `rayM_main_await(self, that)`. -/
def rayM_main_await (env : Env) (fuel : Nat) (self _that : Nat) (s : State) : Res Int :=
  match ngx_queue_empty (.queue self) s with
  | none => .undefined
  | some e =>
    let s0 := s.trace (.trace_enter_main_await e)
    match (s0.ctx self).L with
    | none => .undefined
    | some _ =>
      (main_await_loop env fuel self (rayS_get_loop env s0).1 (rayS_get_loop env s0).2).bind
        fun _ s1 =>
          let s2 := s1.setFlags self ((s1.ctx self).flags ||| RAY_ACTIVE)
          match ngx_queue_remove (.cond self) s2 with
          | none => .undefined
          | some s3 =>
            let s4 := s3.trace .trace_unloop
            match (s4.ctx self).L with
            | none => .undefined
            | some l => .ok (lua_gettop (s4.lua l)) s4

/-! ## Await -/

/-- Indirect call `self->v.await(self, that)`. -/
def call_await (env : Env) (fuel : Nat) (f : AwaitFn) (self that : Nat) (s : State) : Res Int :=
  match f with
  | .null => .undefined
  | .rayM_main_await => rayM_main_await env fuel self that s
  | .ext g => env.await_cb g self that s

/-- Source function `rayS_await(self, that)`. -/
def rayS_await (env : Env) (fuel : Nat) (self that : Nat) (s : State) : Res Int :=
  let s0 := s.trace (.trace_await self that)
  if rayS_is_active (s0.ctx self) then
    let s1 := s0.setFlags self ((s0.ctx self).flags &&& bnot32 RAY_ACTIVE)
    match ngx_queue_insert_tail (.queue that) (.cond self) s1 with
    | none => .undefined
    | some s2 =>
      call_await env fuel (s2.ctx self).v.await self that (s2.trace (.invoke_await self that))
  else .assert_fail s0

/-! ## Close -/

/-- Modelled from the spec: the release of a pin,
`luaL_unref(L, LUA_REGISTRYINDEX, ref)` (Lua auxiliary library, not under
src/): frees the registry slot of a non-negative reference. -/
def luaL_unref (l : Nat) (ref : Int) (s : State) : State :=
  let s1 := s.trace (.luaL_unref l ref)
  if 0 ≤ ref then { s1 with reg_ref := fun r => if r = ref then false else s1.reg_ref r } else s1

/-- Source function `rayM_state_close(self)`. -/
def rayM_state_close (self : Nat) (s : State) : Res Int :=
  match (s.ctx self).L with
  | some l =>
    match lua_settop (s.lua l) 0 with
    | none => .undefined
    | some st =>
      let s1 := s.setLua l st
      let s2 :=
        if (s1.ctx self).ref ≠ LUA_NOREF then
          let s1a := luaL_unref l (s1.ctx self).ref s1
          s1a.setCtx self { s1a.ctx self with ref := LUA_NOREF }
        else
          { s1 with reg_self := fun t => if t = l then none else s1.reg_self t }
      .ok 1 (s2.setCtx self { s2.ctx self with L := none })
  | none => .ok 1 s

/-- Indirect call `self->v.close(self)`. -/
def call_close (env : Env) (f : CloseFn) (self : Nat) (s : State) : Res Int :=
  match f with
  | .null => .undefined
  | .rayM_state_close => rayM_state_close self s
  | .ext g => env.close_cb g self s

/-- Source function `rayS_close(self)`. -/
def rayS_close (env : Env) (self : Nat) (s : State) : Res Int :=
  if rayS_is_closed (s.ctx self) then .assert_fail s
  else
    let s1 := s.setFlags self ((s.ctx self).flags ||| RAY_CLOSED)
    call_close env (s1.ctx self).v.close self (s1.trace (.invoke_close self))

/-! ## Specification vocabulary -/

/-- The `next` link stored at a node. -/
def State.nxt (s : State) (p : Ptr) : Ptr := (s.links p).next

/-- The `prev` link stored at a node. -/
def State.prv (s : State) (p : Ptr) : Ptr := (s.links p).prev

/-- The state in which every node carries the links given by `pv` and `nx`
and nothing else differs. -/
def State.relink (s : State) (pv nx : Ptr → Ptr) : State :=
  { s with ctx := fun c =>
      { s.ctx c with queue := ⟨pv (.queue c), nx (.queue c)⟩,
                     cond := ⟨pv (.cond c), nx (.cond c)⟩ } }

/-- Node `p` is followed by `q` and `q` points back to `p`. -/
def Linked (s : State) (p q : Ptr) : Prop := s.nxt p = q ∧ s.prv q = p

/-- The doubly-linked chain `a, cond w1, ..., cond wk, z`. -/
def Seg (s : State) : Ptr → List Nat → Ptr → Prop
  | a, [], z => Linked s a z
  | a, w :: ws, z => Linked s a (.cond w) ∧ Seg s (.cond w) ws z

/-- The wait queue of context `t` holds exactly the contexts `ws`, head
first: the ring starting and ending at `&t->queue` runs through their `cond`
nodes in that order.  The listed contexts are distinct; this already follows
from the links (`IsQueue_iff_ring`). -/
def IsQueue (s : State) (t : Nat) (ws : List Nat) : Prop :=
  Seg s (.queue t) ws (.queue t) ∧ ws.Nodup

instance instDecidableLinked (s : State) (p q : Ptr) : Decidable (Linked s p q) :=
  inferInstanceAs (Decidable (s.nxt p = q ∧ s.prv q = p))

/-- Chains over an explicit list of contexts can be checked by evaluation. -/
def decSeg (s : State) : (a : Ptr) → (ws : List Nat) → (z : Ptr) → Decidable (Seg s a ws z)
  | a, [], z => inferInstanceAs (Decidable (Linked s a z))
  | a, w :: ws, z =>
    @instDecidableAnd (Linked s a (.cond w)) (Seg s (.cond w) ws z) _ (decSeg s (.cond w) ws z)

instance instDecidableSeg (s : State) (a : Ptr) (ws : List Nat) (z : Ptr) :
    Decidable (Seg s a ws z) := decSeg s a ws z

instance instDecidableIsQueue (s : State) (t : Nat) (ws : List Nat) :
    Decidable (IsQueue s t ws) :=
  inferInstanceAs (Decidable (Seg s (.queue t) ws (.queue t) ∧ ws.Nodup))

/-- The last node of the chain `a, cond w1, ..., cond wk`. -/
def lastNode (a : Ptr) (l : List Nat) : Ptr := (l.map Ptr.cond).getLastD a

/-- The first node of the chain `cond w1, ..., cond wk, z`. -/
def firstNode (l : List Nat) (z : Ptr) : Ptr := (l.map Ptr.cond).headD z

/-- The contexts on which `rayS_rouse` was entered, oldest first, with the
`from` argument of each call. -/
def rouse_calls : List Event → List (Nat × Nat)
  | [] => []
  | .trace_rouse w f :: es => (w, f) :: rouse_calls es
  | _ :: es => rouse_calls es

/-- Number of reactor iterations (`uv_run_once` calls) recorded. -/
def polls : List Event → Nat
  | [] => 0
  | .uv_run_once _ :: es => polls es + 1
  | _ :: es => polls es

/-- Closed form of the state after `ngx_queue_insert_tail(&t->queue, &w->cond)`. -/
def State.inserted (s : State) (t w : Nat) : State :=
  s.relink
    (Function.update (Function.update s.prv (.cond w) (s.prv (.queue t))) (.queue t) (.cond w))
    (Function.update (Function.update s.nxt (s.prv (.queue t)) (.cond w)) (.cond w) (.queue t))

/-- Closed form of the state after `ngx_queue_remove(x)`. -/
def State.removed (s : State) (x : Ptr) : State :=
  s.relink (Function.update s.prv (s.nxt x) (s.prv x)) (Function.update s.nxt (s.prv x) (s.nxt x))

/-- Closed form of the state that `rayS_rouse(w, frm)` hands to the rouse
capability of `w`. -/
def State.roused (s : State) (w frm : Nat) : State :=
  ((((s.trace (.trace_rouse w frm)).setFlags w ((s.ctx w).flags ||| RAY_ACTIVE)).removed
    (.cond w)).trace (.invoke_rouse w frm))

/-- A rouse capability that returns normally from every state, leaves every
context record (flags, links, capabilities) unchanged and leaves the Lua
stacks selected by `keep` unchanged. -/
def QuietRouse (env : Env) (keep : Nat → Prop) (f : RouseFn) (w frm : Nat) : Prop :=
  ∀ s1 : State, ∃ r s2, call_rouse env f w frm s1 = .ok r s2 ∧ s2.ctx = s1.ctx ∧
    (∀ l, keep l → s2.lua l = s1.lua l)

/-- A rouse capability that does not itself enter `rayS_rouse`. -/
def NoReentry (env : Env) (f : RouseFn) (w frm : Nat) : Prop :=
  ∀ (s1 : State) (r : Int) (s2 : State), call_rouse env f w frm s1 = .ok r s2 →
    rouse_calls s2.log = rouse_calls s1.log

/-- Closed form of the state that `rayS_await(w, t)` hands to the await
capability of `w`. -/
def State.awaited (s : State) (w t : Nat) : State :=
  ((((s.trace (.trace_await w t)).setFlags w ((s.ctx w).flags &&& bnot32 RAY_ACTIVE)).inserted
    t w).trace (.invoke_await w t))

/-! ## Concrete worlds used to exercise the theorems -/

/-- A context record with vacant links pointing at itself. -/
def mkCtx (c : Nat) (v : ray_vtable_t) (flags : Nat) (L : Option Nat) : ray_state_t :=
  { v := v, flags := flags, L := L, queue := ⟨.queue c, .queue c⟩, cond := ⟨.cond c, .cond c⟩,
    ref := LUA_NOREF }

/-- Capabilities of an ordinary context whose operations live in another
translation unit. -/
def ext_v : ray_vtable_t := { await := .ext 0, rouse := .ext 0, close := .rayM_state_close }

/-- The capability set `ray_main_v` of the source: await and rouse are set,
close is left zero-initialised. -/
def ray_main_v : ray_vtable_t :=
  { await := .rayM_main_await, rouse := .rayM_main_rouse, close := .null }

/-- An environment whose external capabilities return at once without touching
the state and whose reactor never has pending work. -/
def envW : Env :=
  { await_cb := fun _ _ _ s => .ok 0 s, rouse_cb := fun _ _ _ s => .ok 1 s,
    close_cb := fun _ _ s => .ok 1 s, uv_run_once := fun _ s => .ok 0 s,
    uv_loop_new := fun _ => some 0, LUAI_MAXCSTACK := 8000 }

/-- Contexts 0 (main, active), 1 and 3 (ordinary, active) and 2 (ordinary,
inactive, queued on context 0); every context `c` owns Lua thread `c`. -/
def stW : State :=
  { ctx := fun c =>
      if c = 0 then { mkCtx 0 ray_main_v RAY_ACTIVE (some 0) with queue := ⟨.cond 2, .cond 2⟩ }
      else if c = 2 then { mkCtx 2 ext_v 0 (some 2) with cond := ⟨.queue 0, .queue 0⟩ }
      else mkCtx c ext_v RAY_ACTIVE (some c),
    lua := fun l => if l = 0 then [.number 10, .number 20, .number 30] else [.number 7],
    reg_loop := none, reg_main := some 0, reg_self := fun _ => none, reg_ref := fun _ => false,
    log := [] }

/-! ## Sequences of awaits, payloads -/

/-- Perform `rayS_await(w, t)` for every `w` of the list, in order. -/
def await_all (env : Env) (fuel : Nat) (t : Nat) : List Nat → State → Res Unit
  | [], s => .ok () s
  | w :: ws, s => (rayS_await env fuel w t s).bind fun _ s1 => await_all env fuel t ws s1

/-- An await capability that returns normally from every state and leaves
every context record (flags, links, capabilities) unchanged. -/
def QuietAwait (env : Env) (fuel : Nat) (f : AwaitFn) (w t : Nat) : Prop :=
  ∀ s1 : State, ∃ r s2, call_await env fuel f w t s1 = .ok r s2 ∧ s2.ctx = s1.ctx

/-- The payload of `rayS_notify(t, narg)` in state `s` is `vs`, lying on top
of `pre` on the stack `lt` of `t`: `narg` is its length or the sentinel
`LUA_MULTRET` with `vs` the whole stack; and when the payload is not empty
the stack of `t` is kept by the rouse capabilities and every waiter owns a
stack other than that of `t`. -/
def PayloadOK (s : State) (keep : Nat → Prop) (t : Nat) (ws : List Nat) (narg : Int) (lt : Nat)
    (pre vs : List TValue) : Prop :=
  (narg = vs.length ∨ (narg = LUA_MULTRET ∧ (s.ctx t).L = some lt ∧ s.lua lt = vs)) ∧
  (vs ≠ [] → (s.ctx t).L = some lt ∧ s.lua lt = pre ++ vs ∧ keep lt ∧
    ∀ w, w ∈ ws → ∃ lw, (s.ctx w).L = some lw ∧ lw ≠ lt)

/-- All contexts active with empty queues; context 0 is the main context and
every context `c` owns Lua thread `c`. -/
def stI : State :=
  { ctx := fun c => if c = 0 then mkCtx 0 ray_main_v RAY_ACTIVE (some 0)
                    else mkCtx c ext_v RAY_ACTIVE (some c),
    lua := fun l => if l = 0 then [.number 10, .number 20, .number 30] else [.number 7],
    reg_loop := none, reg_main := some 0, reg_self := fun _ => none, reg_ref := fun _ => false,
    log := [] }

/-- Contexts 1 and 2 (inactive) wait, in that order, on the main context 0,
whose stack holds three values; every context `c` owns Lua thread `c`. -/
def stQ : State :=
  { ctx := fun c =>
      if c = 0 then { mkCtx 0 ray_main_v RAY_ACTIVE (some 0) with queue := ⟨.cond 2, .cond 1⟩ }
      else if c = 1 then { mkCtx 1 ext_v 0 (some 1) with cond := ⟨.queue 0, .cond 2⟩ }
      else if c = 2 then { mkCtx 2 ext_v 0 (some 2) with cond := ⟨.cond 1, .queue 0⟩ }
      else mkCtx c ext_v RAY_ACTIVE (some c),
    lua := fun l => if l = 0 then [.number 10, .number 20, .number 30] else [.number 7],
    reg_loop := none, reg_main := some 0, reg_self := fun _ => none, reg_ref := fun _ => false,
    log := [] }

/-! ## Parked main context -/

/-- The main context `m` is parked on target `t`: its own wait queue is empty,
its ACTIVE flag is clear, its environment is the Lua thread `l`, and its
`cond` node is linked in the well-formed wait queue of `t`. -/
def MainParked (s : State) (m t l : Nat) : Prop :=
  IsQueue s m [] ∧ rayS_is_active (s.ctx m) = false ∧ (s.ctx m).L = some l ∧
    ∃ l1 l2, IsQueue s t (l1 ++ m :: l2)

/-- The loop handle found by `rayS_get_loop` is `lp`: it is cached, or the
cache is vacant and the reactor library hands out `lp`. -/
def LoopIs (env : Env) (s : State) (lp : Nat) : Prop :=
  s.reg_loop = some lp ∨ (s.reg_loop = none ∧ ∀ s1, env.uv_loop_new s1 = some lp)

/-- An environment like `envW` whose reactor reports pending work on its
first two polls and none afterwards. -/
def envJ : Env :=
  { envW with uv_run_once := fun _ s => .ok (if polls s.log ≤ 2 then 1 else 0) s }

/-! ## Creation -/

/-- The all-zero context record left by `memset(self, 0, sizeof(ray_state_t))`. -/
def zero_state : ray_state_t :=
  { v := ⟨.null, .null, .null⟩, flags := 0, L := none, queue := ⟨.null, .null⟩,
    cond := ⟨.null, .null⟩, ref := 0 }

/-- Source function `rayS_new(L, m, v)`.  `self` is the address of the block
that `lua_newuserdata` hands out (the block is also pushed on the stack of
`L`); attaching the metatable named `m` touches nothing of the modelled
state. -/
def rayS_new (self : Nat) (L : Nat) (_m : Option Nat) (v : Option ray_vtable_t) (s : State) :
    Res Nat :=
  let s1 := s.setLua L (s.lua L ++ [.userdata self])
  let s2 := s1.setCtx self zero_state
  let s3 :=
    match v with
    | some vt => s2.setCtx self { s2.ctx self with v := vt }
    | none => s2
  match ngx_queue_init (.queue self) s3 with
  | none => .undefined
  | some s4 =>
    match ngx_queue_init (.cond self) s4 with
    | none => .undefined
    | some s5 => .ok self (s5.setCtx self { s5.ctx self with ref := LUA_NOREF })

/-- The last statements of the creating branch of `rayS_init_main`, from
`uv_async_init(rayS_get_loop(L), &self->h.async, _async_cb)` and
`uv_unref(&self->h.handle)` to the two `lua_pop(L, 1)`.  A `NULL` reactor
handle is undefined. -/
def init_main_finish (env : Env) (slf L : Nat) (s6 : State) : Res Int :=
  match (rayS_get_loop env s6).1 with
  | none => .undefined
  | some _ =>
    let s7 := ((rayS_get_loop env s6).2.trace (.uv_async_init slf)).trace (.uv_unref slf)
    match lua_pop (s7.lua L) 1 with
    | none => .undefined
    | some st1 =>
      match lua_pop st1 1 with
      | none => .undefined
      | some st2 => .ok 1 (s7.setLua L st2)

/-- Source function `rayS_init_main(L)`.  `self` is the address that
`lua_newuserdata` would hand out and `mainthread` the main thread of the Lua
state (`lua_pushthread(L)` answers whether `L` is that thread).  In order:
`lua_getfield` of `RAY_STATE_MAIN` pushes the registry entry; when it is nil,
`rayS_new`, the `lua_setfield` of `RAY_STATE_MAIN`, `assert(lua_pushthread(L))`,
the `lua_rawset` under the thread key (which pops the thread and the copy
again), the assignments to `flags` and `L`, the two `ngx_queue_init`, and
`init_main_finish`; otherwise only the closing `lua_pop(L, 1)`. -/
def rayS_init_main (env : Env) (self mainthread L : Nat) (s : State) : Res Int :=
  let s0 := s.setLua L (s.lua L ++ [match s.reg_main with
                                    | some m => TValue.userdata m
                                    | none => TValue.nil])
  match s.reg_main with
  | some _ =>
    match lua_pop (s0.lua L) 1 with
    | none => .undefined
    | some st => .ok 1 (s0.setLua L st)
  | none =>
    (rayS_new self L none (some ray_main_v) s0).bind fun slf s1 =>
      let s2 := { s1 with reg_main := some slf }
      if L ≠ mainthread then .assert_fail (s2.setLua L (s2.lua L ++ [.thread L]))
      else
        let s3 := { s2 with reg_self := fun t => if t = L then some slf else s2.reg_self t }
        let s4 := s3.setCtx slf { s3.ctx slf with flags := RAY_ACTIVE, L := some L }
        match ngx_queue_init (.queue slf) s4 with
        | none => .undefined
        | some s5 =>
          match ngx_queue_init (.cond slf) s5 with
          | none => .undefined
          | some s6 => init_main_finish env slf L s6

/-- Source function `rayS_get_main(L)`: the registry entry `RAY_STATE_MAIN`,
`NULL` when it is nil; the stack of `L` is left as it was. -/
def rayS_get_main (_L : Nat) (s : State) : Option Nat := s.reg_main

/-! ## Concrete runs -/

/-- The state in which a run ended (normally or at a failed assertion), `d`
when it did not end in a state. -/
def Res.state {α : Type} (r : Res α) (d : State) : State :=
  match r with
  | .ok _ s => s
  | .assert_fail s => s
  | _ => d

/-- A world in which nothing has been created yet: zeroed memory, empty
stacks, empty registry. -/
def st0 : State :=
  { ctx := fun _ => zero_state, lua := fun _ => [], reg_loop := none, reg_main := none,
    reg_self := fun _ => none, reg_ref := fun _ => false, log := [] }

/-- The world after `rayS_init_main` on the main thread 0 of `st0`, the main
context living at address 0. -/
def sMain : State := (rayS_init_main envW 0 0 0 st0).state st0

/-- The state `stW` (context 2 queued on the main context 0) with the stack
of context 0 filled up to the limit `LUAI_MAXCSTACK = 8000` of `envW`. -/
def stFull : State :=
  { stW with lua := fun l => if l = 0 then List.replicate 8000 (.number 1) else [.number 7] }

/-- An environment like `envW` whose reactor iteration runs one callback that
rouses the main context 0 and then lets context 2 await on context 1; it
reports further pending work. -/
def envR : Env :=
  { envW with
    uv_run_once := fun _ s =>
      (rayS_rouse envW 0 2 s).bind fun _ s1 =>
        (rayS_await envW 0 2 1 s1).bind fun _ s2 => .ok 1 s2 }

/-- The state in which the drive loop of the main context 0 starts when it
awaits on context 1 from `stI` under `envR`. -/
def sLoop0 : State :=
  (rayS_get_loop envR ((stI.awaited 0 1).trace (.trace_enter_main_await true))).2

/-- The state in which that drive loop ends, before the final unlink. -/
def sBefore : State := (main_await_loop envR 2 0 (some 0) sLoop0).state stI

/-- The state right after the final `ngx_queue_remove(&self->cond)`. -/
def sUnlinked : State :=
  (ngx_queue_remove (.cond 0)
    (sBefore.setFlags 0 ((sBefore.ctx 0).flags ||| RAY_ACTIVE))).getD stI

/-- The state in which `rayS_await(0, 1)` returns from `stI` under `envR`. -/
def sAfter : State := (rayS_await envR 2 0 1 stI).state stI

/-! ## The drive loop as the description words it -/

/-- Specification of the drive loop, following the words of the description:
a run of `n` iterations from `s` to `s2`.  Every iteration is one
`rayS_notify(main, 0)` followed by one reactor iteration; the run stops right
after the first iteration that leaves the main context ACTIVE (whatever the
reactor reported), or that reports no pending work; otherwise it goes on. -/
inductive DriveRun (env : Env) (self : Nat) (loop : Option Nat) : Nat → State → State → Prop
  | roused (s s1 s2 : State) (f : Nat) (c ev : Int) :
      rayS_notify env f self 0 s = .ok c s1 →
      uv_run_once env loop s1 = .ok ev s2 →
      rayS_is_active (s2.ctx self) = true →
      DriveRun env self loop 1 s s2
  | idle (s s1 s2 : State) (f : Nat) (c : Int) :
      rayS_notify env f self 0 s = .ok c s1 →
      uv_run_once env loop s1 = .ok 0 s2 →
      rayS_is_active (s2.ctx self) = false →
      DriveRun env self loop 1 s s2
  | again (n : Nat) (s s1 s2 s3 : State) (f : Nat) (c ev : Int) :
      rayS_notify env f self 0 s = .ok c s1 →
      uv_run_once env loop s1 = .ok ev s2 →
      rayS_is_active (s2.ctx self) = false →
      ev ≠ 0 →
      DriveRun env self loop n s2 s3 →
      DriveRun env self loop (n + 1) s s3

/-! ## Flag relations and sequences of operations -/

/-- The state an outcome ends in, when it has one: a normal return or a failed
assertion. -/
def Res.final {α : Type} : Res α → Option State
  | .ok _ s => some s
  | .assert_fail s => some s
  | .undefined => none
  | .out_of_fuel => none

/-- Relation `P` holds between the flags every context has in `s` and the
flags it has in `s2`. -/
def FlagStep (P : Nat → Nat → Prop) (s s2 : State) : Prop :=
  ∀ c, P (s.ctx c).flags (s2.ctx c).flags

/-- The code outside this file (external capabilities, reactor callbacks)
keeps relation `P` between the flags before and after each of its runs. -/
def EnvKeeps (env : Env) (P : Nat → Nat → Prop) : Prop :=
  (∀ g w t s s2, (env.await_cb g w t s).final = some s2 → FlagStep P s s2) ∧
  (∀ g w t s s2, (env.rouse_cb g w t s).final = some s2 → FlagStep P s s2) ∧
  (∀ g w s s2, (env.close_cb g w s).final = some s2 → FlagStep P s s2) ∧
  (∀ lp s s2, (env.uv_run_once lp s).final = some s2 → FlagStep P s s2)

/-- A relation on flag words that is reflexive and transitive and that the two
assignments `flags |= RAY_ACTIVE` and `flags &= ~RAY_ACTIVE` respect. -/
def FlagRel (P : Nat → Nat → Prop) : Prop :=
  (∀ f, P f f) ∧ (∀ f g h, P f g → P g h → P f h) ∧
  (∀ f, P f (f ||| RAY_ACTIVE)) ∧ (∀ f, P f (f &&& bnot32 RAY_ACTIVE))

/-- The CLOSED bit, if set in `f`, is set in `g`. -/
def Latch (f g : Nat) : Prop :=
  (f &&& RAY_CLOSED != 0) = true → (g &&& RAY_CLOSED != 0) = true

/-- Flag words `f` and `g` of the 32-bit `int flags` agree on every bit other
than bit 0, the ACTIVE bit. -/
def OnlyActive (f g : Nat) : Prop :=
  ∀ i, i ≠ 0 → i < 32 → g.testBit i = f.testBit i

/-- The entry points whose effect on the flags is studied. -/
inductive Op where
  | await (self that : Nat)
  | rouse (self frm : Nat)
  | notify (self : Nat) (narg : Int)
  | close (self : Nat)
  | main_rouse (self frm : Nat)
  | main_await (self that : Nat)

/-- Run one entry point. -/
def Op.run (env : Env) (fuel : Nat) : Op → State → Res Int
  | .await self that, s => rayS_await env fuel self that s
  | .rouse self frm, s => rayS_rouse env self frm s
  | .notify self narg, s => rayS_notify env fuel self narg s
  | .close self, s => rayS_close env self s
  | .main_rouse self frm, s => rayM_main_rouse self frm s
  | .main_await self that, s => rayM_main_await env fuel self that s

/-- Any sequence of attempts at the entry points, each ending in a state (by
a normal return or a failed assertion). -/
inductive Attempts (env : Env) : State → State → Prop
  | done (s : State) : Attempts env s s
  | step (fuel : Nat) (op : Op) (s s1 s2 : State) :
      (Op.run env fuel op s).final = some s1 → Attempts env s1 s2 → Attempts env s s2

/-- Context 1 of `stI` after `rayS_close`. -/
def sClosed : State := (rayS_close envW 1 stI).state stI

/-- Context 1 closed and then made to await on context 0. -/
def sLater : State := (rayS_await envW 1 1 0 sClosed).state stI

/-- The state `stI` with context 1 holding the pin 5. -/
def stPin : State :=
  stI.setCtx 1 { stI.ctx 1 with ref := 5 }

/-! ## Reachable states and membership of wait queues -/

/-- The code outside this file is quiet: the external capabilities and the
reactor iteration, when they return, have not touched any context record
(flags, links, capabilities); in particular they do not call back into the
operations of this file. -/
def QuietEnv (env : Env) : Prop :=
  (∀ g w t s r s2, env.await_cb g w t s = .ok r s2 → s2.ctx = s.ctx) ∧
  (∀ g w t s r s2, env.rouse_cb g w t s = .ok r s2 → s2.ctx = s.ctx) ∧
  (∀ lp s r s2, env.uv_run_once lp s = .ok r s2 → s2.ctx = s.ctx)

/-- The states reachable from context creation: `Reachable env cs s` says
that `s` is reached from an arbitrary initial memory by creating the contexts
listed in `cs` (each at a fresh address, by `rayS_new` or by the first
`rayS_init_main`) and by successful calls of `rayS_await`, `rayS_rouse` and
`rayS_notify` on created contexts. -/
inductive Reachable (env : Env) : List Nat → State → Prop
  | start (s : State) : Reachable env [] s
  | new (cs : List Nat) (s : State) (n L : Nat) (m : Option Nat) (v : Option ray_vtable_t)
      (s2 : State) :
      Reachable env cs s → n ∉ cs → rayS_new n L m v s = .ok n s2 →
      Reachable env (n :: cs) s2
  | main_new (cs : List Nat) (s : State) (n mt L : Nat) (r : Int) (s2 : State) :
      Reachable env cs s → n ∉ cs → s.reg_main = none →
      rayS_init_main env n mt L s = .ok r s2 →
      Reachable env (n :: cs) s2
  | main_again (cs : List Nat) (s : State) (n mt L m : Nat) (r : Int) (s2 : State) :
      Reachable env cs s → s.reg_main = some m →
      rayS_init_main env n mt L s = .ok r s2 →
      Reachable env cs s2
  | await (cs : List Nat) (s : State) (fuel w t : Nat) (r : Int) (s2 : State) :
      Reachable env cs s → w ∈ cs → t ∈ cs →
      rayS_await env fuel w t s = .ok r s2 →
      Reachable env cs s2
  | rouse (cs : List Nat) (s : State) (w frm : Nat) (r : Int) (s2 : State) :
      Reachable env cs s → w ∈ cs →
      rayS_rouse env w frm s = .ok r s2 →
      Reachable env cs s2
  | notify (cs : List Nat) (s : State) (fuel t : Nat) (narg r : Int) (s2 : State) :
      Reachable env cs s → t ∈ cs →
      rayS_notify env fuel t narg s = .ok r s2 →
      Reachable env cs s2

/-- Context `w` is a member of the wait queue of context `t`. -/
def Member (s : State) (t w : Nat) : Prop := ∃ ws, IsQueue s t ws ∧ w ∈ ws

/-- The queue invariant over the created contexts `cs`, with `Q t` the
content of the wait queue of `t`: the queues are well-formed rings; their
members are created, inactive contexts; no context is in two queues; and an
inactive context is in some queue or its `cond` node is linked to itself. -/
def QInv (cs : List Nat) (s : State) (Q : Nat → List Nat) : Prop :=
  (∀ t, t ∈ cs → IsQueue s t (Q t)) ∧
  (∀ t, t ∈ cs → ∀ w, w ∈ Q t → w ∈ cs ∧ rayS_is_active (s.ctx w) = false) ∧
  (∀ t, t ∈ cs → ∀ u, u ∈ cs → ∀ w, w ∈ Q t → w ∈ Q u → t = u) ∧
  (∀ w, w ∈ cs → rayS_is_active (s.ctx w) = false →
    (∃ t, t ∈ cs ∧ w ∈ Q t) ∨ (s.nxt (.cond w) = .cond w ∧ s.prv (.cond w) = .cond w))

/-- The world `sMain` after `rayS_new` has created context 1, with external
capabilities, on thread 0. -/
def sFresh : State := (rayS_new 1 0 none (some ext_v) sMain).state st0

/-- The world `sFresh` after `rayS_rouse(1, 0)`. -/
def sTwo : State := (rayS_rouse envW 1 0 sFresh).state st0

/-- The world `sTwo` after `rayS_await(1, 0)`: context 1 waits on the main
context 0. -/
def sQueued : State := (rayS_await envW 0 1 0 sTwo).state st0

/-- The state in which `rayS_await(0, 1)` returns from `stI` under `envW`:
the main context 0 has awaited on context 1, whose queue was empty. -/
def sBack : State := (rayS_await envW 2 0 1 stI).state stI

/-- The state in which `rayS_await(0, 1)` returns from `stW` under `envW`:
the main context 0, on which context 2 waits, has awaited on context 1. -/
def sFlip : State := (rayS_await envW 3 0 1 stW).state stW

/-- The state in which `rayS_await(0, 1)` returns from the reachable state
`sFresh` under `envW`: the main context 0 has awaited on the new context 1. -/
def sHome : State := (rayS_await envW 2 0 1 sFresh).state st0

/-! ## Flag lemmas -/

theorem is_active_eq (st : ray_state_t) : rayS_is_active st = st.flags.testBit 0 := by
  have h := Nat.and_two_pow st.flags 0
  simp only [pow_zero, mul_one] at h
  unfold rayS_is_active RAY_ACTIVE
  rw [h]
  cases st.flags.testBit 0 <;> simp

theorem is_closed_eq (st : ray_state_t) : rayS_is_closed st = st.flags.testBit 1 := by
  have h := Nat.and_two_pow st.flags 1
  simp only [pow_one] at h
  unfold rayS_is_closed RAY_CLOSED
  rw [h]
  cases st.flags.testBit 1 <;> simp

theorem testBit_set_active (f i : Nat) :
    (f ||| RAY_ACTIVE).testBit i = (f.testBit i || decide (i = 0)) := by
  unfold RAY_ACTIVE
  rw [Nat.testBit_or]
  by_cases h : i = 0
  · subst h; simp
  · have : Nat.testBit 1 i = false := by
      cases hb : Nat.testBit 1 i
      · rfl
      · exact absurd (Nat.testBit_one_eq_true_iff_self_eq_zero.mp hb) h
    simp [this, h]

theorem testBit_clear_active (f i : Nat) :
    (f &&& bnot32 RAY_ACTIVE).testBit i = (f.testBit i && decide (i < 32) && !decide (i = 0)) := by
  unfold RAY_ACTIVE bnot32
  rw [Nat.testBit_and, Nat.testBit_xor, Nat.testBit_two_pow_sub_one]
  by_cases h : i = 0
  · subst h; simp
  · have : Nat.testBit 1 i = false := by
      cases hb : Nat.testBit 1 i
      · rfl
      · exact absurd (Nat.testBit_one_eq_true_iff_self_eq_zero.mp hb) h
    simp [this, h, Bool.and_assoc]

theorem testBit_set_closed (f i : Nat) :
    (f ||| RAY_CLOSED).testBit i = (f.testBit i || decide (i = 1)) := by
  have h2 : RAY_CLOSED = 2 ^ 1 := rfl
  rw [Nat.testBit_or, h2, Nat.testBit_two_pow]
  by_cases h : i = 1
  · subst h; simp
  · have h1 : ¬ 1 = i := fun e => h e.symm
    simp [h, h1]

/-! ## Link lemmas -/

@[simp] theorem relink_flags (s : State) (pv nx : Ptr → Ptr) (c : Nat) :
    ((s.relink pv nx).ctx c).flags = (s.ctx c).flags := rfl

@[simp] theorem relink_v (s : State) (pv nx : Ptr → Ptr) (c : Nat) :
    ((s.relink pv nx).ctx c).v = (s.ctx c).v := rfl

@[simp] theorem relink_L (s : State) (pv nx : Ptr → Ptr) (c : Nat) :
    ((s.relink pv nx).ctx c).L = (s.ctx c).L := rfl

@[simp] theorem relink_ref (s : State) (pv nx : Ptr → Ptr) (c : Nat) :
    ((s.relink pv nx).ctx c).ref = (s.ctx c).ref := rfl

@[simp] theorem relink_lua (s : State) (pv nx : Ptr → Ptr) : (s.relink pv nx).lua = s.lua := rfl

@[simp] theorem relink_log (s : State) (pv nx : Ptr → Ptr) : (s.relink pv nx).log = s.log := rfl

@[simp] theorem relink_reg_loop (s : State) (pv nx : Ptr → Ptr) :
    (s.relink pv nx).reg_loop = s.reg_loop := rfl

theorem relink_nxt (s : State) (pv nx : Ptr → Ptr) (p : Ptr) (h : p ≠ .null) :
    (s.relink pv nx).nxt p = nx p := by
  cases p with
  | null => exact absurd rfl h
  | queue c => rfl
  | cond c => rfl

theorem relink_prv (s : State) (pv nx : Ptr → Ptr) (p : Ptr) (h : p ≠ .null) :
    (s.relink pv nx).prv p = pv p := by
  cases p with
  | null => exact absurd rfl h
  | queue c => rfl
  | cond c => rfl

theorem relink_relink (s : State) (pv nx pv1 nx1 : Ptr → Ptr) :
    (s.relink pv nx).relink pv1 nx1 = s.relink pv1 nx1 := rfl

theorem relink_congr (s : State) (pv nx pv1 nx1 : Ptr → Ptr)
    (hp : ∀ p, p ≠ .null → pv p = pv1 p) (hn : ∀ p, p ≠ .null → nx p = nx1 p) :
    s.relink pv nx = s.relink pv1 nx1 := by
  have a1 : ∀ c, pv (.queue c) = pv1 (.queue c) := fun c => hp _ (by simp)
  have a2 : ∀ c, pv (.cond c) = pv1 (.cond c) := fun c => hp _ (by simp)
  have a3 : ∀ c, nx (.queue c) = nx1 (.queue c) := fun c => hn _ (by simp)
  have a4 : ∀ c, nx (.cond c) = nx1 (.cond c) := fun c => hn _ (by simp)
  simp only [State.relink, a1, a2, a3, a4]

theorem getPrev_eq (s : State) (p : Ptr) (h : p ≠ .null) : s.getPrev p = some (s.prv p) := by
  cases p with
  | null => exact absurd rfl h
  | queue c => rfl
  | cond c => rfl

theorem getNext_eq (s : State) (p : Ptr) (h : p ≠ .null) : s.getNext p = some (s.nxt p) := by
  cases p with
  | null => exact absurd rfl h
  | queue c => rfl
  | cond c => rfl

theorem setPrev_eq (s : State) (p v : Ptr) (h : p ≠ .null) :
    s.setPrev p v = some (s.relink (Function.update s.prv p v) s.nxt) := by
  cases p with
  | null => exact absurd rfl h
  | queue c =>
    simp only [State.setPrev, State.relink, State.setCtx, Option.some.injEq]
    congr 1
    funext i
    by_cases hi : i = c
    · subst hi; simp [State.prv, State.nxt, State.links, Function.update]
    · simp [State.prv, State.nxt, State.links, Function.update, hi]
  | cond c =>
    simp only [State.setPrev, State.relink, State.setCtx, Option.some.injEq]
    congr 1
    funext i
    by_cases hi : i = c
    · subst hi; simp [State.prv, State.nxt, State.links, Function.update]
    · simp [State.prv, State.nxt, State.links, Function.update, hi]

theorem setNext_eq (s : State) (p v : Ptr) (h : p ≠ .null) :
    s.setNext p v = some (s.relink s.prv (Function.update s.nxt p v)) := by
  cases p with
  | null => exact absurd rfl h
  | queue c =>
    simp only [State.setNext, State.relink, State.setCtx, Option.some.injEq]
    congr 1
    funext i
    by_cases hi : i = c
    · subst hi; simp [State.prv, State.nxt, State.links, Function.update]
    · simp [State.prv, State.nxt, State.links, Function.update, hi]
  | cond c =>
    simp only [State.setNext, State.relink, State.setCtx, Option.some.injEq]
    congr 1
    funext i
    by_cases hi : i = c
    · subst hi; simp [State.prv, State.nxt, State.links, Function.update]
    · simp [State.prv, State.nxt, State.links, Function.update, hi]

/-- Closed form of `ngx_queue_insert_tail(h, x)`. -/
theorem insert_tail_eq (s : State) (h x : Ptr) (hh : h ≠ .null) (hx : x ≠ .null)
    (hp : s.prv h ≠ .null) :
    ngx_queue_insert_tail h x s =
      some (s.relink (Function.update (Function.update s.prv x (s.prv h)) h x)
                     (Function.update (Function.update s.nxt (s.prv h) x) x h)) := by
  unfold ngx_queue_insert_tail
  rw [getPrev_eq s h hh]
  simp only [Option.some_bind]
  rw [setPrev_eq s x _ hx]
  simp only [Option.some_bind]
  rw [getPrev_eq _ x hx, relink_prv _ _ _ _ hx]
  simp only [Option.some_bind, Function.update_same]
  rw [setNext_eq _ _ _ hp]
  simp only [Option.some_bind, relink_relink]
  rw [setNext_eq _ _ _ hx]
  simp only [Option.some_bind, relink_relink]
  rw [setPrev_eq _ _ _ hh]
  simp only [Option.some.injEq, relink_relink]
  apply relink_congr
  · intro p hpn
    by_cases e1 : p = h
    · rw [e1, Function.update_same, Function.update_same]
    · by_cases e2 : p = x
      · subst e2; simp [Function.update, e1, relink_prv _ _ _ _ hpn]
      · simp [Function.update, e1, e2, relink_prv _ _ _ _ hpn]
  · intro p hpn
    by_cases e1 : p = x
    · subst e1; simp [Function.update, relink_nxt _ _ _ _ hpn]
    · by_cases e2 : p = s.prv h
      · simp [Function.update, e1, e2, relink_nxt _ _ _ _ hp]
      · simp [Function.update, e1, e2, relink_nxt _ _ _ _ hpn]

/-- Closed form of `ngx_queue_remove(x)` for a node whose neighbours are other
nodes. -/
theorem remove_eq (s : State) (x : Ptr) (hx : x ≠ .null)
    (hn : s.nxt x ≠ .null) (hp : s.prv x ≠ .null) :
    ngx_queue_remove x s =
      some (s.relink (Function.update s.prv (s.nxt x) (s.prv x))
                     (Function.update s.nxt (s.prv x) (s.nxt x))) := by
  unfold ngx_queue_remove
  rw [getNext_eq s x hx, getPrev_eq s x hx]
  simp only [Option.some_bind]
  rw [setPrev_eq s _ _ hn]
  simp only [Option.some_bind]
  rw [getPrev_eq _ x hx, getNext_eq _ x hx, relink_prv _ _ _ _ hx, relink_nxt _ _ _ _ hx]
  have e : Function.update s.prv (s.nxt x) (s.prv x) x = s.prv x := by
    simp [Function.update]
  simp only [Option.some_bind, e]
  rw [setNext_eq _ _ _ hp]
  simp only [Option.some.injEq, relink_relink]
  apply relink_congr
  · intro p hpn
    simp [relink_prv _ _ _ _ hpn]
  · intro p hpn
    by_cases e1 : p = s.prv x
    · rw [e1, Function.update_same, Function.update_same]
    · simp [Function.update, e1, relink_nxt _ _ _ _ hpn]

/-! ## Chains -/

theorem lastNode_nil (a : Ptr) : lastNode a [] = a := rfl

theorem lastNode_cons (a : Ptr) (w : Nat) (l : List Nat) :
    lastNode a (w :: l) = lastNode (.cond w) l := by
  cases l <;> rfl

theorem lastNode_mem (a : Ptr) (l : List Nat) : lastNode a l ∈ a :: l.map Ptr.cond := by
  induction l generalizing a with
  | nil => simp [lastNode_nil]
  | cons w l ih =>
    rw [lastNode_cons]
    have := ih (.cond w)
    simp only [List.map_cons, List.mem_cons] at this ⊢
    exact Or.inr this

theorem lastNode_ne_null (a : Ptr) (l : List Nat) (ha : a ≠ .null) : lastNode a l ≠ .null := by
  induction l generalizing a with
  | nil => simpa [lastNode_nil] using ha
  | cons w l ih => rw [lastNode_cons]; exact ih _ (by simp)

theorem firstNode_ne_null (l : List Nat) (z : Ptr) (hz : z ≠ .null) : firstNode l z ≠ .null := by
  cases l with
  | nil => simpa [firstNode] using hz
  | cons w l => simp [firstNode]

theorem Seg_nxt_start {s : State} {a : Ptr} {l : List Nat} {z : Ptr} (h : Seg s a l z) :
    s.nxt a = firstNode l z := by
  cases l with
  | nil => exact h.1
  | cons w l => exact h.1.1

theorem Seg_prv_end {s : State} {a : Ptr} {l : List Nat} {z : Ptr} (h : Seg s a l z) :
    s.prv z = lastNode a l := by
  induction l generalizing a with
  | nil => exact h.2
  | cons w l ih => rw [lastNode_cons]; exact ih h.2

/-- A chain only depends on the `next` links of its nodes other than the end
and on the `prev` links of its nodes other than the start. -/
theorem Seg_frame {s s1 : State} {a : Ptr} {l : List Nat} {z : Ptr}
    (hn : ∀ p, p ∈ a :: l.map Ptr.cond → s1.nxt p = s.nxt p)
    (hp : ∀ p, p ∈ l.map Ptr.cond ++ [z] → s1.prv p = s.prv p)
    (h : Seg s a l z) : Seg s1 a l z := by
  induction l generalizing a with
  | nil =>
    refine ⟨?_, ?_⟩
    · rw [hn a (by simp)]; exact h.1
    · rw [hp z (by simp)]; exact h.2
  | cons w l ih =>
    refine ⟨⟨?_, ?_⟩, ?_⟩
    · rw [hn a (by simp)]; exact h.1.1
    · rw [hp (.cond w) (by simp)]; exact h.1.2
    · apply ih _ _ h.2
      · intro p hp1
        apply hn
        simp only [List.map_cons, List.mem_cons] at hp1 ⊢
        exact Or.inr hp1
      · intro p hp1
        apply hp
        simp only [List.map_cons, List.cons_append, List.mem_cons]
        exact Or.inr hp1

theorem Seg_append {s : State} {a : Ptr} {l1 : List Nat} {w : Nat} {l2 : List Nat} {z : Ptr} :
    Seg s a (l1 ++ w :: l2) z ↔ Seg s a l1 (.cond w) ∧ Seg s (.cond w) l2 z := by
  induction l1 generalizing a with
  | nil => simp [Seg]
  | cons v l1 ih =>
    show Linked s a (.cond v) ∧ Seg s (.cond v) (l1 ++ w :: l2) z ↔
      (Linked s a (.cond v) ∧ Seg s (.cond v) l1 (.cond w)) ∧ Seg s (.cond w) l2 z
    rw [ih]
    exact and_assoc.symm

/-- Redirecting the last link of a chain to a new end node. -/
theorem Seg_retarget {s s1 : State} {a : Ptr} {l : List Nat} {x y : Ptr}
    (hnd : (a :: l.map Ptr.cond).Nodup)
    (h : Seg s a l x)
    (h1 : s1.nxt (lastNode a l) = y) (h2 : s1.prv y = lastNode a l)
    (hn : ∀ p, p ∈ a :: l.map Ptr.cond → p ≠ lastNode a l → s1.nxt p = s.nxt p)
    (hp : ∀ p, p ∈ l.map Ptr.cond → s1.prv p = s.prv p) :
    Seg s1 a l y := by
  induction l generalizing a with
  | nil => exact ⟨by simpa [lastNode_nil] using h1, by simpa [lastNode_nil] using h2⟩
  | cons w l ih =>
    rw [lastNode_cons] at h1 h2 hn
    have hnd1 : (Ptr.cond w :: l.map Ptr.cond).Nodup := (List.nodup_cons.mp hnd).2
    have ha : a ∉ Ptr.cond w :: l.map Ptr.cond := (List.nodup_cons.mp hnd).1
    refine ⟨⟨?_, ?_⟩, ?_⟩
    · rw [hn a (by simp)]
      · exact h.1.1
      · intro e
        exact ha (e ▸ lastNode_mem (.cond w) l)
    · rw [hp (.cond w) (by simp)]; exact h.1.2
    · apply ih hnd1 h.2 h1 h2
      · intro p hp1 hp2
        apply hn p _ hp2
        simp only [List.map_cons, List.mem_cons] at hp1 ⊢
        exact Or.inr hp1
      · intro p hp1
        apply hp
        simp only [List.map_cons, List.mem_cons]
        exact Or.inr hp1

theorem cond_mem_map {w : Nat} {l : List Nat} : Ptr.cond w ∈ l.map Ptr.cond ↔ w ∈ l := by
  simp [List.mem_map]

theorem queue_not_mem_map (t : Nat) (l : List Nat) : Ptr.queue t ∉ l.map Ptr.cond := by
  simp [List.mem_map]

theorem nodes_nodup (t : Nat) {l : List Nat} (h : l.Nodup) :
    (Ptr.queue t :: l.map Ptr.cond).Nodup := by
  refine List.nodup_cons.mpr ⟨queue_not_mem_map t l, ?_⟩
  exact (List.nodup_map_iff (fun a b e => by injection e)).mpr h

/-- Following `next` links along a chain visits its nodes in order. -/
theorem Seg_walk {s : State} {a : Ptr} {l : List Nat} {z : Ptr} (h : Seg s a l z) :
    ∀ k, k ≤ l.length → (l.map Ptr.cond ++ [z])[k]? = some (s.nxt^[k + 1] a) := by
  induction l generalizing a with
  | nil =>
    intro k hk
    have hk0 : k = 0 := by simpa using hk
    subst hk0
    simp [h.1]
  | cons w l ih =>
    intro k hk
    cases k with
    | zero => simp [h.1.1]
    | succ k =>
      have := ih h.2 k (by simpa using hk)
      rw [Function.iterate_succ_apply, h.1.1]
      simpa using this

/-- A chain that ends at a queue head never visits a context twice, so the
distinctness required by `IsQueue` follows from the links alone. -/
theorem Seg_nodup {s : State} {a : Ptr} {l : List Nat} {t : Nat} (h : Seg s a l (.queue t)) :
    l.Nodup := by
  induction l generalizing a with
  | nil => exact List.nodup_nil
  | cons w l ih =>
    refine List.nodup_cons.mpr ⟨?_, ih h.2⟩
    intro hw
    obtain ⟨l1, l2, e⟩ := List.append_of_mem hw
    subst e
    have h2 := h.2
    have hs := Seg_append.mp h2
    have w1 := Seg_walk hs.2 l2.length (le_refl _)
    have w2 := Seg_walk h2 l2.length (by simp; omega)
    have e1 : (l2.map Ptr.cond ++ [Ptr.queue t])[l2.length]? = some (Ptr.queue t) := by
      rw [List.getElem?_append_right (by simp)]
      simp
    rw [e1] at w1
    rw [← w1, List.getElem?_append_left (by simp; omega)] at w2
    exact queue_not_mem_map t _ (List.mem_iff_getElem?.mpr ⟨_, w2⟩)

theorem IsQueue_iff_ring (s : State) (t : Nat) (l : List Nat) :
    IsQueue s t l ↔ Seg s (.queue t) l (.queue t) :=
  ⟨fun h => h.1, fun h => ⟨h, Seg_nodup h⟩⟩

/-! ## Frame lemmas for the state accessors -/

@[simp] theorem trace_ctx (s : State) (e : Event) : (s.trace e).ctx = s.ctx := rfl

@[simp] theorem trace_lua (s : State) (e : Event) : (s.trace e).lua = s.lua := rfl

@[simp] theorem trace_log (s : State) (e : Event) : (s.trace e).log = s.log ++ [e] := rfl

@[simp] theorem trace_reg_loop (s : State) (e : Event) : (s.trace e).reg_loop = s.reg_loop := rfl

@[simp] theorem trace_nxt (s : State) (e : Event) : (s.trace e).nxt = s.nxt := rfl

@[simp] theorem trace_prv (s : State) (e : Event) : (s.trace e).prv = s.prv := rfl

@[simp] theorem setLua_ctx (s : State) (l : Nat) (st : List TValue) :
    (s.setLua l st).ctx = s.ctx := rfl

@[simp] theorem setLua_log (s : State) (l : Nat) (st : List TValue) :
    (s.setLua l st).log = s.log := rfl

@[simp] theorem setLua_reg_loop (s : State) (l : Nat) (st : List TValue) :
    (s.setLua l st).reg_loop = s.reg_loop := rfl

@[simp] theorem setLua_nxt (s : State) (l : Nat) (st : List TValue) :
    (s.setLua l st).nxt = s.nxt := rfl

@[simp] theorem setLua_prv (s : State) (l : Nat) (st : List TValue) :
    (s.setLua l st).prv = s.prv := rfl

theorem setLua_lua (s : State) (l : Nat) (st : List TValue) (i : Nat) :
    (s.setLua l st).lua i = if i = l then st else s.lua i := rfl

@[simp] theorem setFlags_lua (s : State) (c f : Nat) : (s.setFlags c f).lua = s.lua := rfl

@[simp] theorem setFlags_log (s : State) (c f : Nat) : (s.setFlags c f).log = s.log := rfl

@[simp] theorem setFlags_reg_loop (s : State) (c f : Nat) :
    (s.setFlags c f).reg_loop = s.reg_loop := rfl

theorem setFlags_flags (s : State) (c f i : Nat) :
    ((s.setFlags c f).ctx i).flags = if i = c then f else (s.ctx i).flags := by
  simp only [State.setFlags, State.setCtx]
  by_cases h : i = c
  · subst h; simp
  · simp [h]

@[simp] theorem setFlags_v (s : State) (c f i : Nat) :
    ((s.setFlags c f).ctx i).v = (s.ctx i).v := by
  simp only [State.setFlags, State.setCtx]
  by_cases h : i = c
  · subst h; simp
  · simp [h]

@[simp] theorem setFlags_L (s : State) (c f i : Nat) :
    ((s.setFlags c f).ctx i).L = (s.ctx i).L := by
  simp only [State.setFlags, State.setCtx]
  by_cases h : i = c
  · subst h; simp
  · simp [h]

@[simp] theorem setFlags_ref (s : State) (c f i : Nat) :
    ((s.setFlags c f).ctx i).ref = (s.ctx i).ref := by
  simp only [State.setFlags, State.setCtx]
  by_cases h : i = c
  · subst h; simp
  · simp [h]

@[simp] theorem setFlags_links (s : State) (c f : Nat) (p : Ptr) :
    (s.setFlags c f).links p = s.links p := by
  cases p with
  | null => rfl
  | queue i =>
    simp only [State.links, State.setFlags, State.setCtx]
    by_cases h : i = c
    · subst h; simp
    · simp [h]
  | cond i =>
    simp only [State.links, State.setFlags, State.setCtx]
    by_cases h : i = c
    · subst h; simp
    · simp [h]

@[simp] theorem setFlags_nxt (s : State) (c f : Nat) : (s.setFlags c f).nxt = s.nxt := by
  funext p; simp [State.nxt]

@[simp] theorem setFlags_prv (s : State) (c f : Nat) : (s.setFlags c f).prv = s.prv := by
  funext p; simp [State.prv]

theorem Seg_congr {s s1 : State} (hn : s1.nxt = s.nxt) (hp : s1.prv = s.prv)
    {a : Ptr} {l : List Nat} {z : Ptr} (h : Seg s a l z) : Seg s1 a l z :=
  Seg_frame (fun p _ => by rw [hn]) (fun p _ => by rw [hp]) h

theorem IsQueue_congr {s s1 : State} (hn : s1.nxt = s.nxt) (hp : s1.prv = s.prv)
    {t : Nat} {l : List Nat} (h : IsQueue s t l) : IsQueue s1 t l :=
  ⟨Seg_congr hn hp h.1, h.2⟩

/-! ## Queue operations on well-formed queues -/

theorem IsQueue_prv_ne_null {s : State} {t : Nat} {l : List Nat} (h : IsQueue s t l) :
    s.prv (.queue t) ≠ .null := by
  rw [Seg_prv_end h.1]; exact lastNode_ne_null _ _ (by simp)

theorem insert_tail_queue {s : State} {t : Nat} {l : List Nat} (h : IsQueue s t l) (w : Nat) :
    ngx_queue_insert_tail (.queue t) (.cond w) s = some (s.inserted t w) :=
  insert_tail_eq s _ _ (by simp) (by simp) (IsQueue_prv_ne_null h)

theorem IsQueue_inserted {s : State} {t : Nat} {l : List Nat} (h : IsQueue s t l) {w : Nat}
    (hw : w ∉ l) : IsQueue (s.inserted t w) t (l ++ [w]) := by
  have hlast := Seg_prv_end h.1
  have hnd := nodes_nodup t h.2
  have hlm := lastNode_mem (.queue t) l
  have hwn : Ptr.cond w ∉ Ptr.queue t :: l.map Ptr.cond := by
    simp only [List.mem_cons, cond_mem_map]
    rintro (e | e)
    · exact absurd e (by simp)
    · exact hw e
  have hlw : lastNode (.queue t) l ≠ .cond w := fun e => hwn (e ▸ hlm)
  refine ⟨Seg_append.mpr ⟨?_, ?_, ?_⟩, ?_⟩
  · apply Seg_retarget hnd h.1
    · rw [State.inserted, relink_nxt _ _ _ _ (lastNode_ne_null _ _ (by simp)), hlast]
      simp [Function.update, hlw]
    · rw [State.inserted, relink_prv _ _ _ _ (by simp), hlast]
      simp [Function.update]
    · intro p hp1 hp2
      have hpn : p ≠ .null := by
        rintro rfl
        simp [List.mem_map] at hp1
      have hpw : p ≠ .cond w := fun e => hwn (e ▸ hp1)
      rw [State.inserted, relink_nxt _ _ _ _ hpn, hlast]
      simp [Function.update, hpw, hp2]
    · intro p hp1
      have hpn : p ≠ .null := by
        rintro rfl
        simp [List.mem_map] at hp1
      have hpw : p ≠ .cond w := fun e => hwn (e ▸ List.mem_cons_of_mem _ hp1)
      have hpq : p ≠ .queue t := fun e => queue_not_mem_map t l (e ▸ hp1)
      rw [State.inserted, relink_prv _ _ _ _ hpn]
      simp [Function.update, hpw, hpq]
  · rw [State.inserted, relink_nxt _ _ _ _ (by simp)]
    simp [Function.update]
  · rw [State.inserted, relink_prv _ _ _ _ (by simp)]
    simp [Function.update]
  · exact List.nodup_append.mpr ⟨h.2, List.nodup_singleton w, by
      intro a ha hb
      rw [List.mem_singleton] at hb
      exact hw (hb ▸ ha)⟩

theorem remove_queue {s : State} {t : Nat} {l1 : List Nat} {w : Nat} {l2 : List Nat}
    (h : IsQueue s t (l1 ++ w :: l2)) :
    ngx_queue_remove (.cond w) s = some (s.removed (.cond w)) := by
  have hs := Seg_append.mp h.1
  apply remove_eq s _ (by simp)
  · rw [Seg_nxt_start hs.2]; exact firstNode_ne_null _ _ (by simp)
  · rw [Seg_prv_end hs.1]; exact lastNode_ne_null _ _ (by simp)

theorem IsQueue_removed {s : State} {t : Nat} {l1 : List Nat} {w : Nat} {l2 : List Nat}
    (h : IsQueue s t (l1 ++ w :: l2)) : IsQueue (s.removed (.cond w)) t (l1 ++ l2) := by
  have hs := Seg_append.mp h.1
  have hxp := Seg_prv_end hs.1
  have hxn := Seg_nxt_start hs.2
  have hnd : (l1 ++ w :: l2).Nodup := h.2
  have hnd1 : l1.Nodup := (List.nodup_append.mp hnd).1
  have hnd2 : (w :: l2).Nodup := (List.nodup_append.mp hnd).2.1
  have hdis : ∀ a, a ∈ l1 → a ∉ w :: l2 := fun a ha hb => (List.nodup_append.mp hnd).2.2 ha hb
  have hlast_ne : lastNode (.queue t) l1 ≠ .null := lastNode_ne_null _ _ (by simp)
  have hlm := lastNode_mem (.queue t) l1
  have hres : (l1 ++ l2).Nodup := by
    refine List.nodup_append.mpr ⟨hnd1, (List.nodup_cons.mp hnd2).2, ?_⟩
    intro a ha hb
    exact hdis a ha (List.mem_cons_of_mem _ hb)
  -- the first part of the ring, redirected to an arbitrary new end node `y`
  have first : ∀ y, y ≠ .null → y ∉ l1.map Ptr.cond → s.nxt (.cond w) = y →
      Seg (s.removed (.cond w)) (.queue t) l1 y := by
    intro y hy hyl hny
    apply Seg_retarget (nodes_nodup t hnd1) hs.1
    · rw [State.removed, relink_nxt _ _ _ _ hlast_ne, hxp, hny]
      simp [Function.update]
    · rw [State.removed, relink_prv _ _ _ _ hy, hxp, hny]
      simp [Function.update]
    · intro p hp1 hp2
      have hpn : p ≠ .null := by
        rintro rfl
        simp [List.mem_map] at hp1
      rw [State.removed, relink_nxt _ _ _ _ hpn, hxp]
      simp [Function.update, hp2]
    · intro p hp1
      have hpn : p ≠ .null := by
        rintro rfl
        simp [List.mem_map] at hp1
      have hpy : p ≠ y := fun e => hyl (e ▸ hp1)
      rw [State.removed, relink_prv _ _ _ _ hpn, hny]
      simp [Function.update, hpy]
  refine ⟨?_, hres⟩
  cases l2 with
  | nil =>
    rw [List.append_nil]
    exact first (.queue t) (by simp) (queue_not_mem_map t l1) (by rw [hxn]; rfl)
  | cons w2 l2 =>
    have hw2 : w2 ∉ l1 := fun e => hdis w2 e (by simp)
    have hww2 : w ≠ w2 := fun e => (List.nodup_cons.mp hnd2).1 (e ▸ List.mem_cons_self _ _)
    have hnd3 : (w2 :: l2).Nodup := (List.nodup_cons.mp hnd2).2
    refine Seg_append.mpr ⟨first (.cond w2) (by simp) (by simpa [cond_mem_map] using hw2)
      (by rw [hxn]; rfl), ?_⟩
    have hs2 : Seg s (.cond w2) l2 (.queue t) := hs.2.2
    apply Seg_frame _ _ hs2
    · intro p hp1
      have hpn : p ≠ .null := by
        rintro rfl
        simp [List.mem_map] at hp1
      have hpl : p ≠ lastNode (.queue t) l1 := by
        intro e
        rw [e] at hp1
        simp only [List.mem_cons] at hlm hp1
        rcases hlm with e1 | e1
        · rw [e1] at hp1
          rcases hp1 with e2 | e2
          · exact absurd e2 (by simp)
          · exact queue_not_mem_map t l2 e2
        · obtain ⟨a, ha, hae⟩ := List.mem_map.mp e1
          rw [← hae] at hp1
          rcases hp1 with e2 | e2
          · injection e2 with e3
            exact hw2 (e3 ▸ ha)
          · exact hdis a ha (List.mem_cons_of_mem _ (List.mem_cons_of_mem _ (cond_mem_map.mp e2)))
      rw [State.removed, relink_nxt _ _ _ _ hpn, hxp]
      simp [Function.update, hpl]
    · intro p hp1
      have hpn : p ≠ .null := by
        rintro rfl
        simp [List.mem_map] at hp1
      have hpx : p ≠ .cond w2 := by
        intro e
        rw [e] at hp1
        simp only [List.mem_append, cond_mem_map, List.mem_singleton] at hp1
        rcases hp1 with e1 | e1
        · exact (List.nodup_cons.mp hnd3).1 e1
        · exact absurd e1 (by simp)
      rw [State.removed, relink_prv _ _ _ _ hpn, hxn]
      simp [Function.update, firstNode, hpx]

/-! ## Value transfer lemmas -/

theorem setLua_setLua (s : State) (l : Nat) (a b : List TValue) :
    (s.setLua l a).setLua l b = s.setLua l b := by
  simp only [State.setLua]
  congr 1
  funext i
  by_cases h : i = l <;> simp [h]

theorem setLua_self (s : State) (l : Nat) : s.setLua l (s.lua l) = s := by
  cases s
  simp only [State.setLua]
  congr 1
  funext i
  by_cases h : i = l
  · subst h; simp
  · simp [h]

theorem setLua_comm (s : State) (l1 l2 : Nat) (a b : List TValue) (h : l1 ≠ l2) :
    (s.setLua l1 a).setLua l2 b = (s.setLua l2 b).setLua l1 a := by
  simp only [State.setLua]
  congr 1
  funext i
  by_cases h1 : i = l1
  · subst h1; simp [h]
  · by_cases h2 : i = l2
    · subst h2; simp [h1]
    · simp [h1, h2]

theorem lua_settop_zero (st : List TValue) : lua_settop st 0 = some [] := by
  simp [lua_settop]

theorem lua_pushvalue_pos (pre vs ex : List TValue) (k : Nat) (hk : k < vs.length) :
    lua_pushvalue (pre ++ vs ++ ex) ((pre.length : Int) + k + 1) =
      some (pre ++ vs ++ ex ++ [vs[k]]) := by
  have h0 : (0 : Int) < (pre.length : Int) + k + 1 := by omega
  have h1 : ((pre.length : Int) + k + 1).toNat - 1 = pre.length + k := by omega
  simp only [lua_pushvalue, h0, if_true, h1, Option.some.injEq]
  congr 2
  rw [List.getD_eq_getElem?_getD, List.append_assoc, List.getElem?_append_right (by omega)]
  simp [List.getElem?_append_left hk, List.getElem?_eq_getElem hk]

/-- The push loop of `rayS_xcopy` duplicates the top values one by one. -/
theorem xcopy_push_spec (l : Nat) (pre vs : List TValue) :
    ∀ (n k : Nat) (s : State), k + n ≤ vs.length → s.lua l = pre ++ vs ++ vs.take k →
      xcopy_push l n ((pre.length : Int) + k + 1) s =
        .ok () (s.setLua l (pre ++ vs ++ vs.take (k + n))) := by
  intro n
  induction n with
  | zero =>
    intro k s _ hs
    simp only [xcopy_push, Nat.add_zero]
    rw [← hs, setLua_self]
  | succ n ih =>
    intro k s hk hs
    have hk1 : k < vs.length := by omega
    simp only [xcopy_push]
    rw [hs, lua_pushvalue_pos pre vs _ k hk1]
    simp only
    have e : (pre.length : Int) + k + 1 + 1 = (pre.length : Int) + ((k + 1 : Nat) : Int) + 1 := by
      push_cast; ring
    have htk : vs.take (k + 1) = vs.take k ++ [vs[k]] := by
      rw [List.take_succ, List.getElem?_eq_getElem hk1]; rfl
    have hst : (s.setLua l (pre ++ vs ++ vs.take k ++ [vs[k]])).lua l
        = pre ++ vs ++ vs.take (k + 1) := by
      rw [setLua_lua, if_pos rfl, htk, List.append_assoc (pre ++ vs)]
    have e2 : k + 1 + n = k + (n + 1) := by omega
    rw [e, ih (k + 1) _ (by omega) hst, setLua_setLua, e2]

/-- Effect of `rayS_xcopy` when the source holds at least `narg` values and the
two contexts own different stacks: the destination stack becomes the top
`narg` values of the source, the source is unchanged. -/
theorem xcopy_spec (env : Env) (a b la lb : Nat) (pre vs : List TValue) (s : State)
    (hla : (s.ctx a).L = some la) (hlb : (s.ctx b).L = some lb) (hne : la ≠ lb)
    (hs : s.lua la = pre ++ vs) :
    rayS_xcopy env a b vs.length s = .ok vs.length (s.setLua lb vs) := by
  unfold rayS_xcopy
  simp only [hla, hlb, lua_settop_zero, lua_gettop, hs, List.length_append, Int.toNat_ofNat]
  have hb : ((pre.length + vs.length : Nat) : Int) - (vs.length : Int) + 1
      = (pre.length : Int) + ((0 : Nat) : Int) + 1 := by push_cast; ring
  have hs1 : (s.setLua lb []).lua la = pre ++ vs ++ vs.take 0 := by
    simp [setLua_lua, hne, hs]
  rw [hb, xcopy_push_spec la pre vs vs.length 0 _ (by omega) hs1]
  simp only [Res.bind, Nat.zero_add, List.take_length]
  have hx : lua_xmove la lb vs.length ((s.setLua lb []).setLua la (pre ++ vs ++ vs))
      = some (s.setLua lb vs) := by
    unfold lua_xmove
    simp only [hne, if_false, setLua_lua, if_true, List.length_append]
    have hc : (0 : Int) ≤ vs.length ∧ (vs.length : Int) ≤ ((pre.length + vs.length + vs.length : Nat) : Int) := by
      constructor <;> omega
    simp only [hc, and_self, if_true, Int.toNat_ofNat, Option.some.injEq]
    have hk : pre.length + vs.length + vs.length - vs.length = (pre ++ vs).length := by
      simp
    rw [hk, List.take_left, List.drop_left]
    have hne2 : lb ≠ la := fun e => hne (Eq.symm e)
    simp only [hne2, if_false, List.nil_append]
    rw [setLua_setLua, setLua_comm _ _ _ _ _ hne, setLua_setLua, ← hs,
      setLua_comm _ _ _ _ _ hne2, setLua_self]
  rw [hx]
  simp [setLua_lua, hne, hs]

/-! ## Rouse on a queued context -/

theorem nxt_of_ctx {s s1 : State} (h : s1.ctx = s.ctx) : s1.nxt = s.nxt := by
  funext p
  cases p <;> simp [State.nxt, State.links, h]

theorem prv_of_ctx {s s1 : State} (h : s1.ctx = s.ctx) : s1.prv = s.prv := by
  funext p
  cases p <;> simp [State.prv, State.links, h]

theorem rouse_calls_append (a b : List Event) :
    rouse_calls (a ++ b) = rouse_calls a ++ rouse_calls b := by
  induction a with
  | nil => rfl
  | cons e a ih => cases e <;> simp [rouse_calls, ih]

theorem polls_append (a b : List Event) : polls (a ++ b) = polls a + polls b := by
  induction a with
  | nil => simp [polls]
  | cons e a ih =>
    cases e <;> simp [polls, ih]
    omega

theorem rouse_step (env : Env) {s : State} {t : Nat} {l1 : List Nat} {w : Nat} {l2 : List Nat}
    (frm : Nat) (hq : IsQueue s t (l1 ++ w :: l2)) (hw : rayS_is_active (s.ctx w) = false) :
    rayS_rouse env w frm s = call_rouse env (s.ctx w).v.rouse w frm (s.roused w frm) := by
  have hq1 : IsQueue ((s.trace (.trace_rouse w frm)).setFlags w ((s.ctx w).flags ||| RAY_ACTIVE))
      t (l1 ++ w :: l2) := IsQueue_congr (by simp) (by simp) hq
  unfold rayS_rouse
  simp only [trace_ctx, hw, Bool.false_eq_true, if_false, remove_queue hq1]
  simp [State.roused, State.removed]

theorem roused_queue {s : State} {t : Nat} {l1 : List Nat} {w : Nat} {l2 : List Nat}
    (frm : Nat) (hq : IsQueue s t (l1 ++ w :: l2)) : IsQueue (s.roused w frm) t (l1 ++ l2) := by
  have hq1 : IsQueue ((s.trace (.trace_rouse w frm)).setFlags w ((s.ctx w).flags ||| RAY_ACTIVE))
      t (l1 ++ w :: l2) := IsQueue_congr (by simp) (by simp) hq
  exact IsQueue_congr (by simp [State.roused]) (by simp [State.roused]) (IsQueue_removed hq1)

theorem roused_flags (s : State) (w frm i : Nat) :
    ((s.roused w frm).ctx i).flags
      = if i = w then (s.ctx w).flags ||| RAY_ACTIVE else (s.ctx i).flags := by
  simp [State.roused, State.removed, setFlags_flags]

@[simp] theorem roused_v (s : State) (w frm i : Nat) :
    ((s.roused w frm).ctx i).v = (s.ctx i).v := by
  simp [State.roused, State.removed]

@[simp] theorem roused_L (s : State) (w frm i : Nat) :
    ((s.roused w frm).ctx i).L = (s.ctx i).L := by
  simp [State.roused, State.removed]

@[simp] theorem roused_lua (s : State) (w frm : Nat) : (s.roused w frm).lua = s.lua := by
  simp [State.roused, State.removed]

@[simp] theorem roused_log (s : State) (w frm : Nat) :
    (s.roused w frm).log = s.log ++ [.trace_rouse w frm, .invoke_rouse w frm] := by
  simp [State.roused, State.removed]

theorem active_set (f : Nat) (st : ray_state_t) (h : st.flags = f ||| RAY_ACTIVE) :
    rayS_is_active st = true := by
  rw [is_active_eq, h, testBit_set_active]; simp

theorem empty_of_queue {s : State} {t : Nat} {l : List Nat} (h : IsQueue s t l) :
    ngx_queue_empty (.queue t) s = some (decide (l = [])) := by
  unfold ngx_queue_empty
  rw [getPrev_eq _ _ (by simp), Seg_prv_end h.1]
  cases l with
  | nil => simp [lastNode_nil]
  | cons w l =>
    have := lastNode_mem (.cond w) l
    rw [lastNode_cons]
    simp only [Option.map_some', Option.some.injEq, decide_eq_decide]
    constructor
    · intro e
      rw [← e] at this
      simp [List.mem_map] at this
    · intro e; simp at e

theorem head_of_queue {s : State} {t : Nat} {w : Nat} {l : List Nat} (h : IsQueue s t (w :: l)) :
    ngx_queue_head (.queue t) s = some (.cond w) := by
  unfold ngx_queue_head
  rw [getNext_eq _ _ (by simp), Seg_nxt_start h.1]; rfl

/-! ## The notify loop -/

theorem is_active_congr {a b : ray_state_t} (h : a.flags = b.flags) :
    rayS_is_active a = rayS_is_active b := by
  simp [rayS_is_active, h]

/-- The optional payload transfer at the top of the loop body of `rayS_notify`. -/
theorem payload_step (env : Env) (t w : Nat) (narg : Int) (lt lw : Nat) (pre vs : List TValue)
    (s : State)
    (hp : narg ≠ 0 → (s.ctx t).L = some lt ∧ s.lua lt = pre ++ vs ∧ narg = vs.length ∧
      (s.ctx w).L = some lw ∧ lw ≠ lt) :
    ∃ r s1, (if narg ≠ 0 then rayS_xcopy env t w narg s else .ok 0 s) = .ok r s1 ∧
      s1.ctx = s.ctx ∧ s1.log = s.log ∧
      (∀ l, (narg = 0 ∨ (s.ctx w).L ≠ some l) → s1.lua l = s.lua l) ∧
      (narg ≠ 0 → ∀ l, (s.ctx w).L = some l → s1.lua l = vs) := by
  by_cases hn : narg = 0
  · refine ⟨0, s, by simp [hn], rfl, rfl, fun _ _ => rfl, fun h => absurd hn h⟩
  · obtain ⟨h1, h2, h3, h4, h5⟩ := hp hn
    refine ⟨vs.length, s.setLua lw vs, ?_, rfl, rfl, ?_, ?_⟩
    · rw [if_pos hn, h3]
      exact xcopy_spec env t w lt lw pre vs s h1 h4 (fun e => h5 e.symm) h2
    · intro l hl
      rcases hl with hl | hl
      · exact absurd hl hn
      · have : l ≠ lw := fun e => hl (e ▸ h4)
        simp [setLua_lua, this]
    · intro _ l hl
      rw [h4] at hl
      injection hl with hl
      simp [setLua_lua, hl]

/-- The loop of `rayS_notify` on a well-formed queue of inactive waiters with
quiet rouse capabilities: it terminates, rouses the waiters head first,
hands each the payload, and leaves the queue empty. -/
theorem notify_loop_spec (env : Env) (keep : Nat → Prop) (t : Nat) (narg : Int) (lt : Nat)
    (pre vs : List TValue) :
    ∀ (ws : List Nat) (s : State) (c : Int) (fuel : Nat), ws.length < fuel →
      IsQueue s t ws →
      (∀ w, w ∈ ws → rayS_is_active (s.ctx w) = false) →
      (∀ w, w ∈ ws → QuietRouse env keep (s.ctx w).v.rouse w t) →
      (narg ≠ 0 → (s.ctx t).L = some lt ∧ s.lua lt = pre ++ vs ∧ narg = vs.length ∧ keep lt ∧
        ∀ w, w ∈ ws → ∃ lw, (s.ctx w).L = some lw ∧ lw ≠ lt) →
      ∃ s1, rayS_notify_loop env fuel t narg c s = .ok (c + ws.length) s1 ∧
        IsQueue s1 t [] ∧
        (∀ i, (s1.ctx i).flags
          = if i ∈ ws then (s.ctx i).flags ||| RAY_ACTIVE else (s.ctx i).flags) ∧
        (∀ i, (s1.ctx i).v = (s.ctx i).v) ∧ (∀ i, (s1.ctx i).L = (s.ctx i).L) ∧
        ((∀ w, w ∈ ws → NoReentry env (s.ctx w).v.rouse w t) →
          rouse_calls s1.log = rouse_calls s.log ++ ws.map (fun w => (w, t))) ∧
        (∀ l, keep l → (narg = 0 ∨ ∀ w, w ∈ ws → (s.ctx w).L ≠ some l) → s1.lua l = s.lua l) ∧
        (narg ≠ 0 → ∀ w, w ∈ ws → ∀ l, (s.ctx w).L = some l → keep l → s1.lua l = vs) := by
  intro ws
  induction ws with
  | nil =>
    intro s c fuel hf hq _ _ _
    obtain ⟨fuel, rfl⟩ : ∃ k, fuel = k + 1 := ⟨fuel - 1, by simp at hf; omega⟩
    refine ⟨s, ?_, hq, ?_, fun _ => rfl, fun _ => rfl, ?_, fun _ _ _ => rfl, ?_⟩
    · simp [rayS_notify_loop, empty_of_queue hq]
    · intro i; simp
    · intro _; simp
    · intro _ w hw; simp at hw
  | cons w ws ih =>
    intro s c fuel hf hq hact hquiet hpay
    obtain ⟨fuel, rfl⟩ : ∃ k, fuel = k + 1 := ⟨fuel - 1, by simp at hf; omega⟩
    have hnd : (w :: ws).Nodup := hq.2
    have hwws : w ∉ ws := (List.nodup_cons.mp hnd).1
    -- payload transfer
    have hpw : narg ≠ 0 → (s.ctx t).L = some lt ∧ s.lua lt = pre ++ vs ∧ narg = vs.length ∧
        (s.ctx w).L = some ((s.ctx w).L.getD 0) ∧ (s.ctx w).L.getD 0 ≠ lt := by
      intro hn
      obtain ⟨h1, h2, h3, _, h5⟩ := hpay hn
      obtain ⟨lw, h6, h7⟩ := h5 w (by simp)
      exact ⟨h1, h2, h3, by simp [h6], by simp [h6, h7]⟩
    obtain ⟨r1, s1, hx, hc1, hlog1, hlua1, hluaw1⟩ :=
      payload_step env t w narg lt ((s.ctx w).L.getD 0) pre vs s hpw
    -- rouse of the head
    have hq1 : IsQueue s1 t ([] ++ w :: ws) := IsQueue_congr (nxt_of_ctx hc1) (prv_of_ctx hc1) hq
    have hw1 : rayS_is_active (s1.ctx w) = false := by rw [hc1]; exact hact w (by simp)
    have hr := rouse_step env t hq1 hw1
    obtain ⟨r2, s2, hcall, hc2, hlua2⟩ := hquiet w (by simp) (s1.roused w t)
    have hcall0 := hcall
    rw [hc1] at hr
    rw [hcall] at hr
    have hq2 : IsQueue s2 t ws :=
      IsQueue_congr (nxt_of_ctx hc2) (prv_of_ctx hc2) (roused_queue t hq1)
    have hflags2 : ∀ i, (s2.ctx i).flags
        = if i = w then (s.ctx w).flags ||| RAY_ACTIVE else (s.ctx i).flags := by
      intro i; rw [hc2, roused_flags, hc1]
    have hv2 : ∀ i, (s2.ctx i).v = (s.ctx i).v := by
      intro i; rw [hc2, roused_v, hc1]
    have hL2 : ∀ i, (s2.ctx i).L = (s.ctx i).L := by
      intro i; rw [hc2, roused_L, hc1]
    have hact2 : ∀ v, v ∈ ws → rayS_is_active (s2.ctx v) = false := by
      intro v hv
      have hvw : v ≠ w := fun e => hwws (e ▸ hv)
      rw [@is_active_congr (s2.ctx v) (s.ctx v) (by rw [hflags2, if_neg hvw])]
      exact hact v (List.mem_cons_of_mem _ hv)
    have hquiet2 : ∀ v, v ∈ ws → QuietRouse env keep (s2.ctx v).v.rouse v t := by
      intro v hv
      rw [hv2]
      exact hquiet v (List.mem_cons_of_mem _ hv)
    have hpay2 : narg ≠ 0 → (s2.ctx t).L = some lt ∧ s2.lua lt = pre ++ vs ∧
        narg = vs.length ∧ keep lt ∧ ∀ v, v ∈ ws → ∃ lw, (s2.ctx v).L = some lw ∧ lw ≠ lt := by
      intro hn
      obtain ⟨h1, h2, h3, h4, h5⟩ := hpay hn
      obtain ⟨lw, h6, h7⟩ := h5 w (by simp)
      refine ⟨by rw [hL2]; exact h1, ?_, h3, h4, ?_⟩
      · rw [hlua2 lt h4, roused_lua, hlua1 lt (Or.inr (by rw [h6]; simp [h7])), h2]
      · intro v hv
        rw [hL2]
        exact h5 v (List.mem_cons_of_mem _ hv)
    obtain ⟨s3, hloop, hq3, hflags3, hv3, hL3, hlog3, hlua3, hluaw3⟩ :=
      ih s2 (c + 1) fuel (by simp at hf; omega) hq2 hact2 hquiet2 hpay2
    refine ⟨s3, ?_, hq3, ?_, ?_, ?_, ?_, ?_, ?_⟩
    · simp only [rayS_notify_loop, empty_of_queue hq, head_of_queue hq, ngx_queue_data,
        List.cons_ne_nil, decide_False, hx, Res.bind, hr, hloop, List.length_cons]
      congr 1
      push_cast
      ring
    · intro i
      rw [hflags3, hflags2]
      by_cases hi : i = w
      · subst hi
        simp [hwws]
      · simp [hi]
    · intro i; rw [hv3, hv2]
    · intro i; rw [hL3, hL2]
    · intro hnr
      have hlog2 : rouse_calls s2.log = rouse_calls (s1.roused w t).log := by
        exact hnr w (by simp) (s1.roused w t) r2 s2 hcall0
      rw [hlog3 (fun v hv => by rw [hv2]; exact hnr v (List.mem_cons_of_mem _ hv)), hlog2,
        roused_log, hlog1, rouse_calls_append]
      simp [rouse_calls, List.append_assoc]
    · intro l hk hl
      have hl2 : narg = 0 ∨ ∀ v, v ∈ ws → (s2.ctx v).L ≠ some l := by
        rcases hl with hl | hl
        · exact Or.inl hl
        · refine Or.inr fun v hv => ?_
          rw [hL2]
          exact hl v (List.mem_cons_of_mem _ hv)
      rw [hlua3 l hk hl2, hlua2 l hk, roused_lua]
      apply hlua1
      rcases hl with hl | hl
      · exact Or.inl hl
      · exact Or.inr (hl w (by simp))
    · intro hn v hv l hvl hk
      by_cases hex : ∃ u, u ∈ ws ∧ (s.ctx u).L = some l
      · obtain ⟨u, hu, hul⟩ := hex
        exact hluaw3 hn u hu l (by rw [hL2]; exact hul) hk
      · have hvw : v = w := by
          rcases List.mem_cons.mp hv with e | e
          · exact e
          · exact absurd ⟨v, e, hvl⟩ hex
        subst hvw
        have hl2 : narg = 0 ∨ ∀ u, u ∈ ws → (s2.ctx u).L ≠ some l := by
          refine Or.inr fun u hu e => hex ⟨u, hu, ?_⟩
          rw [← hL2]; exact e
        rw [hlua3 l hk hl2, hlua2 l hk, roused_lua]
        exact hluaw1 hn l hvl

theorem lua_pop_append (pre vs : List TValue) (n : Int) (hn : n = vs.length) :
    lua_pop (pre ++ vs) n = some pre := by
  subst hn
  unfold lua_pop lua_settop
  have h1 : ¬ (0 : Int) ≤ -(vs.length : Int) - 1 := by omega
  have h2 : -(-(vs.length : Int) - 1 + 1) ≤ ((pre ++ vs).length : Int) := by
    simp only [List.length_append]; push_cast; omega
  have h3 : (-(-(vs.length : Int) - 1 + 1)).toNat = vs.length := by omega
  simp only [h1, if_false, h2, if_true, h3, Option.some.injEq]
  simp

/-- Specification of `rayS_notify` on a well-formed queue `ws` of inactive
waiters with quiet rouse capabilities.  `vs` is the payload: the top values
of the stack of `t` selected by `narg` (all of them for `LUA_MULTRET`),
`pre` the values below. -/
theorem notify_spec (env : Env) (keep : Nat → Prop) (t : Nat) (narg : Int) (lt : Nat)
    (pre vs : List TValue) (ws : List Nat) (s : State) (fuel : Nat) (hf : ws.length < fuel)
    (hq : IsQueue s t ws)
    (hact : ∀ w, w ∈ ws → rayS_is_active (s.ctx w) = false)
    (hquiet : ∀ w, w ∈ ws → QuietRouse env keep (s.ctx w).v.rouse w t)
    (hres : narg = vs.length ∨ (narg = LUA_MULTRET ∧ (s.ctx t).L = some lt ∧ s.lua lt = vs))
    (hpay : vs ≠ [] → (s.ctx t).L = some lt ∧ s.lua lt = pre ++ vs ∧ keep lt ∧
      ∀ w, w ∈ ws → ∃ lw, (s.ctx w).L = some lw ∧ lw ≠ lt) :
    ∃ s1, rayS_notify env fuel t narg s = .ok ws.length s1 ∧
      IsQueue s1 t [] ∧
      (∀ i, (s1.ctx i).flags
        = if i ∈ ws then (s.ctx i).flags ||| RAY_ACTIVE else (s.ctx i).flags) ∧
      (∀ i, (s1.ctx i).v = (s.ctx i).v) ∧ (∀ i, (s1.ctx i).L = (s.ctx i).L) ∧
      ((∀ w, w ∈ ws → NoReentry env (s.ctx w).v.rouse w t) →
        rouse_calls s1.log = rouse_calls s.log ++ ws.map (fun w => (w, t))) ∧
      (vs ≠ [] → s1.lua lt = pre) ∧
      (vs ≠ [] → ∀ w, w ∈ ws → ∀ l, (s.ctx w).L = some l → keep l → s1.lua l = vs) ∧
      (vs = [] → ∀ l, keep l → s1.lua l = s.lua l) := by
  -- the count used by the loop is the length of the payload
  have hn : (if narg = LUA_MULTRET then (s.ctx t).L.map (fun l => lua_gettop (s.lua l))
      else some narg) = some (vs.length : Int) := by
    rcases hres with h | ⟨h1, h2, h3⟩
    · have : narg ≠ LUA_MULTRET := by rw [h]; unfold LUA_MULTRET; omega
      rw [if_neg this, h]
    · rw [if_pos h1, h2]; simp [lua_gettop, h3]
  have hz : ((vs.length : Int) ≠ 0) ↔ vs ≠ [] := by
    simp [List.length_eq_zero]
  have hpay1 : (vs.length : Int) ≠ 0 → (s.ctx t).L = some lt ∧ s.lua lt = pre ++ vs ∧
      (vs.length : Int) = vs.length ∧ keep lt ∧
      ∀ w, w ∈ ws → ∃ lw, (s.ctx w).L = some lw ∧ lw ≠ lt := by
    intro h
    obtain ⟨h1, h2, h3, h4⟩ := hpay (hz.mp h)
    exact ⟨h1, h2, rfl, h3, h4⟩
  obtain ⟨s1, hloop, hq1, hfl, hv, hL, hlog, hlua, hluaw⟩ :=
    notify_loop_spec env keep t vs.length lt pre vs ws s 0 fuel hf hq hact hquiet hpay1
  unfold rayS_notify
  rw [hn]
  simp only [hloop, Res.bind, zero_add]
  by_cases hvs : vs = []
  · subst hvs
    refine ⟨s1, by simp, hq1, hfl, hv, hL, hlog, fun h => absurd rfl h, fun h => absurd rfl h, ?_⟩
    intro _ l hk
    exact hlua l hk (Or.inl (by simp))
  · obtain ⟨h1, h2, h3, h4⟩ := hpay hvs
    have hnz : (vs.length : Int) ≠ 0 := hz.mpr hvs
    have hlt : s1.lua lt = pre ++ vs := by
      rw [hlua lt h3 (Or.inr fun w hw e => ?_), h2]
      obtain ⟨lw, h5, h6⟩ := h4 w hw
      rw [h5] at e
      injection e with e
      exact h6 e
    refine ⟨s1.setLua lt pre, ?_, IsQueue_congr (by simp) (by simp) hq1, hfl, hv, hL, hlog, ?_, ?_,
      fun h => absurd h hvs⟩
    · simp only [if_pos hnz, hL, h1, hlt, lua_pop_append pre vs _ rfl]
    · intro _; simp [setLua_lua]
    · intro _ w hw l hl hk
      obtain ⟨lw, h5, h6⟩ := h4 w hw
      have hne : l ≠ lt := by
        rw [h5] at hl
        injection hl with hl
        exact hl ▸ h6
      rw [setLua_lua, if_neg hne]
      exact hluaw hnz w hw l hl hk

/-! ## Await on a well-formed queue -/

theorem await_step (env : Env) (fuel : Nat) {s : State} {t : Nat} {l : List Nat} (w : Nat)
    (hq : IsQueue s t l) (hw : rayS_is_active (s.ctx w) = true) :
    rayS_await env fuel w t s = call_await env fuel (s.ctx w).v.await w t (s.awaited w t) := by
  have hq1 : IsQueue ((s.trace (.trace_await w t)).setFlags w
      ((s.ctx w).flags &&& bnot32 RAY_ACTIVE)) t l := IsQueue_congr (by simp) (by simp) hq
  unfold rayS_await
  simp only [trace_ctx, hw, if_true, insert_tail_queue hq1 w]
  simp [State.awaited, State.inserted]

theorem awaited_queue {s : State} {t : Nat} {l : List Nat} {w : Nat} (hq : IsQueue s t l)
    (hw : w ∉ l) : IsQueue (s.awaited w t) t (l ++ [w]) := by
  have hq1 : IsQueue ((s.trace (.trace_await w t)).setFlags w
      ((s.ctx w).flags &&& bnot32 RAY_ACTIVE)) t l := IsQueue_congr (by simp) (by simp) hq
  exact IsQueue_congr (by simp [State.awaited]) (by simp [State.awaited])
    (IsQueue_inserted hq1 hw)

theorem awaited_flags (s : State) (w t i : Nat) :
    ((s.awaited w t).ctx i).flags
      = if i = w then (s.ctx w).flags &&& bnot32 RAY_ACTIVE else (s.ctx i).flags := by
  simp [State.awaited, State.inserted, setFlags_flags]

@[simp] theorem awaited_v (s : State) (w t i : Nat) :
    ((s.awaited w t).ctx i).v = (s.ctx i).v := by
  simp [State.awaited, State.inserted]

@[simp] theorem awaited_L (s : State) (w t i : Nat) :
    ((s.awaited w t).ctx i).L = (s.ctx i).L := by
  simp [State.awaited, State.inserted]

@[simp] theorem awaited_lua (s : State) (w t : Nat) : (s.awaited w t).lua = s.lua := by
  simp [State.awaited, State.inserted]

@[simp] theorem awaited_log (s : State) (w t : Nat) :
    (s.awaited w t).log = s.log ++ [.trace_await w t, .invoke_await w t] := by
  simp [State.awaited, State.inserted]

theorem active_cleared (f : Nat) (st : ray_state_t) (h : st.flags = f &&& bnot32 RAY_ACTIVE) :
    rayS_is_active st = false := by
  rw [is_active_eq, h, testBit_clear_active]; simp

theorem closed_after_clear (f : Nat) (st st0 : ray_state_t) (h0 : st0.flags = f)
    (h : st.flags = f &&& bnot32 RAY_ACTIVE) :
    rayS_is_closed st = rayS_is_closed st0 := by
  rw [is_closed_eq, is_closed_eq, h, h0, testBit_clear_active]; simp

/-! ## C1: FIFO wake order -/

theorem await_all_spec (env : Env) (fuel : Nat) (t : Nat) :
    ∀ (ws : List Nat) (s : State) (qs : List Nat), IsQueue s t qs → ws.Nodup →
      (∀ w, w ∈ ws → w ∉ qs) →
      (∀ w, w ∈ ws → rayS_is_active (s.ctx w) = true) →
      (∀ w, w ∈ ws → QuietAwait env fuel (s.ctx w).v.await w t) →
      ∃ sk, await_all env fuel t ws s = .ok () sk ∧ IsQueue sk t (qs ++ ws) ∧
        (∀ i, (sk.ctx i).flags
          = if i ∈ ws then (s.ctx i).flags &&& bnot32 RAY_ACTIVE else (s.ctx i).flags) ∧
        (∀ i, (sk.ctx i).v = (s.ctx i).v) ∧ (∀ i, (sk.ctx i).L = (s.ctx i).L) := by
  intro ws
  induction ws with
  | nil =>
    intro s qs hq _ _ _ _
    exact ⟨s, rfl, by simpa using hq, fun i => by simp, fun _ => rfl, fun _ => rfl⟩
  | cons w ws ih =>
    intro s qs hq hnd hdis hact hquiet
    have hwws : w ∉ ws := (List.nodup_cons.mp hnd).1
    obtain ⟨r, s2, hcall, hctx⟩ := hquiet w (by simp) (s.awaited w t)
    have hstep := await_step env fuel w hq (hact w (by simp))
    rw [hcall] at hstep
    have hq2 : IsQueue s2 t (qs ++ [w]) :=
      IsQueue_congr (nxt_of_ctx hctx) (prv_of_ctx hctx) (awaited_queue hq (hdis w (by simp)))
    have hfl2 : ∀ i, (s2.ctx i).flags
        = if i = w then (s.ctx w).flags &&& bnot32 RAY_ACTIVE else (s.ctx i).flags := by
      intro i; rw [hctx, awaited_flags]
    have hv2 : ∀ i, (s2.ctx i).v = (s.ctx i).v := by intro i; rw [hctx, awaited_v]
    have hL2 : ∀ i, (s2.ctx i).L = (s.ctx i).L := by intro i; rw [hctx, awaited_L]
    obtain ⟨sk, hall, hqk, hflk, hvk, hLk⟩ := ih s2 (qs ++ [w]) hq2 (List.nodup_cons.mp hnd).2
      (by
        intro v hv hm
        rcases List.mem_append.mp hm with h | h
        · exact hdis v (List.mem_cons_of_mem _ hv) h
        · rw [List.mem_singleton] at h
          exact hwws (h ▸ hv))
      (by
        intro v hv
        have hvw : v ≠ w := fun e => hwws (e ▸ hv)
        rw [@is_active_congr (s2.ctx v) (s.ctx v) (by rw [hfl2, if_neg hvw])]
        exact hact v (List.mem_cons_of_mem _ hv))
      (by
        intro v hv
        rw [hv2]
        exact hquiet v (List.mem_cons_of_mem _ hv))
    refine ⟨sk, ?_, by simpa using hqk, ?_, fun i => by rw [hvk, hv2],
      fun i => by rw [hLk, hL2]⟩
    · simp only [await_all, hstep, Res.bind, hall]
    · intro i
      rw [hflk, hfl2]
      by_cases hi : i = w
      · subst hi; simp [hwws]
      · simp [hi]

/-- C1. FIFO wake order: if the distinct ACTIVE contexts `ws = [w1..wk]`, whose
await capabilities return without touching the context records, await in
that order on a target `T` with an empty wait queue, the awaits succeed and
leave the queue of `T` equal to `ws`; a single `rayS_notify(T, narg)` then
returns `k` and enters `rayS_rouse` on exactly `w1, ..., wk`, in that order
and each with `from = T` (the rouse capabilities leaving context records
unchanged; `narg` is `0`, a count of values present on the stack of `T`, or
`LUA_MULTRET`). -/
theorem C1_fifo_wake_order (env : Env) (fuel : Nat) (keep : Nat → Prop) (T : Nat)
    (ws : List Nat) (s0 : State)
    (hq : IsQueue s0 T []) (hnd : ws.Nodup)
    (hact : ∀ w, w ∈ ws → rayS_is_active (s0.ctx w) = true)
    (hawait : ∀ w, w ∈ ws → QuietAwait env fuel (s0.ctx w).v.await w T)
    (hrouse : ∀ w, w ∈ ws → QuietRouse env keep (s0.ctx w).v.rouse w T)
    (hnore : ∀ w, w ∈ ws → NoReentry env (s0.ctx w).v.rouse w T) :
    ∃ sk, await_all env fuel T ws s0 = .ok () sk ∧ IsQueue sk T ws ∧
      (∀ i, (sk.ctx i).L = (s0.ctx i).L) ∧
      ∀ (fuel2 : Nat) (narg : Int) (lt : Nat) (pre vs : List TValue), ws.length < fuel2 →
        PayloadOK sk keep T ws narg lt pre vs →
        ∃ s1, rayS_notify env fuel2 T narg sk = .ok ws.length s1 ∧
          rouse_calls s1.log = rouse_calls sk.log ++ ws.map (fun w => (w, T)) := by
  obtain ⟨sk, hall, hqk, hflk, hvk, hLk⟩ :=
    await_all_spec env fuel T ws s0 [] hq hnd (fun _ _ h => by simp at h) hact hawait
  rw [List.nil_append] at hqk
  refine ⟨sk, hall, hqk, hLk, ?_⟩
  intro fuel2 narg lt pre vs hf hpay
  obtain ⟨s1, hn, _, _, _, _, hlog, _⟩ :=
    notify_spec env keep T narg lt pre vs ws sk fuel2 hf hqk
      (fun w hw => active_cleared (s0.ctx w).flags _ (by rw [hflk, if_pos hw]))
      (fun w hw => by rw [hvk]; exact hrouse w hw) hpay.1 hpay.2
  exact ⟨s1, hn, hlog (fun w hw => by rw [hvk]; exact hnore w hw)⟩

theorem envW_quiet_await (w t : Nat) : QuietAwait envW 0 (.ext 0) w t :=
  fun s1 => ⟨0, s1, rfl, rfl⟩

theorem envW_quiet_rouse (keep : Nat → Prop) (w t : Nat) : QuietRouse envW keep (.ext 0) w t :=
  fun s1 => ⟨1, s1, rfl, rfl, fun _ _ => rfl⟩

theorem envW_no_reentry (w t : Nat) : NoReentry envW (.ext 0) w t := by
  intro s1 r s2 h
  have h1 : (Res.ok 1 s1 : Res Int) = Res.ok r s2 := h
  injection h1 with _ h2
  rw [h2]

/-- C1 at a concrete state: contexts 1, 2, 3 await on context 0 in that
order and one `rayS_notify(0, LUA_MULTRET)` enters `rayS_rouse` on 1, 2, 3. -/
theorem C1_fifo_wake_order_witness :
    IsQueue stI 0 [] ∧ [1, 2, 3].Nodup ∧
    (∀ w, w ∈ [1, 2, 3] → rayS_is_active (stI.ctx w) = true) ∧
    (∀ w, w ∈ [1, 2, 3] → QuietAwait envW 0 (stI.ctx w).v.await w 0) ∧
    (∀ w, w ∈ [1, 2, 3] → QuietRouse envW (fun _ => True) (stI.ctx w).v.rouse w 0) ∧
    (∀ w, w ∈ [1, 2, 3] → NoReentry envW (stI.ctx w).v.rouse w 0) ∧
    ∃ sk s1, await_all envW 0 0 [1, 2, 3] stI = .ok () sk ∧ IsQueue sk 0 [1, 2, 3] ∧
      rayS_notify envW 4 0 LUA_MULTRET sk = .ok 3 s1 ∧
      rouse_calls s1.log = rouse_calls sk.log ++ [(1, 0), (2, 0), (3, 0)] :=
  have ha : ∀ w, w ∈ [1, 2, 3] → QuietAwait envW 0 (stI.ctx w).v.await w 0 := by
    intro w hw
    simp only [List.mem_cons, List.mem_singleton, List.not_mem_nil, or_false] at hw
    rcases hw with rfl | rfl | rfl <;> exact envW_quiet_await _ _
  have hr : ∀ w, w ∈ [1, 2, 3] → QuietRouse envW (fun _ => True) (stI.ctx w).v.rouse w 0 := by
    intro w hw
    simp only [List.mem_cons, List.mem_singleton, List.not_mem_nil, or_false] at hw
    rcases hw with rfl | rfl | rfl <;> exact envW_quiet_rouse _ _ _
  have hn : ∀ w, w ∈ [1, 2, 3] → NoReentry envW (stI.ctx w).v.rouse w 0 := by
    intro w hw
    simp only [List.mem_cons, List.mem_singleton, List.not_mem_nil, or_false] at hw
    rcases hw with rfl | rfl | rfl <;> exact envW_no_reentry _ _
  ⟨by decide, by decide, by decide, ha, hr, hn, by
    obtain ⟨sk, h1, h2, h3, h4⟩ :=
      C1_fifo_wake_order envW 0 (fun _ => True) 0 [1, 2, 3] stI (by decide) (by decide)
        (by decide) ha hr hn
    have hL0 : (sk.ctx 0).L = some 0 := by rw [h3]; rfl
    have hpay : PayloadOK sk (fun _ => True) 0 [1, 2, 3] LUA_MULTRET 0 [] (sk.lua 0) := by
      refine ⟨Or.inr ⟨rfl, hL0, rfl⟩, fun _ => ⟨hL0, rfl, trivial, ?_⟩⟩
      intro w hw
      simp only [List.mem_cons, List.mem_singleton, List.not_mem_nil, or_false] at hw
      rcases hw with rfl | rfl | rfl
      · exact ⟨1, by rw [h3]; rfl, by decide⟩
      · exact ⟨2, by rw [h3]; rfl, by decide⟩
      · exact ⟨3, by rw [h3]; rfl, by decide⟩
    obtain ⟨s1, h5, h6⟩ := h4 4 LUA_MULTRET 0 [] (sk.lua 0) (by decide) hpay
    exact ⟨sk, s1, h1, h2, h5, h6⟩⟩

/-! ## C3: notify drains and counts -/

/-- C6. For every `n ≥ 0`, every source context whose stack ends with the `n`
values `vs` (above arbitrary values `pre`) and every destination context
owning a different stack with arbitrary prior contents,
`rayS_xcopy(src, dst, n)` returns `n` and leaves the destination stack equal
to exactly `vs`, in order. -/
theorem C6_xcopy_delivers_in_order (env : Env) (src dst la lb : Nat) (n : Nat)
    (pre vs : List TValue) (s : State)
    (hla : (s.ctx src).L = some la) (hlb : (s.ctx dst).L = some lb) (hne : la ≠ lb)
    (hs : s.lua la = pre ++ vs) (hn : vs.length = n) :
    ∃ s1, rayS_xcopy env src dst n s = .ok n s1 ∧ s1.lua lb = vs := by
  subst hn
  exact ⟨s.setLua lb vs, xcopy_spec env src dst la lb pre vs s hla hlb hne hs,
    by simp [setLua_lua]⟩

/-- C6 at a concrete state: the top two of the three values of context 0 are
transferred to context 1, whose stack held one other value. -/
theorem C6_xcopy_delivers_in_order_witness :
    (stI.ctx 0).L = some 0 ∧ (stI.ctx 1).L = some 1 ∧ (0 : Nat) ≠ 1 ∧
    stI.lua 0 = [.number 10] ++ [.number 20, .number 30] ∧
    [TValue.number 20, TValue.number 30].length = 2 ∧ stI.lua 1 = [.number 7] ∧
    ∃ s1, rayS_xcopy envW 0 1 (2 : Nat) stI = .ok (2 : Nat) s1 ∧
      s1.lua 1 = [.number 20, .number 30] :=
  ⟨rfl, rfl, by decide, rfl, rfl, rfl,
    C6_xcopy_delivers_in_order envW 0 1 0 1 2 [.number 10] [.number 20, .number 30] stI rfl rfl
      (by decide) rfl rfl⟩

/-- C7, as stated, fails: after `rayS_xcopy(0, 1, 1)` on a source holding three
values the source still holds the same three values, not two. -/
theorem C7_xcopy_source_counterexample :
    ∃ s1, rayS_xcopy envW 0 1 1 stI = .ok 1 s1 ∧
      stI.lua 0 = [.number 10, .number 20, .number 30] ∧
      s1.lua 0 = [.number 10, .number 20, .number 30] ∧
      (s1.lua 0).length ≠ (stI.lua 0).length - 1 := by
  refine ⟨stI.setLua 1 [.number 30], ?_, rfl, rfl, by decide⟩
  exact xcopy_spec envW 0 1 0 1 [.number 10, .number 20] [.number 30] stI rfl rfl (by decide) rfl

/-- C7, amended. For every `n > 0` and every source context holding at least
`n` values (the destination owning a different stack), `rayS_xcopy(src, dst,
n)` returns `n` and leaves the source stack exactly as it was: its top `n`
values are duplicated into the destination, not consumed. -/
theorem C7_xcopy_preserves_source (env : Env) (src dst la lb : Nat) (n : Nat)
    (pre vs : List TValue) (s : State) (hpos : 0 < n)
    (hla : (s.ctx src).L = some la) (hlb : (s.ctx dst).L = some lb) (hne : la ≠ lb)
    (hs : s.lua la = pre ++ vs) (hn : vs.length = n) :
    ∃ s1, rayS_xcopy env src dst n s = .ok n s1 ∧ s1.lua la = s.lua la ∧
      (s1.lua la).length = (s.lua la).length ∧ s1.lua lb = vs := by
  subst hn
  have h : (s.setLua lb vs).lua la = s.lua la := by simp [setLua_lua, hne]
  exact ⟨s.setLua lb vs, xcopy_spec env src dst la lb pre vs s hla hlb hne hs, h, by rw [h],
    by simp [setLua_lua]⟩

/-- C7 amended, at a concrete state. -/
theorem C7_xcopy_preserves_source_witness :
    0 < 2 ∧ (stI.ctx 0).L = some 0 ∧ (stI.ctx 3).L = some 3 ∧ (0 : Nat) ≠ 3 ∧
    stI.lua 0 = [.number 10] ++ [.number 20, .number 30] ∧
    [TValue.number 20, TValue.number 30].length = 2 ∧
    ∃ s1, rayS_xcopy envW 0 3 (2 : Nat) stI = .ok (2 : Nat) s1 ∧ s1.lua 0 = stI.lua 0 ∧
      (s1.lua 0).length = (stI.lua 0).length ∧ s1.lua 3 = [.number 20, .number 30] :=
  ⟨by decide, rfl, rfl, by decide, rfl, rfl,
    C7_xcopy_preserves_source envW 0 3 0 3 2 [.number 10] [.number 20, .number 30] stI
      (by decide) rfl rfl (by decide) rfl rfl⟩

/-! ## C8: payload fan-out -/

/-- C8. For every `n > 0`, every context `T` whose stack is `pre ++ vs` with
`vs` of length `n`, and every number `k ≥ 0` of inactive waiters `ws` queued
on `T`, each owning a stack other than that of `T`, with rouse capabilities
that return and touch neither context records nor stacks:
`rayS_notify(T, n)` returns `k`, leaves the stack of every waiter equal to
exactly `vs` and leaves the stack of `T` equal to `pre`: the `n` values are
removed from `T` once, whatever `k` is. -/
theorem C8_payload_fan_out (env : Env) (T lt : Nat) (n : Nat) (pre vs : List TValue)
    (ws : List Nat) (s : State) (fuel : Nat) (hpos : 0 < n) (hn : vs.length = n)
    (hf : ws.length < fuel) (hq : IsQueue s T ws)
    (hact : ∀ w, w ∈ ws → rayS_is_active (s.ctx w) = false)
    (hquiet : ∀ w, w ∈ ws → QuietRouse env (fun _ => True) (s.ctx w).v.rouse w T)
    (hT : (s.ctx T).L = some lt) (hst : s.lua lt = pre ++ vs)
    (hown : ∀ w, w ∈ ws → ∃ lw, (s.ctx w).L = some lw ∧ lw ≠ lt) :
    ∃ s1, rayS_notify env fuel T n s = .ok ws.length s1 ∧
      (∀ w, w ∈ ws → ∀ lw, (s.ctx w).L = some lw → s1.lua lw = vs) ∧
      s1.lua lt = pre := by
  have hvs : vs ≠ [] := by
    intro e
    rw [e] at hn
    simp at hn
    omega
  obtain ⟨s1, hr, _, _, _, _, _, h1, h2, _⟩ :=
    notify_spec env (fun _ => True) T n lt pre vs ws s fuel hf hq hact hquiet
      (Or.inl (by rw [hn])) (fun _ => ⟨hT, hst, trivial, hown⟩)
  exact ⟨s1, hr, fun w hw lw hl => h2 hvs w hw lw hl trivial, h1 hvs⟩

theorem stQ_quiet (keep : Nat → Prop) :
    ∀ w, w ∈ [1, 2] → QuietRouse envW keep (stQ.ctx w).v.rouse w 0 := by
  intro w hw
  simp only [List.mem_cons, List.mem_singleton, List.not_mem_nil, or_false] at hw
  rcases hw with rfl | rfl <;> exact envW_quiet_rouse _ _ _

theorem stQ_own : ∀ w, w ∈ [1, 2] → ∃ lw, (stQ.ctx w).L = some lw ∧ lw ≠ 0 := by
  intro w hw
  simp only [List.mem_cons, List.mem_singleton, List.not_mem_nil, or_false] at hw
  rcases hw with rfl | rfl
  · exact ⟨1, rfl, by decide⟩
  · exact ⟨2, rfl, by decide⟩

/-- C8 at a concrete state with `k = 2` waiters and `n = 2` values: both
waiters end with `[20, 30]`, the notifier with `[10]`. -/
theorem C8_payload_fan_out_witness :
    0 < 2 ∧ [TValue.number 20, TValue.number 30].length = 2 ∧ [1, 2].length < 3 ∧
    IsQueue stQ 0 [1, 2] ∧
    (∀ w, w ∈ [1, 2] → rayS_is_active (stQ.ctx w) = false) ∧
    (∀ w, w ∈ [1, 2] → QuietRouse envW (fun _ => True) (stQ.ctx w).v.rouse w 0) ∧
    (stQ.ctx 0).L = some 0 ∧ stQ.lua 0 = [.number 10] ++ [.number 20, .number 30] ∧
    (∀ w, w ∈ [1, 2] → ∃ lw, (stQ.ctx w).L = some lw ∧ lw ≠ 0) ∧
    ∃ s1, rayS_notify envW 3 0 (2 : Nat) stQ = .ok ([1, 2] : List Nat).length s1 ∧
      (∀ w, w ∈ [1, 2] → ∀ lw, (stQ.ctx w).L = some lw →
        s1.lua lw = [.number 20, .number 30]) ∧
      s1.lua 0 = [.number 10] :=
  ⟨by decide, rfl, by decide, by decide, by decide, stQ_quiet _, rfl, rfl, stQ_own,
    C8_payload_fan_out envW 0 0 2 [.number 10] [.number 20, .number 30] [1, 2] stQ 3
      (by decide) rfl (by decide) (by decide) (by decide) (stQ_quiet _) rfl rfl stQ_own⟩

/-! ## C9: the sentinel `LUA_MULTRET` -/

/-- C9. For a context `T` whose stack `l` currently holds `m` values,
`rayS_notify(T, LUA_MULTRET)` is the same computation as `rayS_notify(T, m)`:
same outcome, same final state, same return value.  In particular, on a
well-formed queue `ws` of inactive waiters owning other stacks, with rouse
capabilities that touch neither context records nor stacks, the stack of `T`
is empty afterwards and every waiter has received the entire former stack of
`T` (when that stack was empty nothing is transferred and the waiter stacks
stay as they were). -/
theorem C9_multret_resolved_up_front (env : Env) (fuel : Nat) (T l : Nat) (s : State)
    (hL : (s.ctx T).L = some l) :
    rayS_notify env fuel T LUA_MULTRET s = rayS_notify env fuel T ((s.lua l).length : Int) s ∧
    ∀ ws : List Nat, ws.length < fuel → IsQueue s T ws →
      (∀ w, w ∈ ws → rayS_is_active (s.ctx w) = false) →
      (∀ w, w ∈ ws → QuietRouse env (fun _ => True) (s.ctx w).v.rouse w T) →
      (∀ w, w ∈ ws → ∃ lw, (s.ctx w).L = some lw ∧ lw ≠ l) →
      ∃ s1, rayS_notify env fuel T LUA_MULTRET s = .ok ws.length s1 ∧
        s1.lua l = [] ∧
        ∀ w, w ∈ ws → ∀ lw, (s.ctx w).L = some lw →
          s1.lua lw = if s.lua l = [] then s.lua lw else s.lua l := by
  constructor
  · have hm : ((s.lua l).length : Int) ≠ LUA_MULTRET := by unfold LUA_MULTRET; omega
    unfold rayS_notify
    rw [if_pos rfl, if_neg hm, hL]
    rfl
  · intro ws hf hq hact hquiet hown
    obtain ⟨s1, hr, _, _, _, _, _, h1, h2, h3⟩ :=
      notify_spec env (fun _ => True) T LUA_MULTRET l [] (s.lua l) ws s fuel hf hq hact hquiet
        (Or.inr ⟨rfl, hL, rfl⟩) (fun _ => ⟨hL, rfl, trivial, hown⟩)
    refine ⟨s1, hr, ?_, ?_⟩
    · by_cases he : s.lua l = []
      · rw [h3 he l trivial, he]
      · exact h1 he
    · intro w hw lw hl
      by_cases he : s.lua l = []
      · rw [if_pos he, h3 he lw trivial]
      · rw [if_neg he]
        exact h2 he w hw lw hl trivial

/-- C9 at a concrete state: with three values on the stack of context 0,
`rayS_notify(0, LUA_MULTRET)` equals `rayS_notify(0, 3)`, both waiters receive
the three values and the stack of context 0 ends empty. -/
theorem C9_multret_resolved_up_front_witness :
    (stQ.ctx 0).L = some 0 ∧
    rayS_notify envW 3 0 LUA_MULTRET stQ = rayS_notify envW 3 0 3 stQ ∧
    ∃ s1, rayS_notify envW 3 0 LUA_MULTRET stQ = .ok 2 s1 ∧ s1.lua 0 = [] ∧
      s1.lua 1 = [.number 10, .number 20, .number 30] ∧
      s1.lua 2 = [.number 10, .number 20, .number 30] := by
  have h := C9_multret_resolved_up_front envW 3 0 0 stQ rfl
  refine ⟨rfl, h.1, ?_⟩
  obtain ⟨s1, h1, h2, h3⟩ := h.2 [1, 2] (by decide) (by decide) (by decide) (stQ_quiet _) stQ_own
  exact ⟨s1, h1, h2, h3 1 (by decide) 1 rfl, h3 2 (by decide) 2 rfl⟩

/-! ## C4: protocol preconditions -/

theorem setPrev_null (s : State) (v : Ptr) : s.setPrev .null v = none := rfl

theorem setNext_null (s : State) (v : Ptr) : s.setNext .null v = none := rfl

/-- Whenever `ngx_queue_remove` is defined it only rewrites links. -/
theorem remove_some (s s2 : State) (x : Ptr) (h : ngx_queue_remove x s = some s2) :
    s2 = s.removed x := by
  by_cases hx : x = .null
  · subst hx; simp [ngx_queue_remove, State.getNext] at h
  by_cases hn : s.nxt x = .null
  · simp [ngx_queue_remove, getNext_eq s x hx, getPrev_eq s x hx, hn, setPrev_null] at h
  by_cases hp : s.prv x = .null
  · unfold ngx_queue_remove at h
    rw [getNext_eq s x hx, getPrev_eq s x hx] at h
    simp only [Option.some_bind] at h
    rw [setPrev_eq s _ _ hn] at h
    simp only [Option.some_bind] at h
    rw [getPrev_eq _ x hx, getNext_eq _ x hx, relink_prv _ _ _ _ hx] at h
    have e : Function.update s.prv (s.nxt x) .null x = .null := by
      simp [Function.update, hp]
    simp only [Option.some_bind, hp, e, setNext_null] at h
    cases h
  · rw [remove_eq s x hx hn hp] at h
    injection h with h
    exact h.symm

/-- Whenever `ngx_queue_insert_tail` is defined it only rewrites links. -/
theorem insert_tail_some (s s2 : State) (h x : Ptr) (hi : ngx_queue_insert_tail h x s = some s2) :
    ∃ pv nx, s2 = s.relink pv nx := by
  by_cases hh : h = .null
  · subst hh; simp [ngx_queue_insert_tail, State.getPrev] at hi
  by_cases hx : x = .null
  · subst hx
    simp [ngx_queue_insert_tail, getPrev_eq s h hh, setPrev_null] at hi
  by_cases hp : s.prv h = .null
  · unfold ngx_queue_insert_tail at hi
    rw [getPrev_eq s h hh] at hi
    simp only [Option.some_bind] at hi
    rw [setPrev_eq s x _ hx] at hi
    simp only [Option.some_bind] at hi
    rw [getPrev_eq _ x hx, relink_prv _ _ _ _ hx] at hi
    simp only [Option.some_bind, Function.update_same, hp, setNext_null] at hi
    cases hi
  · rw [insert_tail_eq s h x hh hx hp] at hi
    injection hi with hi
    exact ⟨_, _, hi.symm⟩

/-- C4. The protocol preconditions are checked before any mutation.  Given
capabilities that do not themselves fail an assertion: `rayS_await(self,
target)` fails its assertion iff the ACTIVE flag of `self` is clear,
`rayS_rouse(self, from)` fails its assertion iff the ACTIVE flag of `self` is
set; and in both failing cases the state at the abort has the context
records (flags, queues) and the stacks of the initial state, and the record
of steps has grown by the `TRACE` line of the entry alone, so no capability
was invoked. -/
theorem C4_preconditions_enforced (env : Env) (fuel : Nat) (s : State) (self other : Nat)
    (hA : ∀ s1 sa, call_await env fuel (s.ctx self).v.await self other s1 ≠ .assert_fail sa)
    (hR : ∀ s1 sa, call_rouse env (s.ctx self).v.rouse self other s1 ≠ .assert_fail sa) :
    ((∃ sa, rayS_await env fuel self other s = .assert_fail sa)
        ↔ rayS_is_active (s.ctx self) = false) ∧
    ((∃ sa, rayS_rouse env self other s = .assert_fail sa)
        ↔ rayS_is_active (s.ctx self) = true) ∧
    (∀ sa, rayS_await env fuel self other s = .assert_fail sa →
      sa.ctx = s.ctx ∧ sa.lua = s.lua ∧ sa.log = s.log ++ [.trace_await self other]) ∧
    (∀ sa, rayS_rouse env self other s = .assert_fail sa →
      sa.ctx = s.ctx ∧ sa.lua = s.lua ∧ sa.log = s.log ++ [.trace_rouse self other]) := by
  -- await on an active context never ends in a failed assertion
  have hawait : rayS_is_active (s.ctx self) = true →
      ∀ sa, rayS_await env fuel self other s ≠ .assert_fail sa := by
    intro ha sa
    unfold rayS_await
    simp only [trace_ctx, ha, if_true]
    cases hi : ngx_queue_insert_tail (.queue other) (.cond self)
        ((s.trace (.trace_await self other)).setFlags self
          ((s.ctx self).flags &&& bnot32 RAY_ACTIVE)) with
    | none => simp
    | some s2 =>
      obtain ⟨pv, nx, e⟩ := insert_tail_some _ _ _ _ hi
      have hv : (s2.ctx self).v = (s.ctx self).v := by rw [e]; simp
      simp only [hv]
      exact hA _ sa
  have hawait0 : rayS_is_active (s.ctx self) = false →
      rayS_await env fuel self other s = .assert_fail (s.trace (.trace_await self other)) := by
    intro ha
    unfold rayS_await
    simp [ha]
  have hrouse : rayS_is_active (s.ctx self) = false →
      ∀ sa, rayS_rouse env self other s ≠ .assert_fail sa := by
    intro ha sa
    unfold rayS_rouse
    simp only [trace_ctx, ha, Bool.false_eq_true, if_false]
    cases hi : ngx_queue_remove (.cond self)
        ((s.trace (.trace_rouse self other)).setFlags self
          ((s.ctx self).flags ||| RAY_ACTIVE)) with
    | none => simp
    | some s2 =>
      have e := remove_some _ _ _ hi
      have hv : (s2.ctx self).v = (s.ctx self).v := by rw [e]; simp [State.removed]
      simp only [hv]
      exact hR _ sa
  have hrouse1 : rayS_is_active (s.ctx self) = true →
      rayS_rouse env self other s = .assert_fail (s.trace (.trace_rouse self other)) := by
    intro ha
    unfold rayS_rouse
    simp [ha]
  refine ⟨⟨?_, fun ha => ⟨_, hawait0 ha⟩⟩, ⟨?_, fun ha => ⟨_, hrouse1 ha⟩⟩, ?_, ?_⟩
  · rintro ⟨sa, h⟩
    cases ha : rayS_is_active (s.ctx self) with
    | false => rfl
    | true => exact absurd h (hawait ha sa)
  · rintro ⟨sa, h⟩
    cases ha : rayS_is_active (s.ctx self) with
    | true => rfl
    | false => exact absurd h (hrouse ha sa)
  · intro sa h
    cases ha : rayS_is_active (s.ctx self) with
    | true => exact absurd h (hawait ha sa)
    | false =>
      rw [hawait0 ha] at h
      injection h with h
      subst h
      exact ⟨rfl, rfl, rfl⟩
  · intro sa h
    cases ha : rayS_is_active (s.ctx self) with
    | false => exact absurd h (hrouse ha sa)
    | true =>
      rw [hrouse1 ha] at h
      injection h with h
      subst h
      exact ⟨rfl, rfl, rfl⟩

/-- C4 at a concrete state: context 2 is inactive, so awaiting fails its
assertion; context 1 is active, so rousing it fails its assertion. -/
theorem C4_preconditions_enforced_witness :
    (∀ s1 sa, call_await envW 0 (stW.ctx 2).v.await 2 0 s1 ≠ .assert_fail sa) ∧
    (∀ s1 sa, call_rouse envW (stW.ctx 2).v.rouse 2 0 s1 ≠ .assert_fail sa) ∧
    (∀ s1 sa, call_await envW 0 (stW.ctx 1).v.await 1 0 s1 ≠ .assert_fail sa) ∧
    (∀ s1 sa, call_rouse envW (stW.ctx 1).v.rouse 1 0 s1 ≠ .assert_fail sa) ∧
    (∃ sa, rayS_await envW 0 2 0 stW = .assert_fail sa) ∧
    (∃ sa, rayS_rouse envW 1 0 stW = .assert_fail sa) :=
  have a2 : ∀ s1 sa, call_await envW 0 (stW.ctx 2).v.await 2 0 s1 ≠ .assert_fail sa :=
    fun s1 sa h => by
      have h1 : (Res.ok 0 s1 : Res Int) = Res.assert_fail sa := h
      exact absurd h1 (by simp)
  have r2 : ∀ s1 sa, call_rouse envW (stW.ctx 2).v.rouse 2 0 s1 ≠ .assert_fail sa :=
    fun s1 sa h => by
      have h1 : (Res.ok 1 s1 : Res Int) = Res.assert_fail sa := h
      exact absurd h1 (by simp)
  have a1 : ∀ s1 sa, call_await envW 0 (stW.ctx 1).v.await 1 0 s1 ≠ .assert_fail sa :=
    fun s1 sa h => by
      have h1 : (Res.ok 0 s1 : Res Int) = Res.assert_fail sa := h
      exact absurd h1 (by simp)
  have r1 : ∀ s1 sa, call_rouse envW (stW.ctx 1).v.rouse 1 0 s1 ≠ .assert_fail sa :=
    fun s1 sa h => by
      have h1 : (Res.ok 1 s1 : Res Int) = Res.assert_fail sa := h
      exact absurd h1 (by simp)
  ⟨a2, r2, a1, r1,
    (C4_preconditions_enforced envW 0 stW 2 0 a2 r2).1.mpr (by decide),
    (C4_preconditions_enforced envW 0 stW 1 0 a1 r1).2.1.mpr (by decide)⟩

/-! ## C5: close guard -/

theorem closed_set (f : Nat) (st : ray_state_t) (h : st.flags = f ||| RAY_CLOSED) :
    rayS_is_closed st = true := by
  rw [is_closed_eq, h, testBit_set_closed]; simp

/-- The default close capability leaves `flags` alone. -/
theorem state_close_flags (self : Nat) (s : State) :
    ∃ s1, rayM_state_close self s = .ok 1 s1 ∧ ∀ i, (s1.ctx i).flags = (s.ctx i).flags := by
  unfold rayM_state_close
  cases hL : (s.ctx self).L with
  | none => exact ⟨s, rfl, fun _ => rfl⟩
  | some l =>
    simp only [lua_settop_zero]
    refine ⟨_, rfl, ?_⟩
    intro i
    by_cases hr : (s.ctx self).ref = LUA_NOREF
    · by_cases hi : i = self
      · subst hi; simp [State.setCtx, hr]
      · simp [State.setCtx, hr, hi]
    · by_cases hi : i = self
      · subst hi
        by_cases h0 : 0 ≤ (s.ctx i).ref <;> simp [State.setCtx, hr, luaL_unref, h0]
      · by_cases h0 : 0 ≤ (s.ctx self).ref <;> simp [State.setCtx, hr, hi, luaL_unref, h0]

/-- C5. For every context that is not CLOSED and whose close capability is
the default `rayM_state_close`, a first `rayS_close` returns normally and
sets CLOSED; a second `rayS_close` on the resulting state fails its
assertion, and the state at that abort is identical to the state after the
first close (in particular no further capability dispatch is recorded). -/
theorem C5_close_guard (env : Env) (s : State) (self : Nat)
    (hc : rayS_is_closed (s.ctx self) = false)
    (hv : (s.ctx self).v.close = .rayM_state_close) :
    ∃ s1, rayS_close env self s = .ok 1 s1 ∧ rayS_is_closed (s1.ctx self) = true ∧
      rayS_close env self s1 = .assert_fail s1 := by
  obtain ⟨s1, h1, h2⟩ := state_close_flags self
    ((s.setFlags self ((s.ctx self).flags ||| RAY_CLOSED)).trace (.invoke_close self))
  have hcl : rayS_is_closed (s1.ctx self) = true :=
    closed_set (s.ctx self).flags _ (by rw [h2]; simp [setFlags_flags])
  refine ⟨s1, ?_, hcl, ?_⟩
  · unfold rayS_close
    simp only [hc, Bool.false_eq_true, if_false, trace_ctx, setFlags_v, hv, call_close]
    exact h1
  · unfold rayS_close
    simp [hcl]

/-- C5 at a concrete state: context 1 is open and uses the default close. -/
theorem C5_close_guard_witness :
    rayS_is_closed (stI.ctx 1) = false ∧ (stI.ctx 1).v.close = .rayM_state_close ∧
    ∃ s1, rayS_close envW 1 stI = .ok 1 s1 ∧ rayS_is_closed (s1.ctx 1) = true ∧
      rayS_close envW 1 s1 = .assert_fail s1 :=
  ⟨by decide, rfl, C5_close_guard envW stI 1 (by decide) rfl⟩

/-! ## C10: drive loop termination -/

theorem notify_empty (env : Env) (fuel : Nat) (m : Nat) (s : State) (hq : IsQueue s m []) :
    rayS_notify env (fuel + 1) m 0 s = .ok 0 s := by
  have h : (0 : Int) ≠ LUA_MULTRET := by unfold LUA_MULTRET; omega
  simp [rayS_notify, h, rayS_notify_loop, empty_of_queue hq, Res.bind]

theorem IsQueue_nil_iff (s : State) (m : Nat) :
    IsQueue s m [] ↔ s.nxt (.queue m) = .queue m ∧ s.prv (.queue m) = .queue m := by
  simp [IsQueue, Seg, Linked]

theorem inserted_other_queue {s : State} {t m : Nat} {qs : List Nat} (w : Nat)
    (hq : IsQueue s t qs) (hm : IsQueue s m []) (htm : t ≠ m) :
    IsQueue (s.inserted t w) m [] := by
  rw [IsQueue_nil_iff] at hm ⊢
  have hlast := Seg_prv_end hq.1
  have hlm := lastNode_mem (.queue t) qs
  have hne : Ptr.queue m ≠ lastNode (.queue t) qs := by
    intro e
    rw [← e] at hlm
    simp only [List.mem_cons, Ptr.queue.injEq] at hlm
    rcases hlm with h | h
    · exact htm h.symm
    · exact queue_not_mem_map m qs h
  have htm2 : m ≠ t := fun e => htm e.symm
  constructor
  · rw [State.inserted, relink_nxt _ _ _ _ (by simp), hlast]
    simp [Function.update, hne, hm.1]
  · rw [State.inserted, relink_prv _ _ _ _ (by simp)]
    simp [Function.update, htm2, hm.2]

theorem removed_other_queue {s : State} {t m : Nat} {l1 : List Nat} {w : Nat} {l2 : List Nat}
    (hq : IsQueue s t (l1 ++ w :: l2)) (hm : IsQueue s m []) (htm : t ≠ m) :
    IsQueue (s.removed (.cond w)) m [] := by
  rw [IsQueue_nil_iff] at hm ⊢
  have hs := Seg_append.mp hq.1
  have hxp := Seg_prv_end hs.1
  have hxn := Seg_nxt_start hs.2
  have hlm := lastNode_mem (.queue t) l1
  have hne : Ptr.queue m ≠ lastNode (.queue t) l1 := by
    intro e
    rw [← e] at hlm
    simp only [List.mem_cons, Ptr.queue.injEq] at hlm
    rcases hlm with h | h
    · exact htm h.symm
    · exact queue_not_mem_map m l1 h
  have hne2 : Ptr.queue m ≠ firstNode l2 (.queue t) := by
    cases l2 with
    | nil => simpa [firstNode] using fun e : m = t => htm e.symm
    | cons a l => simp [firstNode]
  constructor
  · rw [State.removed, relink_nxt _ _ _ _ (by simp), hxp]
    simp [Function.update, hne, hm.1]
  · rw [State.removed, relink_prv _ _ _ _ (by simp), hxn]
    simp [Function.update, hne2, hm.2]

theorem get_loop_spec (env : Env) (s : State) (lp : Nat)
    (h : s.reg_loop = some lp ∨ (s.reg_loop = none ∧ ∀ s1, env.uv_loop_new s1 = some lp)) :
    (rayS_get_loop env s).1 = some lp ∧ (rayS_get_loop env s).2.ctx = s.ctx ∧
      (rayS_get_loop env s).2.lua = s.lua ∧
      polls (rayS_get_loop env s).2.log = polls s.log := by
  rcases h with h | ⟨h1, h2⟩
  · simp [rayS_get_loop, h]
  · simp [rayS_get_loop, h1, h2, polls_append, polls]

theorem MainParked_congr {s s1 : State} {m t l : Nat} (h : s1.ctx = s.ctx)
    (hp : MainParked s m t l) : MainParked s1 m t l := by
  obtain ⟨h1, h2, h3, l1, l2, h4⟩ := hp
  exact ⟨IsQueue_congr (nxt_of_ctx h) (prv_of_ctx h) h1, by rw [h]; exact h2, by rw [h]; exact h3,
    l1, l2, IsQueue_congr (nxt_of_ctx h) (prv_of_ctx h) h4⟩

/-- The drive loop against a reactor that reports pending work until poll
number `p0 + j` and keeps the main context parked: exactly the polls up to
number `p0 + j + 1` are made. -/
theorem main_await_loop_spec (env : Env) (m t l lp p0 j : Nat)
    (hreact : ∀ s1, MainParked s1 m t l → p0 < polls s1.log → polls s1.log ≤ p0 + j + 1 →
      ∃ ev s2, env.uv_run_once lp s1 = .ok ev s2 ∧ MainParked s2 m t l ∧
        polls s2.log = polls s1.log ∧ (ev ≠ 0 ↔ polls s1.log ≤ p0 + j)) :
    ∀ (d i : Nat) (s1 : State) (fuel : Nat), i + d = j → d < fuel →
      polls s1.log = p0 + i → MainParked s1 m t l →
      ∃ s2, main_await_loop env fuel m (some lp) s1 = .ok () s2 ∧ MainParked s2 m t l ∧
        polls s2.log = p0 + j + 1 := by
  intro d
  induction d with
  | zero =>
    intro i s1 fuel hij hf hp hpk
    obtain ⟨fuel, rfl⟩ : ∃ k, fuel = k + 1 := ⟨fuel - 1, by omega⟩
    have hpk1 : MainParked (s1.trace (.uv_run_once (some lp))) m t l :=
      MainParked_congr (trace_ctx s1 _) hpk
    have hpl : polls (s1.trace (.uv_run_once (some lp))).log = p0 + i + 1 := by
      simp [polls_append, polls, hp]
    obtain ⟨ev, s2, hrun, hpk2, hp2, hev⟩ := hreact _ hpk1 (by omega) (by omega)
    have hev0 : ev = 0 := by
      by_contra hne
      have := hev.mp hne
      omega
    refine ⟨s2, ?_, hpk2, by omega⟩
    simp [main_await_loop, notify_empty env fuel m s1 hpk.1, Res.bind, uv_run_once, hrun,
      hpk2.2.1, hev0]
  | succ d ih =>
    intro i s1 fuel hij hf hp hpk
    obtain ⟨fuel, rfl⟩ : ∃ k, fuel = k + 1 := ⟨fuel - 1, by omega⟩
    have hpk1 : MainParked (s1.trace (.uv_run_once (some lp))) m t l :=
      MainParked_congr (trace_ctx s1 _) hpk
    have hpl : polls (s1.trace (.uv_run_once (some lp))).log = p0 + i + 1 := by
      simp [polls_append, polls, hp]
    obtain ⟨ev, s2, hrun, hpk2, hp2, hev⟩ := hreact _ hpk1 (by omega) (by omega)
    have hev1 : ev ≠ 0 := hev.mpr (by omega)
    obtain ⟨s3, hloop, hpk3, hp3⟩ := ih (i + 1) s2 fuel (by omega) (by omega) (by omega) hpk2
    refine ⟨s3, ?_, hpk3, hp3⟩
    simp [main_await_loop, notify_empty env fuel m s1 hpk.1, Res.bind, uv_run_once, hrun,
      hpk2.2.1, hev1, hloop]

@[simp] theorem awaited_reg_loop (s : State) (w t : Nat) :
    (s.awaited w t).reg_loop = s.reg_loop := by
  simp [State.awaited, State.inserted]

theorem polls_awaited (s : State) (w t : Nat) : polls (s.awaited w t).log = polls s.log := by
  simp [polls_append, polls]

/-- Closed form of the tail of `rayM_main_await` after the loop. -/
theorem main_await_tail {s : State} {m t l : Nat} (hp : MainParked s m t l) (htm : t ≠ m) :
    ∃ s1 ws, ngx_queue_remove (.cond m) (s.setFlags m ((s.ctx m).flags ||| RAY_ACTIVE)) = some s1 ∧
      rayS_is_active (s1.ctx m) = true ∧ (s1.ctx m).L = some l ∧ s1.lua = s.lua ∧
      s1.log = s.log ∧ IsQueue s1 t ws ∧ m ∉ ws ∧ IsQueue s1 m [] := by
  obtain ⟨h1, _, h3, l1, l2, h4⟩ := hp
  have h4a : IsQueue (s.setFlags m ((s.ctx m).flags ||| RAY_ACTIVE)) t (l1 ++ m :: l2) :=
    IsQueue_congr (by simp) (by simp) h4
  have h1a : IsQueue (s.setFlags m ((s.ctx m).flags ||| RAY_ACTIVE)) m [] :=
    IsQueue_congr (by simp) (by simp) h1
  refine ⟨_, l1 ++ l2, remove_queue h4a, ?_, ?_, ?_, ?_, IsQueue_removed h4a, ?_,
    removed_other_queue h4a h1a htm⟩
  · exact active_set (s.ctx m).flags _ (by simp [State.removed, setFlags_flags])
  · simp [State.removed, h3]
  · simp [State.removed]
  · simp [State.removed]
  · have hnd : (l1 ++ m :: l2).Nodup := h4.2
    intro hm
    rcases List.mem_append.mp hm with h | h
    · exact (List.nodup_append.mp hnd).2.2 h (List.mem_cons_self _ _)
    · exact (List.nodup_cons.mp (List.nodup_append.mp hnd).2.1).1 h

/-- The drive loop entered through `rayS_await(m, t)` with `t ≠ m`. -/
theorem drive_loop_parked (env : Env) (fuel j m t l lp : Nat) (qs : List Nat) (s : State)
    (hv : (s.ctx m).v.await = .rayM_main_await)
    (hact : rayS_is_active (s.ctx m) = true) (hL : (s.ctx m).L = some l)
    (hqm : IsQueue s m []) (hqt : IsQueue s t qs)
    (hqs : ∀ q, q ∈ qs → rayS_is_active (s.ctx q) = false) (htm : t ≠ m)
    (hlp : LoopIs env s lp)
    (hreact : ∀ s1, MainParked s1 m t l → polls s.log < polls s1.log →
      polls s1.log ≤ polls s.log + j + 1 →
      ∃ ev s2, env.uv_run_once lp s1 = .ok ev s2 ∧ MainParked s2 m t l ∧
        polls s2.log = polls s1.log ∧ (ev ≠ 0 ↔ polls s1.log ≤ polls s.log + j))
    (hf : j < fuel) :
    ∃ s1 ws, rayS_await env fuel m t s = .ok (s1.lua l).length s1 ∧
      polls s1.log = polls s.log + j + 1 ∧ rayS_is_active (s1.ctx m) = true ∧
      IsQueue s1 t ws ∧ m ∉ ws ∧ IsQueue s1 m [] := by
  have hmq : m ∉ qs := fun h => by
    have := hqs m h
    rw [hact] at this
    exact absurd this (by simp)
  have hstep := await_step env fuel m hqt hact
  rw [hv] at hstep
  -- the state handed to the drive loop
  have hqa : IsQueue (s.awaited m t) t ([] ++ (qs ++ [m])) := awaited_queue hqt hmq
  have hqma : IsQueue (s.awaited m t) m [] := by
    have h1 : IsQueue ((s.trace (.trace_await m t)).setFlags m
        ((s.ctx m).flags &&& bnot32 RAY_ACTIVE)) t qs := IsQueue_congr (by simp) (by simp) hqt
    have h2 : IsQueue ((s.trace (.trace_await m t)).setFlags m
        ((s.ctx m).flags &&& bnot32 RAY_ACTIVE)) m [] := IsQueue_congr (by simp) (by simp) hqm
    exact IsQueue_congr (by simp [State.awaited]) (by simp [State.awaited])
      (inserted_other_queue m h1 h2 htm)
  have hpa : MainParked (s.awaited m t) m t l :=
    ⟨hqma, active_cleared (s.ctx m).flags _ (by rw [awaited_flags, if_pos rfl]),
      by simp [hL], qs, [], by simpa using hqa⟩
  have hp0 : MainParked ((s.awaited m t).trace (.trace_enter_main_await true)) m t l :=
    MainParked_congr (trace_ctx _ _) hpa
  have hlp0 : ((s.awaited m t).trace (.trace_enter_main_await true)).reg_loop = some lp ∨
      (((s.awaited m t).trace (.trace_enter_main_await true)).reg_loop = none ∧
        ∀ s1, env.uv_loop_new s1 = some lp) := by
    simpa [LoopIs] using hlp
  obtain ⟨g1, g2, g3, g4⟩ := get_loop_spec env _ lp hlp0
  have hpg := MainParked_congr g2 hp0
  have hpolls : polls (rayS_get_loop env
      ((s.awaited m t).trace (.trace_enter_main_await true))).2.log = polls s.log + 0 := by
    rw [g4]
    simp [polls_append, polls]
  obtain ⟨s2, hloop, hp2, hpl2⟩ :=
    main_await_loop_spec env m t l lp (polls s.log) j hreact j 0 _ fuel (by omega) hf hpolls hpg
  obtain ⟨s3, ws, hrem, ha3, hL3, hlua3, hlog3, hq3, hm3, hqm3⟩ := main_await_tail hp2 htm
  refine ⟨s3.trace .trace_unloop, ws, ?_, ?_, ha3, IsQueue_congr (by simp) (by simp) hq3, hm3,
    IsQueue_congr (by simp) (by simp) hqm3⟩
  · rw [hstep]
    simp only [call_await, rayM_main_await, empty_of_queue hqma, decide_True, trace_ctx,
      awaited_L, hL, g1, hloop, Res.bind, hrem, hL3, lua_gettop, trace_lua]
  · simp [polls_append, polls, hlog3, hpl2]

/-- `rayS_notify(m, 0)` when the only waiter on the main context `m` is `m`
itself: `m` is roused, its rouse capability signals the reactor, and the
`cond` node of `m` keeps pointing at the queue head it was unlinked from. -/
theorem notify_self (env : Env) (fuel m : Nat) (s : State) (hq : IsQueue s m [m])
    (hact : rayS_is_active (s.ctx m) = false) (hv : (s.ctx m).v.rouse = .rayM_main_rouse) :
    ∃ s1, rayS_notify env (fuel + 2) m 0 s = .ok 1 s1 ∧ rayS_is_active (s1.ctx m) = true ∧
      IsQueue s1 m [] ∧ s1.nxt (.cond m) = .queue m ∧ s1.prv (.cond m) = .queue m ∧
      (∀ i, (s1.ctx i).L = (s.ctx i).L) ∧ s1.lua = s.lua ∧ polls s1.log = polls s.log := by
  have hq0 : IsQueue s m ([] ++ m :: []) := hq
  have hr := rouse_step env m hq0 hact
  have hqr : IsQueue (s.roused m m) m [] := roused_queue m hq0
  have hqr1 : IsQueue ((s.roused m m).trace (.trace_main_rouse m m)) m [] :=
    IsQueue_congr (by simp) (by simp) hqr
  have hqr2 : IsQueue (((s.roused m m).trace (.trace_main_rouse m m)).trace (.uv_async_send m))
      m [] := IsQueue_congr (by simp) (by simp) hqr
  have hlinks : s.nxt (.cond m) = .queue m ∧ s.prv (.cond m) = .queue m :=
    ⟨hq.1.2.1, hq.1.1.2⟩
  refine ⟨((s.roused m m).trace (.trace_main_rouse m m)).trace (.uv_async_send m), ?_, ?_, hqr2,
    ?_, ?_, ?_, ?_, ?_⟩
  · have h0 : (0 : Int) ≠ LUA_MULTRET := by unfold LUA_MULTRET; omega
    simp [rayS_notify, h0, rayS_notify_loop, empty_of_queue hq, head_of_queue hq, ngx_queue_data,
      Res.bind, hr, hv, call_rouse, rayM_main_rouse, empty_of_queue hqr1, empty_of_queue hqr2]
  · exact active_set (s.ctx m).flags _ (by simp [roused_flags])
  · simp only [trace_nxt, State.roused, State.removed, setFlags_nxt, setFlags_prv, trace_prv,
      relink_nxt _ _ _ _ (show Ptr.cond m ≠ .null by simp), hlinks.1, hlinks.2]
    simp [Function.update, hlinks.1]
  · simp only [trace_prv, State.roused, State.removed, setFlags_nxt, setFlags_prv, trace_nxt,
      relink_prv _ _ _ _ (show Ptr.cond m ≠ .null by simp), hlinks.1, hlinks.2]
    simp [Function.update, hlinks.2]
  · intro i; simp
  · simp
  · simp [polls_append, polls]

/-- The drive loop entered through `rayS_await(m, m)`: the main context waits
on itself. -/
theorem drive_loop_self (env : Env) (fuel m l lp : Nat) (s : State)
    (hva : (s.ctx m).v.await = .rayM_main_await) (hvr : (s.ctx m).v.rouse = .rayM_main_rouse)
    (hact : rayS_is_active (s.ctx m) = true) (hL : (s.ctx m).L = some l)
    (hqm : IsQueue s m []) (hlp : LoopIs env s lp)
    (hreact : ∀ s1, polls s1.log = polls s.log + 1 →
      ∃ ev s2, env.uv_run_once lp s1 = .ok ev s2 ∧ s2.ctx = s1.ctx ∧
        polls s2.log = polls s1.log)
    (hf : 1 < fuel) :
    ∃ s1, rayS_await env fuel m m s = .ok (s1.lua l).length s1 ∧
      polls s1.log = polls s.log + 1 ∧ rayS_is_active (s1.ctx m) = true ∧ IsQueue s1 m [] := by
  obtain ⟨fuel, rfl⟩ : ∃ k, fuel = k + 2 := ⟨fuel - 2, by omega⟩
  have hstep := await_step env (fuel + 2) m hqm hact
  rw [hva] at hstep
  have hqa : IsQueue (s.awaited m m) m [m] := awaited_queue hqm (by simp)
  have hlp0 : ((s.awaited m m).trace (.trace_enter_main_await false)).reg_loop = some lp ∨
      (((s.awaited m m).trace (.trace_enter_main_await false)).reg_loop = none ∧
        ∀ s1, env.uv_loop_new s1 = some lp) := by
    simpa [LoopIs] using hlp
  obtain ⟨g1, g2, g3, g4⟩ := get_loop_spec env _ lp hlp0
  have hqg : IsQueue (rayS_get_loop env
      ((s.awaited m m).trace (.trace_enter_main_await false))).2 m [m] :=
    IsQueue_congr (nxt_of_ctx (g2.trans (trace_ctx _ _))) (prv_of_ctx (g2.trans (trace_ctx _ _)))
      hqa
  have hag : rayS_is_active ((rayS_get_loop env
      ((s.awaited m m).trace (.trace_enter_main_await false))).2.ctx m) = false := by
    rw [g2]
    exact active_cleared (s.ctx m).flags _ (by simp [awaited_flags])
  have hvg : ((rayS_get_loop env
      ((s.awaited m m).trace (.trace_enter_main_await false))).2.ctx m).v.rouse
      = .rayM_main_rouse := by
    rw [g2]; simpa using hvr
  obtain ⟨s1, hn, ha1, hq1, hnx1, hpv1, hL1, hlua1, hp1⟩ :=
    notify_self env fuel m _ hqg hag hvg
  have hpoll : polls (s1.trace (.uv_run_once (some lp))).log = polls s.log + 1 := by
    simp [polls_append, polls, hp1, g4]
  obtain ⟨ev, s2, hrun, hc2, hp2⟩ := hreact _ hpoll
  have ha2 : rayS_is_active (s2.ctx m) = true := by rw [hc2]; exact ha1
  have hloop : main_await_loop env (fuel + 2) m (some lp) (rayS_get_loop env
      ((s.awaited m m).trace (.trace_enter_main_await false))).2 = .ok () s2 := by
    simp [main_await_loop, hn, Res.bind, uv_run_once, hrun, ha2]
  -- the final unlink works on the links left behind by the rouse
  have hnx2 : s2.nxt (.cond m) = .queue m := by
    rw [nxt_of_ctx (hc2.trans (trace_ctx _ _))]; exact hnx1
  have hpv2 : s2.prv (.cond m) = .queue m := by
    rw [prv_of_ctx (hc2.trans (trace_ctx _ _))]; exact hpv1
  have hq2 : IsQueue s2 m [] :=
    IsQueue_congr (nxt_of_ctx (hc2.trans (trace_ctx _ _))) (prv_of_ctx (hc2.trans (trace_ctx _ _)))
      hq1
  have hrem := remove_eq (s2.setFlags m ((s2.ctx m).flags ||| RAY_ACTIVE)) (.cond m) (by simp)
    (by simp [hnx2]) (by simp [hpv2])
  simp only [setFlags_nxt, setFlags_prv, hnx2, hpv2] at hrem
  have hL2 : (s2.ctx m).L = some l := by
    rw [hc2, trace_ctx, hL1, g2, trace_ctx, awaited_L, hL]
  have hq3 : IsQueue (((s2.setFlags m ((s2.ctx m).flags ||| RAY_ACTIVE)).relink
      (Function.update s2.prv (.queue m) (.queue m))
      (Function.update s2.nxt (.queue m) (.queue m))).trace .trace_unloop) m [] := by
    rw [IsQueue_nil_iff]
    simp [relink_nxt, relink_prv]
  refine ⟨_, ?_, ?_, ?_, hq3⟩
  · rw [hstep]
    simp only [call_await, rayM_main_await, empty_of_queue hqa, List.cons_ne_nil, decide_False,
      trace_ctx, awaited_L, hL, g1, hloop, Res.bind, hrem]
    simp [hL2, lua_gettop]
  · have e : polls (((s2.setFlags m ((s2.ctx m).flags ||| RAY_ACTIVE)).relink
        (Function.update s2.prv (.queue m) (.queue m))
        (Function.update s2.nxt (.queue m) (.queue m))).trace .trace_unloop).log
        = polls s2.log := by
      simp [polls_append, polls]
    rw [e, hp2, hpoll]
  · exact active_set (s2.ctx m).flags _ (by simp [setFlags_flags])

/-- C10. Let `M` be an ACTIVE main context (capability set `ray_main_v`) with
an empty wait queue and environment `l`, let `T` be a target with a
well-formed wait queue of suspended contexts, and let `lp` be the reactor
handle.

First part: if the first `uv_run_once` call after the start reports no
pending work and leaves every context record unchanged (it rouses nobody),
`rayS_await(M, T)` returns (loop budget 2 suffices) after exactly one reactor
iteration, with `M` ACTIVE again and not a member of the wait queue of `T`;
`T` may be `M` itself.

General part: for `T ≠ M`, if the reactor reports pending work on its first
`j` polls and none on poll `j + 1`, and every poll leaves `M` parked (not
roused, still linked on `T`, own queue empty), `rayS_await(M, T)` returns
(any loop budget above `j` suffices) after exactly `j + 1` reactor
iterations, with `M` ACTIVE and unlinked from the queue of `T`. -/
theorem C10_drive_loop_termination (env : Env) (fuel j M T l lp : Nat) (qs : List Nat)
    (s : State)
    (hva : (s.ctx M).v.await = .rayM_main_await) (hvr : (s.ctx M).v.rouse = .rayM_main_rouse)
    (hact : rayS_is_active (s.ctx M) = true) (hL : (s.ctx M).L = some l)
    (hqm : IsQueue s M []) (hqt : IsQueue s T qs)
    (hqs : ∀ q, q ∈ qs → rayS_is_active (s.ctx q) = false)
    (hlp : LoopIs env s lp) :
    ((∀ s1, polls s1.log = polls s.log + 1 →
        ∃ s2, env.uv_run_once lp s1 = .ok 0 s2 ∧ s2.ctx = s1.ctx ∧
          polls s2.log = polls s1.log) →
      1 < fuel →
      ∃ s1 ws, rayS_await env fuel M T s = .ok (s1.lua l).length s1 ∧
        polls s1.log = polls s.log + 1 ∧ rayS_is_active (s1.ctx M) = true ∧
        IsQueue s1 T ws ∧ M ∉ ws) ∧
    (T ≠ M →
      (∀ s1, MainParked s1 M T l → polls s.log < polls s1.log →
        polls s1.log ≤ polls s.log + j + 1 →
        ∃ ev s2, env.uv_run_once lp s1 = .ok ev s2 ∧ MainParked s2 M T l ∧
          polls s2.log = polls s1.log ∧ (ev ≠ 0 ↔ polls s1.log ≤ polls s.log + j)) →
      j < fuel →
      ∃ s1 ws, rayS_await env fuel M T s = .ok (s1.lua l).length s1 ∧
        polls s1.log = polls s.log + j + 1 ∧ rayS_is_active (s1.ctx M) = true ∧
        IsQueue s1 T ws ∧ M ∉ ws ∧ IsQueue s1 M []) := by
  constructor
  · intro hreact hf
    by_cases htm : T = M
    · subst htm
      obtain ⟨s1, h1, h2, h3, h4⟩ := drive_loop_self env fuel T l lp s hva hvr hact hL hqm hlp
        (fun s1 hp => by
          obtain ⟨s2, a, b, c⟩ := hreact s1 hp
          exact ⟨0, s2, a, b, c⟩) hf
      exact ⟨s1, [], h1, h2, h3, h4, by simp⟩
    · obtain ⟨s1, ws, h1, h2, h3, h4, h5, _⟩ :=
        drive_loop_parked env fuel 0 M T l lp qs s hva hact hL hqm hqt hqs htm hlp
          (fun s1 hpk hlo hhi => by
            obtain ⟨s2, a, b, c⟩ := hreact s1 (by omega)
            refine ⟨0, s2, a, MainParked_congr b hpk, c, ?_⟩
            constructor
            · intro h; exact absurd rfl h
            · intro h; omega) (by omega)
      exact ⟨s1, ws, h1, h2, h3, h4, h5⟩
  · intro htm hreact hf
    exact drive_loop_parked env fuel j M T l lp qs s hva hact hL hqm hqt hqs htm hlp hreact hf

/-- C10 at a concrete state: the main context 0 awaits on context 1.  With a
reactor that never has work the loop makes one poll; with a reactor that
has work on its first two polls it makes three. -/
theorem C10_drive_loop_termination_witness :
    (stI.ctx 0).v.await = .rayM_main_await ∧ (stI.ctx 0).v.rouse = .rayM_main_rouse ∧
    rayS_is_active (stI.ctx 0) = true ∧ (stI.ctx 0).L = some 0 ∧
    IsQueue stI 0 [] ∧ IsQueue stI 1 [] ∧ LoopIs envW stI 0 ∧ LoopIs envJ stI 0 ∧
    (∃ s1 ws, rayS_await envW 2 0 1 stI = .ok (s1.lua 0).length s1 ∧
      polls s1.log = polls stI.log + 1 ∧ rayS_is_active (s1.ctx 0) = true ∧
      IsQueue s1 1 ws ∧ 0 ∉ ws) ∧
    (∃ s1 ws, rayS_await envJ 3 0 1 stI = .ok (s1.lua 0).length s1 ∧
      polls s1.log = polls stI.log + 2 + 1 ∧ rayS_is_active (s1.ctx 0) = true ∧
      IsQueue s1 1 ws ∧ 0 ∉ ws ∧ IsQueue s1 0 []) :=
  have hlW : LoopIs envW stI 0 := Or.inr ⟨rfl, fun _ => rfl⟩
  have hlJ : LoopIs envJ stI 0 := Or.inr ⟨rfl, fun _ => rfl⟩
  ⟨rfl, rfl, by decide, rfl, by decide, by decide, hlW, hlJ,
    (C10_drive_loop_termination envW 2 0 0 1 0 0 [] stI rfl rfl (by decide) rfl (by decide)
      (by decide) (by decide) hlW).1 (fun s1 _ => ⟨s1, rfl, rfl, rfl⟩) (by decide),
    (C10_drive_loop_termination envJ 3 2 0 1 0 0 [] stI rfl rfl (by decide) rfl (by decide)
      (by decide) (by decide) hlJ).2 (by decide)
      (fun s1 hpk _ _ => by
        refine ⟨if polls s1.log ≤ 2 then 1 else 0, s1, rfl, hpk, rfl, ?_⟩
        have h0 : polls stI.log = 0 := rfl
        rw [h0]
        by_cases h : polls s1.log ≤ 2
        · simp [h]
        · simp [h]) (by decide)⟩

/-! ## C17: the rouse capability of the main context -/

/-- C17. For every main context `M` and every state, `rayM_main_rouse(M, from)`
returns 1 and leaves every context record (flags, queues) and every stack
unchanged; besides its `TRACE` line it performs `uv_async_send` exactly when
`ngx_queue_empty(&M->queue)` holds at that moment, and performs nothing else.
On a well-formed wait queue `ws` of `M` that test holds iff `ws` is empty. -/
theorem C17_main_rouse_signals_iff_empty (M frm : Nat) (s : State) :
    (∃ s1, rayM_main_rouse M frm s = .ok 1 s1 ∧ s1.ctx = s.ctx ∧ s1.lua = s.lua ∧
      s1.log = s.log ++ (Event.trace_main_rouse M frm ::
        if s.prv (.queue M) = .queue M then [Event.uv_async_send M] else [])) ∧
    (∀ ws, IsQueue s M ws → (s.prv (.queue M) = .queue M ↔ ws = [])) := by
  constructor
  · have hg : (s.trace (.trace_main_rouse M frm)).getPrev (.queue M)
        = some (s.prv (.queue M)) := rfl
    simp only [rayM_main_rouse, ngx_queue_empty, hg, Option.map_some']
    by_cases h : s.prv (.queue M) = .queue M
    · refine ⟨(s.trace (.trace_main_rouse M frm)).trace (.uv_async_send M), ?_, rfl, rfl, ?_⟩
      · simp [h]
      · simp [h]
    · have h1 : ¬ Ptr.queue M = s.prv (.queue M) := fun e => h e.symm
      refine ⟨s.trace (.trace_main_rouse M frm), ?_, rfl, rfl, ?_⟩
      · simp [h1]
      · simp [h]
  · intro ws hq
    have he := empty_of_queue hq
    unfold ngx_queue_empty at he
    rw [getPrev_eq _ _ (by simp)] at he
    simp only [Option.map_some', Option.some.injEq, decide_eq_decide] at he
    rw [← he]
    exact ⟨fun e => e.symm, fun e => e.symm⟩

/-- C17 at concrete states: with context 2 queued on the main context 0 no
signal is sent; with an empty queue the signal is sent. -/
theorem C17_main_rouse_signals_iff_empty_witness :
    IsQueue stW 0 [2] ∧ IsQueue stI 0 [] ∧
    (∃ s1, rayM_main_rouse 0 1 stW = .ok 1 s1 ∧ s1.ctx = stW.ctx ∧
      s1.log = [Event.trace_main_rouse 0 1]) ∧
    (∃ s1, rayM_main_rouse 0 1 stI = .ok 1 s1 ∧ s1.ctx = stI.ctx ∧
      s1.log = [Event.trace_main_rouse 0 1, Event.uv_async_send 0]) ∧
    ¬ (stW.prv (.queue 0) = .queue 0) ∧ stI.prv (.queue 0) = .queue 0 := by
  have hW := C17_main_rouse_signals_iff_empty 0 1 stW
  have hI := C17_main_rouse_signals_iff_empty 0 1 stI
  refine ⟨by decide, by decide, ?_, ?_, ?_, (hI.2 [] (by decide)).mpr rfl⟩
  · obtain ⟨s1, h1, h2, _, h4⟩ := hW.1
    exact ⟨s1, h1, h2, by rw [h4]; rfl⟩
  · obtain ⟨s1, h1, h2, _, h4⟩ := hI.1
    exact ⟨s1, h1, h2, by rw [h4]; rfl⟩
  · intro e
    exact absurd ((hW.2 [2] (by decide)).mp e) (by simp)

/-! ## C15: the default close -/

/-- Effect of `rayM_state_close` on a context whose environment is present. -/
theorem state_close_spec (self l : Nat) (s : State) (hL : (s.ctx self).L = some l) :
    ∃ s1, rayM_state_close self s = .ok 1 s1 ∧
      (∀ i, (s1.ctx i).flags = (s.ctx i).flags) ∧
      s1.lua l = [] ∧ (s1.ctx self).L = none ∧ (s1.ctx self).ref = LUA_NOREF ∧
      ((s.ctx self).ref ≠ LUA_NOREF →
        s1.log = s.log ++ [.luaL_unref l (s.ctx self).ref] ∧ s1.reg_self = s.reg_self ∧
        (0 ≤ (s.ctx self).ref → s1.reg_ref (s.ctx self).ref = false)) ∧
      ((s.ctx self).ref = LUA_NOREF →
        s1.log = s.log ∧ s1.reg_self l = none ∧
        (∀ t, t ≠ l → s1.reg_self t = s.reg_self t) ∧ s1.reg_ref = s.reg_ref) := by
  unfold rayM_state_close
  simp only [hL, lua_settop_zero, setLua_ctx]
  by_cases hr : (s.ctx self).ref = LUA_NOREF
  · simp only [hr, ne_eq, not_true_eq_false, if_false]
    refine ⟨_, rfl, ?_, ?_, ?_, ?_, fun h => False.elim h, fun _ => ⟨rfl, ?_, ?_, rfl⟩⟩
    · intro i
      by_cases hi : i = self
      · subst hi; simp [State.setCtx]
      · simp [State.setCtx, hi]
    · simp [State.setCtx, State.setLua]
    · simp [State.setCtx]
    · simp [State.setCtx, hr]
    · simp [State.setCtx, State.setLua]
    · intro t ht
      simp [State.setCtx, State.setLua, ht]
  · simp only [hr, ne_eq, not_false_eq_true, if_true]
    refine ⟨_, rfl, ?_, ?_, ?_, ?_, fun _ => ⟨?_, ?_, ?_⟩, fun h => False.elim h⟩
    · intro i
      by_cases hi : i = self
      · subst hi
        by_cases h0 : 0 ≤ (s.ctx i).ref <;> simp [State.setCtx, luaL_unref, h0]
      · by_cases h0 : 0 ≤ (s.ctx self).ref <;> simp [State.setCtx, hi, luaL_unref, h0]
    · by_cases h0 : 0 ≤ (s.ctx self).ref <;> simp [State.setCtx, State.setLua, luaL_unref, h0]
    · simp [State.setCtx]
    · simp [State.setCtx]
    · by_cases h0 : 0 ≤ (s.ctx self).ref <;> simp [State.setCtx, State.setLua, luaL_unref, h0]
    · by_cases h0 : 0 ≤ (s.ctx self).ref <;>
        simp [State.setCtx, State.setLua, luaL_unref, h0, State.trace]
    · intro h0
      simp [State.setCtx, State.setLua, luaL_unref, h0]

/-- C15. For every context that is not CLOSED and whose close capability is
the default `rayM_state_close`: when the environment `l` is present,
`rayS_close` returns 1, sets CLOSED, empties the stack of `l`, leaves the
environment absent and the pin equal to `LUA_NOREF`, and performs exactly one
of the two releases: if a pin is held (`ref ≠ LUA_NOREF`) it calls
`luaL_unref` on it and leaves the thread-to-context association alone,
otherwise it clears that association and never calls `luaL_unref`.  When the
environment is already absent, `rayM_state_close` returns 1 in the very
same state, and `rayS_close` changes nothing but the CLOSED flag. -/
theorem C15_default_close_releases_once (env : Env) (s : State) (self : Nat)
    (hc : rayS_is_closed (s.ctx self) = false)
    (hv : (s.ctx self).v.close = .rayM_state_close) :
    (∀ l, (s.ctx self).L = some l →
      ∃ s1, rayS_close env self s = .ok 1 s1 ∧ rayS_is_closed (s1.ctx self) = true ∧
        s1.lua l = [] ∧ (s1.ctx self).L = none ∧ (s1.ctx self).ref = LUA_NOREF ∧
        ((s.ctx self).ref ≠ LUA_NOREF →
          s1.log = s.log ++ [.invoke_close self, .luaL_unref l (s.ctx self).ref] ∧
          s1.reg_self = s.reg_self ∧
          (0 ≤ (s.ctx self).ref → s1.reg_ref (s.ctx self).ref = false)) ∧
        ((s.ctx self).ref = LUA_NOREF →
          s1.log = s.log ++ [.invoke_close self] ∧ s1.reg_self l = none ∧
          (∀ t, t ≠ l → s1.reg_self t = s.reg_self t) ∧ s1.reg_ref = s.reg_ref)) ∧
    ((s.ctx self).L = none →
      rayM_state_close self s = .ok 1 s ∧
      ∃ s1, rayS_close env self s = .ok 1 s1 ∧ rayS_is_closed (s1.ctx self) = true ∧
        (s1.ctx self).L = none ∧ (s1.ctx self).ref = (s.ctx self).ref ∧ s1.lua = s.lua ∧
        s1.reg_self = s.reg_self ∧ s1.reg_ref = s.reg_ref ∧
        s1.log = s.log ++ [.invoke_close self]) := by
  have hcl : ∀ s1 : State, (s1.ctx self).flags = (s.ctx self).flags ||| RAY_CLOSED →
      rayS_is_closed (s1.ctx self) = true := fun s1 h => closed_set (s.ctx self).flags _ h
  constructor
  · intro l hL
    obtain ⟨s1, h1, h2, h3, h4, h5, h6, h7⟩ := state_close_spec self l
      ((s.setFlags self ((s.ctx self).flags ||| RAY_CLOSED)).trace (.invoke_close self))
      (by simp [hL])
    simp only [trace_ctx, setFlags_ref, trace_log, setFlags_log] at h6 h7
    refine ⟨s1, ?_, hcl s1 (by rw [h2]; simp [setFlags_flags]), h3, h4, h5, ?_, ?_⟩
    · simp only [rayS_close, hc, Bool.false_eq_true, if_false, trace_ctx, setFlags_v, hv,
        call_close]
      exact h1
    · intro hr
      obtain ⟨a, b, c⟩ := h6 hr
      exact ⟨by rw [a]; simp, b, c⟩
    · intro hr
      obtain ⟨a, b, c, d⟩ := h7 hr
      exact ⟨a, b, c, d⟩
  · intro hL
    refine ⟨by simp [rayM_state_close, hL],
      (s.setFlags self ((s.ctx self).flags ||| RAY_CLOSED)).trace (.invoke_close self), ?_,
      hcl _ (by simp [setFlags_flags]), by simp [hL], by simp, rfl, rfl, rfl, rfl⟩
    simp only [rayS_close, hc, Bool.false_eq_true, if_false, trace_ctx, setFlags_v, hv,
      call_close, rayM_state_close, setFlags_L, hL]

/-- C15 at concrete states: context 1 without a pin and with the pin 5. -/
theorem C15_default_close_releases_once_witness :
    rayS_is_closed (stI.ctx 1) = false ∧ (stI.ctx 1).v.close = .rayM_state_close ∧
    (stI.ctx 1).L = some 1 ∧ (stI.ctx 1).ref = LUA_NOREF ∧ (stPin.ctx 1).ref = 5 ∧
    (∃ s1, rayS_close envW 1 stI = .ok 1 s1 ∧ rayS_is_closed (s1.ctx 1) = true ∧
      s1.lua 1 = [] ∧ (s1.ctx 1).L = none ∧ (s1.ctx 1).ref = LUA_NOREF ∧
      s1.log = [.invoke_close 1] ∧ s1.reg_self 1 = none) ∧
    (∃ s1, rayS_close envW 1 stPin = .ok 1 s1 ∧ rayS_is_closed (s1.ctx 1) = true ∧
      s1.lua 1 = [] ∧ (s1.ctx 1).L = none ∧ (s1.ctx 1).ref = LUA_NOREF ∧
      s1.log = [.invoke_close 1, .luaL_unref 1 5] ∧ s1.reg_ref 5 = false) := by
  refine ⟨by decide, rfl, rfl, rfl, rfl, ?_, ?_⟩
  · obtain ⟨s1, h1, h2, h3, h4, h5, _, h7⟩ :=
      (C15_default_close_releases_once envW stI 1 (by decide) rfl).1 1 rfl
    obtain ⟨h8, h9, _⟩ := h7 rfl
    exact ⟨s1, h1, h2, h3, h4, h5, by rw [h8]; rfl, h9⟩
  · obtain ⟨s1, h1, h2, h3, h4, h5, h6, _⟩ :=
      (C15_default_close_releases_once envW stPin 1 (by decide) rfl).1 1 rfl
    obtain ⟨h8, _, h10⟩ := h6 (by decide)
    exact ⟨s1, h1, h2, h3, h4, h5, by rw [h8]; rfl, h10 (by decide)⟩

/-! ## C19: close on the main context -/

/-- Whatever the environment, `rayS_close` on an open context whose close slot
is `NULL` sets CLOSED and then calls through the `NULL` pointer. -/
theorem close_null_undefined (env : Env) (s : State) (self : Nat)
    (hc : rayS_is_closed (s.ctx self) = false) (hv : (s.ctx self).v.close = .null) :
    rayS_close env self s = .undefined := by
  simp [rayS_close, hc, hv, call_close]

/-- C19 fails on the code: the capability set `ray_main_v` leaves the close
slot `NULL`; on the main context made by `rayS_init_main`, which carries
that capability set and is not CLOSED, `rayS_close` does not return a status
but calls through the `NULL` pointer (undefined behaviour). -/
theorem C19_main_close_is_null :
    ray_main_v.close = CloseFn.null ∧
    rayS_init_main envW 0 0 0 st0 = .ok 1 sMain ∧
    (sMain.ctx 0).v = ray_main_v ∧ rayS_is_closed (sMain.ctx 0) = false ∧
    rayS_close envW 0 sMain = .undefined :=
  ⟨rfl, rfl, rfl, by decide, close_null_undefined envW sMain 0 (by decide) rfl⟩

/-! ## C12: the capacity check -/

/-- C12 fails on the code: with 8000 values on the source stack the capacity
check `lua_checkstack(a->L, 1)` fails, yet `rayS_xcopy` returns `narg = 1`
as usual, and `rayS_notify` returns the number of waiters, 1, having roused
the waiter and emptied the queue. -/
theorem C12_exhaustion_not_surfaced :
    (stFull.lua 0).length = 8000 ∧ envW.LUAI_MAXCSTACK = 8000 ∧
    lua_checkstack envW (stFull.lua 0) 1 = false ∧
    (∃ s1, rayS_xcopy envW 0 2 1 stFull = .ok 1 s1) ∧
    (∃ s1, rayS_notify envW 2 0 1 stFull = .ok 1 s1 ∧
      rayS_is_active (s1.ctx 2) = true ∧ IsQueue s1 0 []) := by
  have hlen : (stFull.lua 0).length = 8000 := by
    show (List.replicate 8000 (TValue.number 1)).length = 8000
    exact List.length_replicate _ _
  have hsplit : stFull.lua 0 = List.replicate 7999 (TValue.number 1) ++ [TValue.number 1] := by
    show List.replicate (7999 + 1) (TValue.number 1) = _
    rw [List.replicate_succ']
  refine ⟨hlen, rfl, ?_, ?_, ?_⟩
  · simp only [lua_checkstack, hlen]
    decide
  · exact ⟨_, xcopy_spec envW 0 2 0 2 (List.replicate 7999 (.number 1)) [.number 1] stFull
      rfl rfl (by decide) hsplit⟩
  · obtain ⟨s1, h1, h2, h3, _⟩ :=
      notify_spec envW (fun _ => True) 0 1 0 (List.replicate 7999 (.number 1)) [.number 1] [2]
        stFull 2 (by decide) (by decide) (by decide)
        (by
          intro w hw
          rw [List.mem_singleton] at hw
          subst hw
          exact envW_quiet_rouse _ _ _)
        (Or.inl rfl)
        (fun _ => ⟨rfl, hsplit, trivial, by
          intro w hw
          rw [List.mem_singleton] at hw
          subst hw
          exact ⟨2, rfl, by decide⟩⟩)
    exact ⟨s1, h1, active_set (stFull.ctx 2).flags _ (by rw [h3]; simp), h2⟩

/-! ## C20: the final unlink of the drive loop -/

/-- C20 fails on the code.  The main context 0 awaits on context 1; during the
reactor iteration it is roused (so `rayS_rouse` unlinks its `cond`) and
context 2 then awaits on context 1.  When the loop ends the wait queue of
context 1 holds context 2; the second `ngx_queue_remove(&self->cond)` of the
main context, working on the links it kept from before, leaves that queue
empty, and `rayS_await` returns with context 2 suspended but in no queue. -/
theorem C20_final_unlink_drops_waiter :
    main_await_loop envR 2 0 (some 0) sLoop0 = .ok () sBefore ∧
    rayS_is_active (sBefore.ctx 0) = true ∧ IsQueue sBefore 1 [2] ∧
    sBefore.nxt (.cond 0) = .queue 1 ∧ sBefore.prv (.cond 0) = .queue 1 ∧
    ngx_queue_remove (.cond 0) (sBefore.setFlags 0 ((sBefore.ctx 0).flags ||| RAY_ACTIVE))
      = some sUnlinked ∧
    IsQueue sUnlinked 1 [] ∧
    rayS_await envR 2 0 1 stI = .ok 3 sAfter ∧
    IsQueue sAfter 1 [] ∧ ¬ IsQueue sAfter 1 [2] ∧
    rayS_is_active (sAfter.ctx 2) = false ∧ sAfter.nxt (.cond 2) = .queue 1 :=
  ⟨rfl, by decide, by decide, rfl, rfl, rfl, by decide, rfl, by decide, by decide, by decide,
    rfl⟩

/-! ## C14: creation of the main context -/

@[simp] theorem relink_reg_main (s : State) (pv nx : Ptr → Ptr) :
    (s.relink pv nx).reg_main = s.reg_main := rfl

@[simp] theorem relink_reg_self (s : State) (pv nx : Ptr → Ptr) :
    (s.relink pv nx).reg_self = s.reg_self := rfl

/-- Closed form of `ngx_queue_init(q)`. -/
theorem init_eq (s : State) (q : Ptr) (hq : q ≠ .null) :
    ngx_queue_init q s
      = some (s.relink (Function.update s.prv q q) (Function.update s.nxt q q)) := by
  unfold ngx_queue_init
  rw [setPrev_eq s q q hq]
  simp only [Option.some_bind]
  rw [setNext_eq _ q q hq]
  simp only [Option.some.injEq, relink_relink]
  apply relink_congr
  · intro p hp
    rw [relink_prv _ _ _ _ hp]
  · intro p hp
    by_cases e : p = q
    · rw [e, Function.update_same, Function.update_same]
    · simp [Function.update, e, relink_nxt _ _ _ _ hp]

theorem setCtx_other (s : State) (c i : Nat) (r : ray_state_t) (h : i ≠ c) :
    (s.setCtx c r).ctx i = s.ctx i := by
  simp [State.setCtx, h]

theorem setCtx_same (s : State) (c : Nat) (r : ray_state_t) : (s.setCtx c r).ctx c = r := by
  simp [State.setCtx]

theorem relink_other (s : State) (pv nx : Ptr → Ptr) (i : Nat)
    (h1 : pv (.queue i) = s.prv (.queue i)) (h2 : nx (.queue i) = s.nxt (.queue i))
    (h3 : pv (.cond i) = s.prv (.cond i)) (h4 : nx (.cond i) = s.nxt (.cond i)) :
    (s.relink pv nx).ctx i = s.ctx i := by
  simp only [State.relink, h1, h2, h3, h4]
  rfl

/-- Effect of `rayS_new`: the record at `self` is zeroed, receives the
capability set, self-linked `queue` and `cond` and `ref = LUA_NOREF`; the new
block is pushed on the stack of `L`; nothing else changes. -/
theorem new_spec (self L : Nat) (m : Option Nat) (v : Option ray_vtable_t) (s : State) :
    ∃ s1, rayS_new self L m v s = .ok self s1 ∧
      (s1.ctx self).v = v.getD ⟨.null, .null, .null⟩ ∧ (s1.ctx self).flags = 0 ∧
      (s1.ctx self).L = none ∧ (s1.ctx self).ref = LUA_NOREF ∧
      s1.nxt (.queue self) = .queue self ∧ s1.prv (.queue self) = .queue self ∧
      s1.nxt (.cond self) = .cond self ∧ s1.prv (.cond self) = .cond self ∧
      (∀ c, c ≠ self → s1.ctx c = s.ctx c) ∧
      s1.lua = (s.setLua L (s.lua L ++ [.userdata self])).lua ∧
      s1.reg_main = s.reg_main ∧ s1.reg_loop = s.reg_loop ∧ s1.reg_self = s.reg_self ∧
      s1.reg_ref = s.reg_ref ∧ s1.log = s.log := by
  unfold rayS_new
  simp only [init_eq _ (Ptr.queue self) (by simp), init_eq _ (Ptr.cond self) (by simp)]
  refine ⟨_, rfl, ?_, ?_, ?_, ?_, ?_, ?_, ?_, ?_, ?_, ?_, ?_, ?_, ?_, ?_, ?_⟩
  · cases v <;> simp [State.setCtx, zero_state]
  · cases v <;> simp [State.setCtx, zero_state]
  · cases v <;> simp [State.setCtx, zero_state]
  · simp [State.setCtx]
  · simp [State.nxt, State.links, State.setCtx, State.relink, Function.update]
  · simp [State.prv, State.links, State.setCtx, State.relink, Function.update]
  · simp [State.nxt, State.links, State.setCtx, State.relink, Function.update]
  · simp [State.prv, State.links, State.setCtx, State.relink, Function.update]
  · intro c hc
    have hq : Ptr.queue c ≠ Ptr.queue self := by simpa using hc
    have hcd : Ptr.cond c ≠ Ptr.cond self := by simpa using hc
    cases v <;>
      simp [State.setCtx, State.relink, hc, Function.update, State.prv, State.nxt, State.links]
  · cases v <;> rfl
  · cases v <;> rfl
  · cases v <;> rfl
  · cases v <;> rfl
  · cases v <;> rfl
  · cases v <;> rfl

theorem lua_pop_one (st : List TValue) (a : TValue) : lua_pop (st ++ [a]) 1 = some st :=
  lua_pop_append st [a] 1 rfl

/-- `rayS_init_main` when the registry already holds a main context: nothing
changes. -/
theorem init_main_again (env : Env) (self mt L m : Nat) (s : State) (h : s.reg_main = some m) :
    rayS_init_main env self mt L s = .ok 1 s := by
  unfold rayS_init_main
  simp only [h, setLua_lua, if_true, lua_pop_one, setLua_setLua, setLua_self]

/-- The end of the creating branch: the reactor handle is fetched and the two
values pushed earlier are popped; context records and registry are kept. -/
theorem init_main_finish_spec (env : Env) (slf L lp : Nat) (s6 : State) (st : List TValue)
    (a b : TValue) (hlp : LoopIs env s6 lp) (hst : s6.lua L = st ++ [a] ++ [b]) :
    ∃ s1, init_main_finish env slf L s6 = .ok 1 s1 ∧ s1.ctx = s6.ctx ∧
      s1.lua L = st ∧ (∀ i, i ≠ L → s1.lua i = s6.lua i) ∧
      s1.reg_main = s6.reg_main ∧ s1.reg_self = s6.reg_self := by
  obtain ⟨g1, g2, g3, _⟩ := get_loop_spec env s6 lp hlp
  have hreg : (rayS_get_loop env s6).2.reg_main = s6.reg_main ∧
      (rayS_get_loop env s6).2.reg_self = s6.reg_self := by
    unfold rayS_get_loop
    cases s6.reg_loop <;> exact ⟨rfl, rfl⟩
  unfold init_main_finish
  simp only [g1, trace_lua, g3, hst, lua_pop_one]
  refine ⟨_, rfl, ?_, ?_, ?_, hreg.1, hreg.2⟩
  · simp [g2]
  · simp [setLua_lua]
  · intro i hi
    simp [setLua_lua, hi, g3]

/-- `rayS_init_main` on a registry without a main context, called on the main
thread with a reactor handle available. -/
theorem init_main_first (env : Env) (self L lp : Nat) (s : State) (hnone : s.reg_main = none)
    (hlp : LoopIs env s lp) :
    ∃ s1, rayS_init_main env self L L s = .ok 1 s1 ∧
      (s1.ctx self).v = ray_main_v ∧ (s1.ctx self).flags = RAY_ACTIVE ∧
      (s1.ctx self).L = some L ∧ (s1.ctx self).ref = LUA_NOREF ∧
      s1.nxt (.queue self) = .queue self ∧ s1.prv (.queue self) = .queue self ∧
      s1.nxt (.cond self) = .cond self ∧ s1.prv (.cond self) = .cond self ∧
      (∀ c, c ≠ self → s1.ctx c = s.ctx c) ∧ s1.lua = s.lua ∧
      s1.reg_main = some self ∧ s1.reg_self L = some self := by
  obtain ⟨sN, hnew, nv, _, _, nref, _, _, _, _, nother, nlua, _, nloop, _, _, _⟩ :=
    new_spec self L none (some ray_main_v) (s.setLua L (s.lua L ++ [TValue.nil]))
  have key : ∀ X : State, (X.ctx self).v = ray_main_v → (X.ctx self).flags = RAY_ACTIVE →
      (X.ctx self).L = some L → (X.ctx self).ref = LUA_NOREF →
      X.nxt (.queue self) = .queue self → X.prv (.queue self) = .queue self →
      X.nxt (.cond self) = .cond self → X.prv (.cond self) = .cond self →
      (∀ c, c ≠ self → X.ctx c = s.ctx c) → X.lua = sN.lua → X.reg_loop = s.reg_loop →
      X.reg_main = some self → X.reg_self L = some self →
      ∃ s1, init_main_finish env self L X = .ok 1 s1 ∧
        (s1.ctx self).v = ray_main_v ∧ (s1.ctx self).flags = RAY_ACTIVE ∧
        (s1.ctx self).L = some L ∧ (s1.ctx self).ref = LUA_NOREF ∧
        s1.nxt (.queue self) = .queue self ∧ s1.prv (.queue self) = .queue self ∧
        s1.nxt (.cond self) = .cond self ∧ s1.prv (.cond self) = .cond self ∧
        (∀ c, c ≠ self → s1.ctx c = s.ctx c) ∧ s1.lua = s.lua ∧
        s1.reg_main = some self ∧ s1.reg_self L = some self := by
    intro X x1 x2 x3 x4 x5 x6 x7 x8 x9 x10 x11 x12 x13
    have hl : LoopIs env X lp := by
      rcases hlp with h | ⟨h1, h2⟩
      · exact Or.inl (by rw [x11, h])
      · exact Or.inr ⟨by rw [x11, h1], h2⟩
    have hst : X.lua L = s.lua L ++ [TValue.nil] ++ [TValue.userdata self] := by
      rw [x10, nlua]; simp [setLua_lua]
    obtain ⟨s1, f1, f2, f3, f4, f5, f6⟩ :=
      init_main_finish_spec env self L lp X (s.lua L) _ _ hl hst
    refine ⟨s1, f1, by rw [f2]; exact x1, by rw [f2]; exact x2, by rw [f2]; exact x3,
      by rw [f2]; exact x4, by rw [nxt_of_ctx f2]; exact x5, by rw [prv_of_ctx f2]; exact x6,
      by rw [nxt_of_ctx f2]; exact x7, by rw [prv_of_ctx f2]; exact x8,
      fun c hc => by rw [f2]; exact x9 c hc, ?_, by rw [f5]; exact x12, by rw [f6]; exact x13⟩
    funext i
    by_cases hi : i = L
    · subst hi; exact f3
    · rw [f4 i hi, x10, nlua]
      simp [setLua_lua, hi]
  unfold rayS_init_main
  simp only [hnone, hnew, Res.bind, ne_eq, not_true_eq_false, if_false,
    init_eq _ (Ptr.queue self) (by simp), init_eq _ (Ptr.cond self) (by simp)]
  refine key _ ?_ ?_ ?_ ?_ ?_ ?_ ?_ ?_ ?_ ?_ ?_ ?_ ?_
  · simp [State.setCtx, nv]
  · simp [State.setCtx]
  · simp [State.setCtx]
  · simp [State.setCtx, nref]
  · rw [relink_nxt _ _ _ _ (by simp), Function.update_noteq (by simp),
      relink_nxt _ _ _ _ (by simp)]
    simp [Function.update]
  · rw [relink_prv _ _ _ _ (by simp), Function.update_noteq (by simp),
      relink_prv _ _ _ _ (by simp)]
    simp [Function.update]
  · rw [relink_nxt _ _ _ _ (by simp)]
    simp [Function.update]
  · rw [relink_prv _ _ _ _ (by simp)]
    simp [Function.update]
  · intro c hc
    rw [← setLua_ctx s L (s.lua L ++ [TValue.nil]), ← nother c hc]
    simp [State.setCtx, State.relink, hc, Function.update, State.prv, State.nxt, State.links]
  · rfl
  · simp [State.setCtx, nloop]
  · rfl
  · simp [State.setCtx, State.relink]

/-- C14. On a registry with no main context, the first `rayS_init_main`
(called on the main Lua thread, as the source asserts, with a reactor handle
to be had) returns 1 and creates at the fresh address `self` a context with
the capability set `ray_main_v` and flags exactly ACTIVE (so ACTIVE, not
CLOSED), an empty wait queue and a `cond` node linked to nothing but itself;
it registers it, so that `rayS_get_main` returns it, and touches no other
context and no stack.  Every later `rayS_init_main`, with whatever
arguments, returns 1 in the very same state (registry, flags and queue of the
main context included), and `rayS_get_main` keeps returning the same
context. -/
theorem C14_main_created_once (env : Env) (self L lp : Nat) (s : State)
    (hnone : s.reg_main = none) (hlp : LoopIs env s lp) :
    ∃ s1, rayS_init_main env self L L s = .ok 1 s1 ∧
      (s1.ctx self).v = ray_main_v ∧ (s1.ctx self).flags = RAY_ACTIVE ∧
      rayS_is_active (s1.ctx self) = true ∧ rayS_is_closed (s1.ctx self) = false ∧
      IsQueue s1 self [] ∧
      s1.nxt (.cond self) = .cond self ∧ s1.prv (.cond self) = .cond self ∧
      rayS_get_main L s1 = some self ∧
      (∀ c, c ≠ self → s1.ctx c = s.ctx c) ∧ s1.lua = s.lua ∧
      (∀ self2 mt2 L2, rayS_init_main env self2 mt2 L2 s1 = .ok 1 s1 ∧
        rayS_get_main L2 s1 = some self) := by
  obtain ⟨s1, h1, h2, h3, _, _, h6, h7, h8, h9, h10, h11, h12, _⟩ :=
    init_main_first env self L lp s hnone hlp
  refine ⟨s1, h1, h2, h3, ?_, ?_, (IsQueue_nil_iff s1 self).mpr ⟨h6, h7⟩, h8, h9, h12, h10, h11,
    fun self2 mt2 L2 => ⟨init_main_again env self2 mt2 L2 self s1 h12, h12⟩⟩
  · simp [rayS_is_active, h3, RAY_ACTIVE]
  · simp [rayS_is_closed, h3, RAY_ACTIVE, RAY_CLOSED]

/-- C14 at a concrete state: the first `rayS_init_main` in the pristine world
creates the main context at address 0; a second call changes nothing. -/
theorem C14_main_created_once_witness :
    st0.reg_main = none ∧ LoopIs envW st0 0 ∧
    ∃ s1, rayS_init_main envW 0 0 0 st0 = .ok 1 s1 ∧ (s1.ctx 0).flags = RAY_ACTIVE ∧
      IsQueue s1 0 [] ∧ rayS_get_main 0 s1 = some 0 ∧
      rayS_init_main envW 7 0 0 s1 = .ok 1 s1 ∧ rayS_get_main 3 s1 = some 0 := by
  have hl : LoopIs envW st0 0 := Or.inr ⟨rfl, fun _ => rfl⟩
  obtain ⟨s1, h1, _, h3, _, _, h6, _, _, h9, _, _, h12⟩ :=
    C14_main_created_once envW 0 0 0 st0 rfl hl
  exact ⟨rfl, hl, s1, h1, h3, h6, h9, (h12 7 0 0).1, (h12 7 0 3).2⟩

/-! ## C18: the drive loop stops when the main context is roused -/

theorem bind_eq_ok {α β : Type} (r : Res α) (k : α → State → Res β) (b : β) (s2 : State) :
    r.bind k = .ok b s2 ↔ ∃ a s1, r = .ok a s1 ∧ k a s1 = .ok b s2 := by
  cases r with
  | ok a s1 =>
    constructor
    · intro h; exact ⟨a, s1, rfl, h⟩
    · rintro ⟨a2, s3, h1, h2⟩
      cases h1
      exact h2
  | assert_fail s1 => simp [Res.bind]
  | undefined => simp [Res.bind]
  | out_of_fuel => simp [Res.bind]

/-- More fuel does not change a notify loop that returned. -/
theorem notify_loop_mono (env : Env) (self : Nat) (narg : Int) :
    ∀ (f : Nat) (c : Int) (s : State) (r : Int) (s2 : State),
      rayS_notify_loop env f self narg c s = .ok r s2 →
      rayS_notify_loop env (f + 1) self narg c s = .ok r s2 := by
  intro f
  induction f with
  | zero => intro c s r s2 h; simp [rayS_notify_loop] at h
  | succ f ih =>
    intro c s r s2 h
    rw [rayS_notify_loop] at h
    rw [rayS_notify_loop]
    cases he : ngx_queue_empty (.queue self) s with
    | none => simp [he] at h
    | some e =>
      cases e with
      | true => simpa [he] using h
      | false =>
        simp only [he] at h ⊢
        cases hh : ngx_queue_head (.queue self) s with
        | none => simp [hh] at h
        | some q =>
          simp only [hh] at h ⊢
          cases hd : ngx_queue_data q with
          | none => simp [hd] at h
          | some w =>
            simp only [hd] at h ⊢
            obtain ⟨a, s1, h1, h2⟩ := (bind_eq_ok _ _ _ _).mp h
            rw [h1]
            exact ih _ _ _ _ h2

theorem notify_loop_mono_le (env : Env) (self : Nat) (narg : Int) (f g : Nat) (hfg : f ≤ g)
    (c : Int) (s : State) (r : Int) (s2 : State)
    (h : rayS_notify_loop env f self narg c s = .ok r s2) :
    rayS_notify_loop env g self narg c s = .ok r s2 := by
  induction hfg with
  | refl => exact h
  | step _ ih => exact notify_loop_mono env self narg _ c s r s2 ih

/-- More fuel does not change a `rayS_notify` that returned. -/
theorem notify_mono (env : Env) (self : Nat) (narg : Int) (f g : Nat) (hfg : f ≤ g)
    (s : State) (r : Int) (s2 : State) (h : rayS_notify env f self narg s = .ok r s2) :
    rayS_notify env g self narg s = .ok r s2 := by
  unfold rayS_notify at h ⊢
  cases hn : (if narg = LUA_MULTRET then (s.ctx self).L.map (fun l => lua_gettop (s.lua l))
      else some narg) with
  | none => simp [hn] at h
  | some n =>
    simp only [hn] at h ⊢
    obtain ⟨a, s1, h1, h2⟩ := (bind_eq_ok _ _ _ _).mp h
    rw [notify_loop_mono_le env self n f g hfg 0 s a s1 h1]
    exact h2

/-- More fuel does not change a drive loop that returned. -/
theorem main_await_loop_mono (env : Env) (self : Nat) (loop : Option Nat) :
    ∀ (f g : Nat), f ≤ g → ∀ (s s2 : State),
      main_await_loop env f self loop s = .ok () s2 →
      main_await_loop env g self loop s = .ok () s2 := by
  intro f
  induction f with
  | zero => intro g _ s s2 h; simp [main_await_loop] at h
  | succ f ih =>
    intro g hfg s s2 h
    obtain ⟨g, rfl⟩ : ∃ k, g = k + 1 := ⟨g - 1, by omega⟩
    rw [main_await_loop] at h ⊢
    obtain ⟨c, s1, h1, h2⟩ := (bind_eq_ok _ _ _ _).mp h
    rw [notify_mono env self 0 (f + 1) (g + 1) hfg s c s1 h1]
    obtain ⟨ev, s3, h3, h4⟩ := (bind_eq_ok _ _ _ _).mp h2
    simp only [Res.bind, h3]
    by_cases ha : rayS_is_active (s3.ctx self) = true
    · simpa [ha] using h4
    · by_cases hev : ev = 0
      · simpa [ha, hev] using h4
      · simp only [ha, hev, ne_eq, not_false_eq_true, if_true, if_false] at h4 ⊢
        exact ih g (by omega) _ _ h4

/-- Every returning drive loop is a run in the sense of the description. -/
theorem drive_run_of_loop (env : Env) (self : Nat) (loop : Option Nat) :
    ∀ (f : Nat) (s s2 : State), main_await_loop env f self loop s = .ok () s2 →
      ∃ n, 1 ≤ n ∧ n ≤ f ∧ DriveRun env self loop n s s2 := by
  intro f
  induction f with
  | zero => intro s s2 h; simp [main_await_loop] at h
  | succ f ih =>
    intro s s2 h
    rw [main_await_loop] at h
    obtain ⟨c, s1, h1, h2⟩ := (bind_eq_ok _ _ _ _).mp h
    obtain ⟨ev, s3, h3, h4⟩ := (bind_eq_ok _ _ _ _).mp h2
    by_cases ha : rayS_is_active (s3.ctx self) = true
    · simp only [ha, if_true, Res.ok.injEq, true_and] at h4
      subst h4
      exact ⟨1, le_refl _, by omega, DriveRun.roused s s1 s3 _ c ev h1 h3 ha⟩
    · have ha2 : rayS_is_active (s3.ctx self) = false := by simpa using ha
      by_cases hev : ev = 0
      · subst hev
        simp only [ha2, ne_eq, not_true_eq_false, if_false, Res.ok.injEq, true_and,
          Bool.false_eq_true] at h4
        subst h4
        exact ⟨1, le_refl _, by omega, DriveRun.idle s s1 s3 _ c h1 h3 ha2⟩
      · simp only [ha, hev, ne_eq, not_false_eq_true, if_true, if_false] at h4
        obtain ⟨n, hn1, hn2, hr⟩ := ih _ _ h4
        exact ⟨n + 1, by omega, by omega, DriveRun.again n s s1 s3 s2 _ c ev h1 h3 ha2 hev hr⟩

/-- Every run in the sense of the description is what the drive loop computes,
given fuel enough. -/
theorem loop_of_drive_run (env : Env) (self : Nat) (loop : Option Nat) (n : Nat)
    (s s2 : State) (h : DriveRun env self loop n s s2) :
    ∃ f, main_await_loop env f self loop s = .ok () s2 := by
  induction h with
  | roused s s1 s2 f c ev h1 h3 ha =>
    refine ⟨f + 1, ?_⟩
    rw [main_await_loop, notify_mono env self 0 f (f + 1) (by omega) s c s1 h1]
    simp [Res.bind, h3, ha]
  | idle s s1 s2 f c h1 h3 ha =>
    refine ⟨f + 1, ?_⟩
    rw [main_await_loop, notify_mono env self 0 f (f + 1) (by omega) s c s1 h1]
    simp [Res.bind, h3, ha]
  | again n s s1 s2 s3 f c ev h1 h3 ha hev _ ih =>
    obtain ⟨g, hg⟩ := ih
    refine ⟨max f g + 1, ?_⟩
    rw [main_await_loop, notify_mono env self 0 f (max f g + 1) (by omega) s c s1 h1]
    simp only [Res.bind, h3, ha, hev, ne_eq, not_false_eq_true, if_true, if_false,
      Bool.false_eq_true]
    exact main_await_loop_mono env self loop g (max f g) (by omega) _ _ hg

/-- C18. In the drive loop of `rayM_main_await`, an iteration (one
`rayS_notify(main, 0)`, then one reactor iteration) that leaves the main
context ACTIVE ends the loop in the very state the reactor iteration
returned, so with no further notify and no further reactor iteration,
whatever event count `ev` the reactor reported (non-zero included); an
iteration that leaves it inactive with pending work is followed by the rest of
the loop.  And the loop refines the run the description words: it returns `s2`
(given fuel enough) exactly when there is a run of some `n` iterations from
`s` to `s2`, each made of exactly one notify followed by one reactor
iteration. -/
theorem C18_drive_loop_exits_on_rouse (env : Env) (self : Nat) (loop : Option Nat) :
    (∀ (fuel : Nat) (s s1 s2 : State) (c ev : Int),
      rayS_notify env (fuel + 1) self 0 s = .ok c s1 →
      uv_run_once env loop s1 = .ok ev s2 →
      (rayS_is_active (s2.ctx self) = true →
        main_await_loop env (fuel + 1) self loop s = .ok () s2) ∧
      (rayS_is_active (s2.ctx self) = false → ev ≠ 0 →
        main_await_loop env (fuel + 1) self loop s = main_await_loop env fuel self loop s2)) ∧
    (∀ (s s2 : State), (∃ fuel, main_await_loop env fuel self loop s = .ok () s2) ↔
      ∃ n, 1 ≤ n ∧ DriveRun env self loop n s s2) := by
  refine ⟨fun fuel s s1 s2 c ev h1 h3 => ⟨fun ha => ?_, fun ha hev => ?_⟩, fun s s2 => ⟨?_, ?_⟩⟩
  · simp [main_await_loop, h1, Res.bind, h3, ha]
  · rw [main_await_loop]
    simp [h1, Res.bind, h3, ha, hev]
  · rintro ⟨f, hf⟩
    obtain ⟨n, hn, _, hr⟩ := drive_run_of_loop env self loop f s s2 hf
    exact ⟨n, hn, hr⟩
  · rintro ⟨n, _, hr⟩
    exact loop_of_drive_run env self loop n s s2 hr

/-- C18 at a concrete run: the reactor iteration rouses the main context 0 and
reports pending work (`ev = 1`); the loop stops in the state that iteration
returned, after one notify and one reactor iteration. -/
theorem C18_drive_loop_exits_on_rouse_witness :
    rayS_notify envR 2 0 0 sLoop0 = .ok 0 sLoop0 ∧
    uv_run_once envR (some 0) sLoop0 = .ok 1 sBefore ∧
    rayS_is_active (sBefore.ctx 0) = true ∧
    main_await_loop envR 2 0 (some 0) sLoop0 = .ok () sBefore ∧
    ∃ n, 1 ≤ n ∧ DriveRun envR 0 (some 0) n sLoop0 sBefore :=
  ⟨rfl, rfl, rfl,
    ((C18_drive_loop_exits_on_rouse envR 0 (some 0)).1 1 sLoop0 sLoop0 sBefore 0 1 rfl rfl).1 rfl,
    ((C18_drive_loop_exits_on_rouse envR 0 (some 0)).2 sLoop0 sBefore).mp ⟨2, rfl⟩⟩

/-! ## C16: what the operations do to the flags -/

theorem final_bind {α β : Type} (r : Res α) (k : α → State → Res β) (s2 : State)
    (h : (r.bind k).final = some s2) :
    (∃ a s1, r = .ok a s1 ∧ (k a s1).final = some s2) ∨ r = .assert_fail s2 := by
  cases r with
  | ok a s1 => exact Or.inl ⟨a, s1, rfl, h⟩
  | assert_fail s1 =>
    right
    simp only [Res.bind, Res.final, Option.some.injEq] at h
    rw [h]
  | undefined => simp [Res.bind, Res.final] at h
  | out_of_fuel => simp [Res.bind, Res.final] at h

theorem final_undefined {α : Type} {s2 : State}
    (h : (Res.undefined : Res α).final = some s2) : False := by
  cases h

theorem final_ok {α : Type} {r : Res α} {a : α} {s1 : State} (h : r = .ok a s1) :
    r.final = some s1 := by
  rw [h]; rfl

theorem final_fail {α : Type} {r : Res α} {s1 : State} (h : r = .assert_fail s1) :
    r.final = some s1 := by
  rw [h]; rfl

theorem xcopy_push_ctx (l : Nat) : ∀ (n : Nat) (i : Int) (s s2 : State),
    (xcopy_push l n i s).final = some s2 → s2.ctx = s.ctx := by
  intro n
  induction n with
  | zero =>
    intro i s s2 h
    simp only [xcopy_push, Res.final, Option.some.injEq] at h
    rw [← h]
  | succ n ih =>
    intro i s s2 h
    rw [xcopy_push] at h
    cases hp : lua_pushvalue (s.lua l) i with
    | none => rw [hp] at h; exact (final_undefined h).elim
    | some st =>
      simp only [hp] at h
      exact (ih _ _ _ h).trans rfl

theorem xmove_ctx (a b : Nat) (n : Int) (s s2 : State) (h : lua_xmove a b n s = some s2) :
    s2.ctx = s.ctx := by
  unfold lua_xmove at h
  by_cases e : a = b
  · simp only [e, if_true, Option.some.injEq] at h
    rw [← h]
  · by_cases c : 0 ≤ n ∧ n ≤ (s.lua a).length
    · simp only [e, c, and_self, if_true, if_false, Option.some.injEq] at h
      rw [← h]
      rfl
    · simp [e, c] at h

theorem xcopy_ctx (env : Env) (a b : Nat) (narg : Int) (s s2 : State)
    (h : (rayS_xcopy env a b narg s).final = some s2) : s2.ctx = s.ctx := by
  unfold rayS_xcopy at h
  cases ha : (s.ctx a).L with
  | none => rw [ha] at h; exact (final_undefined h).elim
  | some la =>
    simp only [ha] at h
    cases hb : (s.ctx b).L with
    | none => rw [hb] at h; exact (final_undefined h).elim
    | some lb =>
      simp only [hb] at h
      cases ht : lua_settop (s.lua lb) 0 with
      | none => rw [ht] at h; exact (final_undefined h).elim
      | some stb =>
        simp only [ht] at h
        rcases final_bind _ _ _ h with ⟨u, s1, h1, h2⟩ | h1
        · have e1 := xcopy_push_ctx la _ _ _ s1 (final_ok h1)
          cases hx : lua_xmove la lb narg s1 with
          | none => rw [hx] at h2; exact (final_undefined h2).elim
          | some s3 =>
            simp only [hx] at h2
            have e3 := xmove_ctx _ _ _ _ _ hx
            have e4 : s2 = s3 := by
              split_ifs at h2 <;> simp only [Res.final, Option.some.injEq] at h2 <;> rw [← h2]
            rw [e4, e3, e1]
            rfl
        · exact (xcopy_push_ctx la _ _ _ s2 (final_fail h1)).trans rfl

theorem main_rouse_ctx (self frm : Nat) (s s2 : State)
    (h : (rayM_main_rouse self frm s).final = some s2) : s2.ctx = s.ctx := by
  simp only [rayM_main_rouse] at h
  cases he : ngx_queue_empty (.queue self) (s.trace (.trace_main_rouse self frm)) with
  | none => rw [he] at h; exact (final_undefined h).elim
  | some e =>
    cases e <;> simp only [he, Res.final, Option.some.injEq] at h <;> rw [← h] <;> rfl

theorem get_loop_ctx (env : Env) (s : State) : (rayS_get_loop env s).2.ctx = s.ctx := by
  unfold rayS_get_loop
  cases s.reg_loop <;> rfl

theorem flagstep_of_ctx {P : Nat → Nat → Prop} (hP : FlagRel P) {s s2 : State}
    (h : s2.ctx = s.ctx) : FlagStep P s s2 := fun c => by
  rw [h]
  exact hP.1 _

theorem flagstep_trans {P : Nat → Nat → Prop} (hP : FlagRel P) {s s1 s2 : State}
    (h1 : FlagStep P s s1) (h2 : FlagStep P s1 s2) : FlagStep P s s2 :=
  fun c => hP.2.1 _ _ _ (h1 c) (h2 c)

/-- Setting one context's flags to a related word, then rewriting links and
adding to the record, is a step of the relation. -/
theorem flagstep_set {P : Nat → Nat → Prop} (hP : FlagRel P) (s s2 : State) (w f : Nat)
    (hf : P (s.ctx w).flags f)
    (h : ∀ c, (s2.ctx c).flags = if c = w then f else (s.ctx c).flags) : FlagStep P s s2 := by
  intro c
  rw [h c]
  by_cases e : c = w
  · rw [if_pos e, e]
    exact hf
  · rw [if_neg e]
    exact hP.1 _

theorem call_rouse_keeps {P : Nat → Nat → Prop} (hP : FlagRel P) (env : Env)
    (hE : EnvKeeps env P) (f : RouseFn) (self frm : Nat) (s s2 : State)
    (h : (call_rouse env f self frm s).final = some s2) : FlagStep P s s2 := by
  cases f with
  | null => simp [call_rouse, Res.final] at h
  | rayM_main_rouse => exact flagstep_of_ctx hP (main_rouse_ctx self frm s s2 h)
  | ext g => exact hE.2.1 g self frm s s2 h

theorem rouse_keeps {P : Nat → Nat → Prop} (hP : FlagRel P) (env : Env)
    (hE : EnvKeeps env P) (self frm : Nat) (s s2 : State)
    (h : (rayS_rouse env self frm s).final = some s2) : FlagStep P s s2 := by
  unfold rayS_rouse at h
  by_cases ha : rayS_is_active ((s.trace (.trace_rouse self frm)).ctx self) = true
  · simp only [ha, if_true, Res.final, Option.some.injEq] at h
    rw [← h]
    exact flagstep_of_ctx hP rfl
  · simp only [ha, if_false, Bool.false_eq_true] at h
    cases hr : ngx_queue_remove (.cond self)
        ((s.trace (.trace_rouse self frm)).setFlags self
          (((s.trace (.trace_rouse self frm)).ctx self).flags ||| RAY_ACTIVE)) with
    | none => rw [hr] at h; exact (final_undefined h).elim
    | some s3 =>
      simp only [hr] at h
      have e3 := remove_some _ _ _ hr
      have k1 : FlagStep P s (s3.trace (.invoke_rouse self frm)) := by
        apply flagstep_set hP s _ self _ (hP.2.2.1 (s.ctx self).flags)
        intro c
        rw [e3]
        simp only [trace_ctx, State.removed, relink_flags, setFlags_flags]
      exact flagstep_trans hP k1 (call_rouse_keeps hP env hE _ _ _ _ _ h)

theorem notify_step_keeps {P : Nat → Nat → Prop} (hP : FlagRel P) (env : Env)
    (hE : EnvKeeps env P) (self w : Nat) (narg : Int) (s s2 : State)
    (h : (((if narg ≠ 0 then rayS_xcopy env self w narg s else .ok 0 s).bind fun _ s1 =>
            rayS_rouse env w self s1)).final = some s2) : FlagStep P s s2 := by
  have first : ∀ s1, (if narg ≠ 0 then rayS_xcopy env self w narg s else .ok 0 s).final = some s1 →
      s1.ctx = s.ctx := by
    intro s1 h1
    by_cases e : narg ≠ 0
    · rw [if_pos e] at h1
      exact xcopy_ctx env self w narg s s1 h1
    · rw [if_neg e] at h1
      simp only [Res.final, Option.some.injEq] at h1
      rw [← h1]
  rcases final_bind _ _ _ h with ⟨a, s1, h1, h2⟩ | h1
  · exact flagstep_trans hP (flagstep_of_ctx hP (first s1 (final_ok h1)))
      (rouse_keeps hP env hE w self s1 s2 h2)
  · exact flagstep_of_ctx hP (first s2 (final_fail h1))

theorem notify_loop_keeps {P : Nat → Nat → Prop} (hP : FlagRel P) (env : Env)
    (hE : EnvKeeps env P) (self : Nat) (narg : Int) :
    ∀ (fuel : Nat) (c : Int) (s s2 : State),
      (rayS_notify_loop env fuel self narg c s).final = some s2 → FlagStep P s s2 := by
  intro fuel
  induction fuel with
  | zero => intro c s s2 h; simp [rayS_notify_loop, Res.final] at h
  | succ f ih =>
    intro c s s2 h
    rw [rayS_notify_loop] at h
    cases he : ngx_queue_empty (.queue self) s with
    | none => rw [he] at h; exact (final_undefined h).elim
    | some e =>
      cases e with
      | true =>
        simp only [he, Res.final, Option.some.injEq] at h
        rw [← h]
        exact flagstep_of_ctx hP rfl
      | false =>
        simp only [he] at h
        cases hh : ngx_queue_head (.queue self) s with
        | none => rw [hh] at h; exact (final_undefined h).elim
        | some q =>
          simp only [hh] at h
          cases hd : ngx_queue_data q with
          | none => rw [hd] at h; exact (final_undefined h).elim
          | some w =>
            simp only [hd] at h
            rcases final_bind _ _ _ h with ⟨a, s1, h1, h2⟩ | h1
            · exact flagstep_trans hP (notify_step_keeps hP env hE self w narg s s1 (final_ok h1))
                (ih _ _ _ h2)
            · exact notify_step_keeps hP env hE self w narg s s2 (final_fail h1)

theorem notify_keeps {P : Nat → Nat → Prop} (hP : FlagRel P) (env : Env)
    (hE : EnvKeeps env P) (fuel self : Nat) (narg : Int) (s s2 : State)
    (h : (rayS_notify env fuel self narg s).final = some s2) : FlagStep P s s2 := by
  unfold rayS_notify at h
  cases hn : (if narg = LUA_MULTRET then (s.ctx self).L.map (fun l => lua_gettop (s.lua l))
      else some narg) with
  | none => rw [hn] at h; exact (final_undefined h).elim
  | some n =>
    simp only [hn] at h
    rcases final_bind _ _ _ h with ⟨a, s1, h1, h2⟩ | h1
    · refine flagstep_trans hP (notify_loop_keeps hP env hE self n fuel 0 s s1 (final_ok h1)) ?_
      by_cases e : n ≠ 0
      · rw [if_pos e] at h2
        cases hL : (s1.ctx self).L with
        | none => rw [hL] at h2; exact (final_undefined h2).elim
        | some l =>
          simp only [hL] at h2
          cases hpop : lua_pop (s1.lua l) n with
          | none => rw [hpop] at h2; exact (final_undefined h2).elim
          | some st =>
            simp only [hpop, Res.final, Option.some.injEq] at h2
            rw [← h2]
            exact flagstep_of_ctx hP rfl
      · rw [if_neg e] at h2
        simp only [Res.final, Option.some.injEq] at h2
        rw [← h2]
        exact flagstep_of_ctx hP rfl
    · exact notify_loop_keeps hP env hE self n fuel 0 s s2 (final_fail h1)

theorem run_once_keeps {P : Nat → Nat → Prop} (hP : FlagRel P) (env : Env)
    (hE : EnvKeeps env P) (loop : Option Nat) (s s2 : State)
    (h : (uv_run_once env loop s).final = some s2) : FlagStep P s s2 := by
  cases loop with
  | none => rw [uv_run_once] at h; exact (final_undefined h).elim
  | some lp =>
    exact flagstep_trans hP (flagstep_of_ctx hP (trace_ctx s _)) (hE.2.2.2 lp _ s2 h)

theorem main_await_loop_keeps {P : Nat → Nat → Prop} (hP : FlagRel P) (env : Env)
    (hE : EnvKeeps env P) (self : Nat) (loop : Option Nat) :
    ∀ (fuel : Nat) (s s2 : State),
      (main_await_loop env fuel self loop s).final = some s2 → FlagStep P s s2 := by
  intro fuel
  induction fuel with
  | zero => intro s s2 h; simp [main_await_loop, Res.final] at h
  | succ f ih =>
    intro s s2 h
    rw [main_await_loop] at h
    rcases final_bind _ _ _ h with ⟨a, s1, h1, h2⟩ | h1
    · refine flagstep_trans hP (notify_keeps hP env hE _ self 0 s s1 (final_ok h1)) ?_
      rcases final_bind _ _ _ h2 with ⟨ev, s3, h3, h4⟩ | h3
      · refine flagstep_trans hP (run_once_keeps hP env hE loop s1 s3 (final_ok h3)) ?_
        by_cases ha : rayS_is_active (s3.ctx self) = true
        · simp only [ha, if_true, Res.final, Option.some.injEq] at h4
          rw [← h4]
          exact flagstep_of_ctx hP rfl
        · by_cases hev : ev ≠ 0
          · simp only [ha, hev, ne_eq, not_false_eq_true, if_true, if_false,
              Bool.false_eq_true] at h4
            exact ih _ _ h4
          · simp only [ha, hev, if_false, Bool.false_eq_true, Res.final,
              Option.some.injEq] at h4
            rw [← h4]
            exact flagstep_of_ctx hP rfl
      · exact run_once_keeps hP env hE loop s1 s2 (final_fail h3)
    · exact notify_keeps hP env hE _ self 0 s s2 (final_fail h1)

theorem main_await_keeps {P : Nat → Nat → Prop} (hP : FlagRel P) (env : Env)
    (hE : EnvKeeps env P) (fuel self that : Nat) (s s2 : State)
    (h : (rayM_main_await env fuel self that s).final = some s2) : FlagStep P s s2 := by
  unfold rayM_main_await at h
  cases he : ngx_queue_empty (.queue self) s with
  | none => rw [he] at h; exact (final_undefined h).elim
  | some e =>
    simp only [he] at h
    cases hL : ((s.trace (.trace_enter_main_await e)).ctx self).L with
    | none => rw [hL] at h; exact (final_undefined h).elim
    | some l0 =>
      simp only [hL] at h
      have k0 : FlagStep P s (rayS_get_loop env (s.trace (.trace_enter_main_await e))).2 :=
        flagstep_of_ctx hP ((get_loop_ctx env _).trans rfl)
      rcases final_bind _ _ _ h with ⟨a, s1, h1, h2⟩ | h1
      · have k1 := main_await_loop_keeps hP env hE self _ fuel _ s1 (final_ok h1)
        refine flagstep_trans hP k0 (flagstep_trans hP k1 ?_)
        cases hr : ngx_queue_remove (.cond self)
            (s1.setFlags self ((s1.ctx self).flags ||| RAY_ACTIVE)) with
        | none => rw [hr] at h2; exact (final_undefined h2).elim
        | some s3 =>
          simp only [hr] at h2
          have e3 := remove_some _ _ _ hr
          cases hL3 : ((s3.trace .trace_unloop).ctx self).L with
          | none => rw [hL3] at h2; exact (final_undefined h2).elim
          | some l =>
            simp only [hL3, Res.final, Option.some.injEq] at h2
            rw [← h2]
            apply flagstep_set hP s1 _ self _ (hP.2.2.1 (s1.ctx self).flags)
            intro c
            rw [e3]
            simp only [trace_ctx, State.removed, relink_flags, setFlags_flags]
      · exact flagstep_trans hP k0 (main_await_loop_keeps hP env hE self _ fuel _ s2 (final_fail h1))

theorem call_await_keeps {P : Nat → Nat → Prop} (hP : FlagRel P) (env : Env)
    (hE : EnvKeeps env P) (fuel : Nat) (f : AwaitFn) (self that : Nat) (s s2 : State)
    (h : (call_await env fuel f self that s).final = some s2) : FlagStep P s s2 := by
  cases f with
  | null => simp [call_await, Res.final] at h
  | rayM_main_await => exact main_await_keeps hP env hE fuel self that s s2 h
  | ext g => exact hE.1 g self that s s2 h

theorem await_keeps {P : Nat → Nat → Prop} (hP : FlagRel P) (env : Env)
    (hE : EnvKeeps env P) (fuel self that : Nat) (s s2 : State)
    (h : (rayS_await env fuel self that s).final = some s2) : FlagStep P s s2 := by
  unfold rayS_await at h
  by_cases ha : rayS_is_active ((s.trace (.trace_await self that)).ctx self) = true
  · simp only [ha, if_true] at h
    cases hi : ngx_queue_insert_tail (.queue that) (.cond self)
        ((s.trace (.trace_await self that)).setFlags self
          (((s.trace (.trace_await self that)).ctx self).flags &&& bnot32 RAY_ACTIVE)) with
    | none => rw [hi] at h; exact (final_undefined h).elim
    | some s3 =>
      simp only [hi] at h
      obtain ⟨pv, nx, e3⟩ := insert_tail_some _ _ _ _ hi
      have k1 : FlagStep P s (s3.trace (.invoke_await self that)) := by
        apply flagstep_set hP s _ self _ (hP.2.2.2 (s.ctx self).flags)
        intro c
        rw [e3]
        simp only [trace_ctx, relink_flags, setFlags_flags]
      exact flagstep_trans hP k1 (call_await_keeps hP env hE fuel _ _ _ _ _ h)
  · simp only [ha, if_false, Bool.false_eq_true, Res.final, Option.some.injEq] at h
    rw [← h]
    exact flagstep_of_ctx hP rfl

theorem close_keeps {P : Nat → Nat → Prop} (hP : FlagRel P) (hcl : ∀ f, P f (f ||| RAY_CLOSED))
    (env : Env) (hE : EnvKeeps env P) (self : Nat) (s s2 : State)
    (h : (rayS_close env self s).final = some s2) : FlagStep P s s2 := by
  unfold rayS_close at h
  by_cases hc : rayS_is_closed (s.ctx self) = true
  · simp only [hc, if_true, Res.final, Option.some.injEq] at h
    rw [← h]
    exact flagstep_of_ctx hP rfl
  · simp only [hc, if_false, Bool.false_eq_true] at h
    have k1 : FlagStep P s ((s.setFlags self ((s.ctx self).flags ||| RAY_CLOSED)).trace
        (.invoke_close self)) := by
      apply flagstep_set hP s _ self _ (hcl (s.ctx self).flags)
      intro c
      simp only [trace_ctx, setFlags_flags]
    refine flagstep_trans hP k1 ?_
    cases hv : ((s.setFlags self ((s.ctx self).flags ||| RAY_CLOSED)).ctx self).v.close with
    | null =>
      simp only [hv, call_close] at h
      exact (final_undefined h).elim
    | rayM_state_close =>
      simp only [hv, call_close] at h
      obtain ⟨s3, h3, hfl⟩ := state_close_flags self
        ((s.setFlags self ((s.ctx self).flags ||| RAY_CLOSED)).trace (.invoke_close self))
      rw [h3] at h
      simp only [Res.final, Option.some.injEq] at h
      rw [← h]
      intro c
      rw [hfl c]
      exact hP.1 _
    | ext g =>
      simp only [hv, call_close] at h
      exact hE.2.2.1 g self _ s2 h

theorem closed_bit (f : Nat) : (f &&& RAY_CLOSED != 0) = f.testBit 1 :=
  is_closed_eq { zero_state with flags := f }

theorem latch_rel : FlagRel Latch := by
  refine ⟨fun f h => h, fun f g h h1 h2 h3 => h2 (h1 h3), fun f => ?_, fun f => ?_⟩
  · unfold Latch
    rw [closed_bit, closed_bit, testBit_set_active]
    intro h
    simp [h]
  · unfold Latch
    rw [closed_bit, closed_bit, testBit_clear_active]
    intro h
    simp [h]

theorem latch_closed (f : Nat) : Latch f (f ||| RAY_CLOSED) := by
  unfold Latch
  rw [closed_bit, closed_bit, testBit_set_closed]
  intro _
  simp

theorem only_active_rel : FlagRel OnlyActive := by
  refine ⟨fun f i _ _ => rfl, fun f g h h1 h2 i hi h32 => (h2 i hi h32).trans (h1 i hi h32),
    fun f i hi h32 => ?_, fun f i hi h32 => ?_⟩
  · rw [testBit_set_active]
    simp [hi]
  · rw [testBit_clear_active]
    simp [hi, h32]

/-- An environment that hands every state back untouched keeps every flag
relation. -/
theorem envW_keeps {P : Nat → Nat → Prop} (hP : FlagRel P) : EnvKeeps envW P := by
  refine ⟨fun g w t s s2 h => ?_, fun g w t s s2 h => ?_, fun g w s s2 h => ?_,
    fun lp s s2 h => ?_⟩ <;>
  · simp only [envW, Res.final, Option.some.injEq] at h
    rw [← h]
    exact flagstep_of_ctx hP rfl

/-- C16. CLOSED is a one-way latch, and only the ACTIVE bit moves.  First:
provided the code outside this file never clears a CLOSED bit, a context
that is CLOSED stays CLOSED through any sequence of attempts at
`rayS_await`, `rayS_rouse`, `rayS_notify`, `rayS_close`, `rayM_main_rouse`
and `rayM_main_await` (the drive loop), whether an attempt returns or fails an
assertion.  Second: provided the code outside this file changes at most the
ACTIVE bit, every such attempt other than `rayS_close` leaves every bit of
every context's 32-bit flag word other than bit 0 (ACTIVE) as it was. -/
theorem C16_closed_is_latched (env : Env) :
    (EnvKeeps env Latch → ∀ s s2, Attempts env s s2 →
      ∀ c, rayS_is_closed (s.ctx c) = true → rayS_is_closed (s2.ctx c) = true) ∧
    (EnvKeeps env OnlyActive → ∀ (fuel : Nat) (op : Op) (s s2 : State),
      (∀ c, op ≠ Op.close c) → (Op.run env fuel op s).final = some s2 →
      ∀ c i, i ≠ 0 → i < 32 → (s2.ctx c).flags.testBit i = (s.ctx c).flags.testBit i) := by
  have step : ∀ (P : Nat → Nat → Prop), FlagRel P → EnvKeeps env P →
      ∀ (fuel : Nat) (op : Op) (s s2 : State),
      ((∀ f, P f (f ||| RAY_CLOSED)) ∨ ∀ c, op ≠ Op.close c) →
      (Op.run env fuel op s).final = some s2 → FlagStep P s s2 := by
    intro P hP hE fuel op s s2 hcl h
    cases op with
    | await self that => exact await_keeps hP env hE fuel self that s s2 h
    | rouse self frm => exact rouse_keeps hP env hE self frm s s2 h
    | notify self narg => exact notify_keeps hP env hE fuel self narg s s2 h
    | close self =>
      rcases hcl with hcl | hcl
      · exact close_keeps hP hcl env hE self s s2 h
      · exact absurd rfl (hcl self)
    | main_rouse self frm => exact flagstep_of_ctx hP (main_rouse_ctx self frm s s2 h)
    | main_await self that => exact main_await_keeps hP env hE fuel self that s s2 h
  refine ⟨fun hE s s2 hrun => ?_, fun hE fuel op s s2 hop h c i hi h32 => ?_⟩
  · induction hrun with
    | done s => exact fun c h => h
    | step fuel op s s1 s2 h1 _ ih =>
      intro c hc
      exact ih c (step Latch latch_rel hE fuel op s s1 (Or.inl latch_closed) h1 c hc)
  · exact step OnlyActive only_active_rel hE fuel op s s2 (Or.inr hop) h c i hi h32

/-- C16 at a concrete run: context 1 is closed, then awaits on context 0; it
is still CLOSED afterwards, and the await changed its ACTIVE bit only. -/
theorem C16_closed_is_latched_witness :
    EnvKeeps envW Latch ∧ EnvKeeps envW OnlyActive ∧
    rayS_close envW 1 stI = .ok 1 sClosed ∧ rayS_await envW 1 1 0 sClosed = .ok 0 sLater ∧
    rayS_is_closed (sClosed.ctx 1) = true ∧ rayS_is_closed (sLater.ctx 1) = true ∧
    rayS_is_active (sClosed.ctx 1) = true ∧ rayS_is_active (sLater.ctx 1) = false ∧
    (sLater.ctx 1).flags.testBit 1 = (sClosed.ctx 1).flags.testBit 1 :=
  ⟨envW_keeps latch_rel, envW_keeps only_active_rel, rfl, rfl, rfl,
    (C16_closed_is_latched envW).1 (envW_keeps latch_rel) sClosed sLater
      (Attempts.step 1 (.await 1 0) sClosed sLater sLater rfl (Attempts.done sLater)) 1 rfl,
    rfl, rfl,
    (C16_closed_is_latched envW).2 (envW_keeps only_active_rel) 1 (.await 1 0) sClosed sLater
      (fun c h => Op.noConfusion h) rfl 1 1 (by decide) (by decide)⟩

/-! ## Rings: uniqueness and frames -/

theorem Seg_unique {s : State} {z : Nat} : ∀ (l l2 : List Nat) (a : Ptr),
    Seg s a l (.queue z) → Seg s a l2 (.queue z) → l = l2
  | [], [], _, _, _ => rfl
  | [], w :: l2, a, h1, h2 => by
    have e : Ptr.queue z = Ptr.cond w := h1.1.symm.trans h2.1.1
    cases e
  | w :: l, [], a, h1, h2 => by
    have e : Ptr.cond w = Ptr.queue z := h1.1.1.symm.trans h2.1
    cases e
  | w :: l, w2 :: l2, a, h1, h2 => by
    have e : Ptr.cond w = Ptr.cond w2 := h1.1.1.symm.trans h2.1.1
    injection e with e
    subst e
    rw [Seg_unique l l2 _ h1.2 h2.2]

/-- A wait queue has one content. -/
theorem IsQueue_unique {s : State} {t : Nat} {l l2 : List Nat} (h1 : IsQueue s t l)
    (h2 : IsQueue s t l2) : l = l2 :=
  Seg_unique l l2 _ h1.1 h2.1

/-- The `cond` node of a queued context is not linked to itself. -/
theorem member_nxt_ne {s : State} {t : Nat} {ws : List Nat} {w : Nat} (h : IsQueue s t ws)
    (hw : w ∈ ws) : s.nxt (.cond w) ≠ .cond w := by
  obtain ⟨l1, l2, rfl⟩ := List.append_of_mem hw
  have h2 := Seg_nxt_start (Seg_append.mp h.1).2
  rw [h2]
  cases l2 with
  | nil => simp [firstNode]
  | cons y l =>
    have hnd := h.2
    simp only [firstNode, List.map_cons, List.headD_cons, ne_eq, Ptr.cond.injEq]
    intro e
    subst e
    have := (List.nodup_append.mp hnd).2.1
    simp at this

/-- The neighbours of a queued `cond` node are nodes of the same ring. -/
theorem ring_links_mem {s : State} {t : Nat} {ws : List Nat} {w : Nat} (h : IsQueue s t ws)
    (hw : w ∈ ws) :
    s.prv (.cond w) ∈ Ptr.queue t :: ws.map Ptr.cond ∧
    s.nxt (.cond w) ∈ Ptr.queue t :: ws.map Ptr.cond := by
  obtain ⟨l1, l2, rfl⟩ := List.append_of_mem hw
  obtain ⟨ha, hb⟩ := Seg_append.mp h.1
  constructor
  · rw [Seg_prv_end ha]
    have := lastNode_mem (.queue t) l1
    simp only [List.mem_cons, List.map_append, List.map_cons, List.mem_append] at this ⊢
    tauto
  · rw [Seg_nxt_start hb]
    cases l2 with
    | nil => simp [firstNode]
    | cons y l => simp [firstNode]

/-- A ring only depends on the links stored in its own nodes. -/
theorem IsQueue_frame {s s2 : State} {t : Nat} {ws : List Nat} (h : IsQueue s t ws)
    (hn : ∀ p, p ∈ Ptr.queue t :: ws.map Ptr.cond → s2.nxt p = s.nxt p)
    (hp : ∀ p, p ∈ Ptr.queue t :: ws.map Ptr.cond → s2.prv p = s.prv p) : IsQueue s2 t ws := by
  refine ⟨Seg_frame hn (fun p hp2 => hp p ?_) h.1, h.2⟩
  simp only [List.mem_append, List.mem_singleton, List.mem_cons] at hp2 ⊢
  tauto

theorem removed_nxt {s : State} {x p : Ptr} (hp : p ≠ .null) (h : p ≠ s.prv x) :
    (s.removed x).nxt p = s.nxt p := by
  rw [State.removed, relink_nxt _ _ _ _ hp, Function.update_noteq h]

theorem removed_prv {s : State} {x p : Ptr} (hp : p ≠ .null) (h : p ≠ s.nxt x) :
    (s.removed x).prv p = s.prv p := by
  rw [State.removed, relink_prv _ _ _ _ hp, Function.update_noteq h]

theorem nxt_null (s : State) : s.nxt .null = .null := rfl

theorem prv_null (s : State) : s.prv .null = .null := rfl

/-- Removing a node whose neighbours already bypass it changes no link. -/
theorem removed_loose {s : State} {x : Ptr} (h1 : s.nxt (s.prv x) = s.nxt x)
    (h2 : s.prv (s.nxt x) = s.prv x) :
    (s.removed x).nxt = s.nxt ∧ (s.removed x).prv = s.prv := by
  constructor
  · funext p
    cases p with
    | null => rfl
    | queue c =>
      rw [State.removed, relink_nxt _ _ _ _ (by simp)]
      by_cases e : Ptr.queue c = s.prv x
      · rw [e, Function.update_same, h1]
      · rw [Function.update_noteq e]
    | cond c =>
      rw [State.removed, relink_nxt _ _ _ _ (by simp)]
      by_cases e : Ptr.cond c = s.prv x
      · rw [e, Function.update_same, h1]
      · rw [Function.update_noteq e]
  · funext p
    cases p with
    | null => rfl
    | queue c =>
      rw [State.removed, relink_prv _ _ _ _ (by simp)]
      by_cases e : Ptr.queue c = s.nxt x
      · rw [e, Function.update_same, h2]
      · rw [Function.update_noteq e]
    | cond c =>
      rw [State.removed, relink_prv _ _ _ _ (by simp)]
      by_cases e : Ptr.cond c = s.nxt x
      · rw [e, Function.update_same, h2]
      · rw [Function.update_noteq e]

theorem inserted_nxt {s : State} {t w : Nat} {p : Ptr} (hp : p ≠ .null)
    (h1 : p ≠ s.prv (.queue t)) (h2 : p ≠ .cond w) :
    (s.inserted t w).nxt p = s.nxt p := by
  rw [State.inserted, relink_nxt _ _ _ _ hp, Function.update_noteq h2, Function.update_noteq h1]

theorem inserted_prv {s : State} {t w : Nat} {p : Ptr} (hp : p ≠ .null)
    (h1 : p ≠ .queue t) (h2 : p ≠ .cond w) :
    (s.inserted t w).prv p = s.prv p := by
  rw [State.inserted, relink_prv _ _ _ _ hp, Function.update_noteq h1, Function.update_noteq h2]

theorem ring_ne_null {t : Nat} {ws : List Nat} {p : Ptr}
    (h : p ∈ Ptr.queue t :: ws.map Ptr.cond) : p ≠ .null := by
  intro e
  subst e
  simp at h

/-- Nodes of the rings of two different targets with disjoint contents differ. -/
theorem ring_disjoint {t u : Nat} {ws us : List Nat} (htu : t ≠ u)
    (hd : ∀ x, x ∈ ws → x ∉ us) {p : Ptr}
    (h1 : p ∈ Ptr.queue t :: ws.map Ptr.cond) (h2 : p ∈ Ptr.queue u :: us.map Ptr.cond) :
    False := by
  cases p with
  | null => simp at h1
  | queue c =>
    have e1 : c = t := by simpa [List.mem_map] using h1
    have e2 : c = u := by simpa [List.mem_map] using h2
    exact htu (e1.symm.trans e2)
  | cond c =>
    have e1 : c ∈ ws := by simpa [List.mem_map] using h1
    have e2 : c ∈ us := by simpa [List.mem_map] using h2
    exact hd c e1 e2

/-! ## The queue invariant under the elementary steps -/

theorem QInv_congr {cs : List Nat} {s s2 : State} {Q : Nat → List Nat} (h : s2.ctx = s.ctx)
    (hI : QInv cs s Q) : QInv cs s2 Q := by
  obtain ⟨i1, i2, i3, i4⟩ := hI
  refine ⟨fun t ht => IsQueue_congr (nxt_of_ctx h) (prv_of_ctx h) (i1 t ht), ?_, i3, ?_⟩
  · intro t ht w hw
    rw [h]
    exact i2 t ht w hw
  · intro w hw ha
    rw [h] at ha
    rw [nxt_of_ctx h, prv_of_ctx h]
    exact i4 w hw ha

theorem active_of_flags {s s2 : State} {c : Nat} (h : (s2.ctx c).flags = (s.ctx c).flags) :
    rayS_is_active (s2.ctx c) = rayS_is_active (s.ctx c) :=
  is_active_congr h

/-- Unlinking a queued context and setting its ACTIVE flag. -/
theorem QInv_unlink_member {cs : List Nat} {s s2 : State} {Q : Nat → List Nat} {t w : Nat}
    {l1 l2 : List Nat} (hI : QInv cs s Q) (ht : t ∈ cs) (hQ : Q t = l1 ++ w :: l2)
    (hn : s2.nxt = (s.removed (.cond w)).nxt) (hp : s2.prv = (s.removed (.cond w)).prv)
    (hf : ∀ c, (s2.ctx c).flags
      = if c = w then (s.ctx w).flags ||| RAY_ACTIVE else (s.ctx c).flags) :
    QInv cs s2 (Function.update Q t (l1 ++ l2)) := by
  obtain ⟨i1, i2, i3, i4⟩ := hI
  have hqt := i1 t ht
  have hwt : w ∈ Q t := by rw [hQ]; simp
  have hnd : (l1 ++ w :: l2).Nodup := by rw [← hQ]; exact hqt.2
  have hw12 : w ∉ l1 ++ l2 := by
    have h1 := (List.nodup_append.mp hnd)
    have h2 := List.nodup_cons.mp h1.2.1
    intro hm
    rcases List.mem_append.mp hm with h | h
    · exact h1.2.2 h (List.mem_cons_self _ _)
    · exact h2.1 h
  have hsub : ∀ u, u ∈ cs → ∀ x, x ∈ Function.update Q t (l1 ++ l2) u → x ∈ Q u ∧ x ≠ w := by
    intro u hu x hx
    by_cases e : u = t
    · subst e
      rw [Function.update_same] at hx
      refine ⟨?_, fun e2 => hw12 (e2 ▸ hx)⟩
      rw [hQ]
      simp only [List.mem_append, List.mem_cons] at hx ⊢
      tauto
    · rw [Function.update_noteq e] at hx
      refine ⟨hx, fun e2 => ?_⟩
      subst e2
      exact e (i3 u hu t ht x hx hwt)
  have hsup : ∀ u, ∀ x, x ∈ Q u → x ≠ w → x ∈ Function.update Q t (l1 ++ l2) u := by
    intro u x hx hne
    by_cases e : u = t
    · subst e
      rw [Function.update_same]
      rw [hQ] at hx
      simp only [List.mem_append, List.mem_cons] at hx ⊢
      tauto
    · rw [Function.update_noteq e]
      exact hx
  have hlinks := ring_links_mem hqt hwt
  have hflag : ∀ x, x ≠ w → rayS_is_active (s2.ctx x) = rayS_is_active (s.ctx x) := by
    intro x hx
    apply active_of_flags
    rw [hf x, if_neg hx]
  have hwact : rayS_is_active (s2.ctx w) = true :=
    active_set (s.ctx w).flags _ (by rw [hf w, if_pos rfl])
  refine ⟨?_, ?_, ?_, ?_⟩
  · intro u hu
    by_cases e : u = t
    · subst e
      rw [Function.update_same]
      have := IsQueue_removed (hQ ▸ hqt)
      exact IsQueue_congr hn hp this
    · rw [Function.update_noteq e]
      have hd : ∀ x, x ∈ Q t → x ∉ Q u := fun x h1 h2 => e (i3 u hu t ht x h2 h1)
      apply IsQueue_frame (i1 u hu)
      · intro p hpm
        rw [hn]
        exact removed_nxt (ring_ne_null hpm)
          (fun e2 => ring_disjoint (fun e3 => e e3.symm) hd (e2 ▸ hlinks.1) hpm)
      · intro p hpm
        rw [hp]
        exact removed_prv (ring_ne_null hpm)
          (fun e2 => ring_disjoint (fun e3 => e e3.symm) hd (e2 ▸ hlinks.2) hpm)
  · intro u hu x hx
    obtain ⟨h1, h2⟩ := hsub u hu x hx
    refine ⟨(i2 u hu x h1).1, ?_⟩
    rw [hflag x h2]
    exact (i2 u hu x h1).2
  · intro u hu v hv x hx1 hx2
    exact i3 u hu v hv x (hsub u hu x hx1).1 (hsub v hv x hx2).1
  · intro x hx ha
    have hxw : x ≠ w := by
      intro e
      subst e
      rw [hwact] at ha
      exact Bool.noConfusion ha
    rw [hflag x hxw] at ha
    rcases i4 x hx ha with ⟨u, hu, hxu⟩ | ⟨h1, h2⟩
    · exact Or.inl ⟨u, hu, hsup u x hxu hxw⟩
    · right
      have hxt : x ∉ Q t := fun hm => member_nxt_ne hqt hm h1
      have hc : Ptr.cond x ∉ Ptr.queue t :: (Q t).map Ptr.cond := by
        simp only [List.mem_cons, List.mem_map, Ptr.cond.injEq, exists_eq_right, not_or]
        exact ⟨fun e => Ptr.noConfusion e, hxt⟩
      have g1 : Ptr.cond x ≠ s.prv (.cond w) := fun e2 => hc (e2 ▸ hlinks.1)
      have g2 : Ptr.cond x ≠ s.nxt (.cond w) := fun e2 => hc (e2 ▸ hlinks.2)
      constructor
      · rw [hn, removed_nxt (by simp) g1, h1]
      · rw [hp, removed_prv (by simp) g2, h2]

/-- Unlinking a context that is in no queue and whose neighbours bypass it
(a fresh context, or the main context after it roused itself): only its ACTIVE
flag changes. -/
theorem QInv_unlink_loose {cs : List Nat} {s s2 : State} {Q : Nat → List Nat} {w : Nat}
    (hI : QInv cs s Q) (hnot : ∀ t, t ∈ cs → w ∉ Q t)
    (h1 : s.nxt (s.prv (.cond w)) = s.nxt (.cond w))
    (h2 : s.prv (s.nxt (.cond w)) = s.prv (.cond w))
    (hn : s2.nxt = (s.removed (.cond w)).nxt) (hp : s2.prv = (s.removed (.cond w)).prv)
    (hf : ∀ c, (s2.ctx c).flags
      = if c = w then (s.ctx w).flags ||| RAY_ACTIVE else (s.ctx c).flags) :
    QInv cs s2 Q := by
  obtain ⟨i1, i2, i3, i4⟩ := hI
  obtain ⟨e1, e2⟩ := removed_loose h1 h2
  rw [e1] at hn
  rw [e2] at hp
  have hflag : ∀ x, x ≠ w → rayS_is_active (s2.ctx x) = rayS_is_active (s.ctx x) := by
    intro x hx
    apply active_of_flags
    rw [hf x, if_neg hx]
  have hwact : rayS_is_active (s2.ctx w) = true :=
    active_set (s.ctx w).flags _ (by rw [hf w, if_pos rfl])
  refine ⟨fun t ht => IsQueue_congr hn hp (i1 t ht), ?_, i3, ?_⟩
  · intro t ht x hx
    have hxw : x ≠ w := fun e => hnot t ht (e ▸ hx)
    rw [hflag x hxw]
    exact i2 t ht x hx
  · intro x hx ha
    have hxw : x ≠ w := by
      intro e
      subst e
      rw [hwact] at ha
      exact Bool.noConfusion ha
    rw [hflag x hxw] at ha
    rw [hn, hp]
    exact i4 x hx ha

/-- Clearing the ACTIVE flag of a context and linking it at the tail of a
wait queue. -/
theorem QInv_link {cs : List Nat} {s s2 : State} {Q : Nat → List Nat} {t w : Nat}
    (hI : QInv cs s Q) (hw : w ∈ cs) (ht : t ∈ cs) (hact : rayS_is_active (s.ctx w) = true)
    (hn : s2.nxt = (s.inserted t w).nxt) (hp : s2.prv = (s.inserted t w).prv)
    (hf : ∀ c, (s2.ctx c).flags
      = if c = w then (s.ctx w).flags &&& bnot32 RAY_ACTIVE else (s.ctx c).flags) :
    QInv cs s2 (Function.update Q t (Q t ++ [w])) := by
  obtain ⟨i1, i2, i3, i4⟩ := hI
  have hqt := i1 t ht
  have hnot : ∀ u, u ∈ cs → w ∉ Q u := by
    intro u hu hm
    have := (i2 u hu w hm).2
    rw [hact] at this
    exact Bool.noConfusion this
  have hflag : ∀ x, x ≠ w → rayS_is_active (s2.ctx x) = rayS_is_active (s.ctx x) := by
    intro x hx
    apply active_of_flags
    rw [hf x, if_neg hx]
  have hwact : rayS_is_active (s2.ctx w) = false :=
    active_cleared (s.ctx w).flags _ (by rw [hf w, if_pos rfl])
  have hlast : s.prv (.queue t) ∈ Ptr.queue t :: (Q t).map Ptr.cond := by
    rw [Seg_prv_end hqt.1]
    exact lastNode_mem _ _
  have hsub : ∀ u, ∀ x, x ∈ Function.update Q t (Q t ++ [w]) u → x ∈ Q u ∨ (x = w ∧ u = t) := by
    intro u x hx
    by_cases e : u = t
    · subst e
      rw [Function.update_same] at hx
      simp only [List.mem_append, List.mem_singleton] at hx
      tauto
    · rw [Function.update_noteq e] at hx
      exact Or.inl hx
  have hsup : ∀ u, ∀ x, x ∈ Q u → x ∈ Function.update Q t (Q t ++ [w]) u := by
    intro u x hx
    by_cases e : u = t
    · subst e
      rw [Function.update_same]
      exact List.mem_append_left _ hx
    · rw [Function.update_noteq e]
      exact hx
  refine ⟨?_, ?_, ?_, ?_⟩
  · intro u hu
    by_cases e : u = t
    · subst e
      rw [Function.update_same]
      exact IsQueue_congr hn hp (IsQueue_inserted hqt (hnot u hu))
    · rw [Function.update_noteq e]
      have hd : ∀ x, x ∈ Q t → x ∉ Q u := fun x h1 h2 => e (i3 u hu t ht x h2 h1)
      have hcw : ∀ p, p ∈ Ptr.queue u :: (Q u).map Ptr.cond → p ≠ Ptr.cond w := by
        intro p hpm e2
        subst e2
        have : w ∈ Q u := by simpa [List.mem_map] using hpm
        exact hnot u hu this
      have hqt2 : ∀ p, p ∈ Ptr.queue u :: (Q u).map Ptr.cond → p ≠ Ptr.queue t := by
        intro p hpm e2
        subst e2
        have : t = u := by simpa [List.mem_map] using hpm
        exact e this.symm
      apply IsQueue_frame (i1 u hu)
      · intro p hpm
        rw [hn]
        exact inserted_nxt (ring_ne_null hpm)
          (fun e2 => ring_disjoint (fun e3 => e e3.symm) hd (e2 ▸ hlast) hpm) (hcw p hpm)
      · intro p hpm
        rw [hp]
        exact inserted_prv (ring_ne_null hpm) (hqt2 p hpm) (hcw p hpm)
  · intro u hu x hx
    rcases hsub u x hx with h | ⟨h, _⟩
    · have hxw : x ≠ w := fun e => hnot u hu (e ▸ h)
      refine ⟨(i2 u hu x h).1, ?_⟩
      rw [hflag x hxw]
      exact (i2 u hu x h).2
    · subst h
      exact ⟨hw, hwact⟩
  · intro u hu v hv x hx1 hx2
    rcases hsub u x hx1 with h1 | ⟨h1, e1⟩
    · rcases hsub v x hx2 with h2 | ⟨h2, _⟩
      · exact i3 u hu v hv x h1 h2
      · subst h2
        exact absurd h1 (hnot u hu)
    · rcases hsub v x hx2 with h2 | ⟨_, e2⟩
      · subst h1
        exact absurd h2 (hnot v hv)
      · rw [e1, e2]
  · intro x hx ha
    by_cases hxw : x = w
    · subst hxw
      refine Or.inl ⟨t, ht, ?_⟩
      rw [Function.update_same]
      simp
    · rw [hflag x hxw] at ha
      rcases i4 x hx ha with ⟨u, hu, hxu⟩ | ⟨h1, h2⟩
      · exact Or.inl ⟨u, hu, hsup u x hxu⟩
      · right
        have hxt : x ∉ Q t := fun hm => member_nxt_ne hqt hm h1
        have hc : Ptr.cond x ∉ Ptr.queue t :: (Q t).map Ptr.cond := by
          simp only [List.mem_cons, List.mem_map, Ptr.cond.injEq, exists_eq_right, not_or]
          exact ⟨fun e => Ptr.noConfusion e, hxt⟩
        have hxc : Ptr.cond x ≠ Ptr.cond w := fun e => hxw (by injection e)
        have g1 : Ptr.cond x ≠ s.prv (.queue t) := fun e2 => hc (e2 ▸ hlast)
        constructor
        · rw [hn, inserted_nxt (by simp) g1 hxc, h1]
        · rw [hp, inserted_prv (by simp) (by simp) hxc, h2]

theorem links_of_ctx {s s2 : State} {c : Nat} (h : s2.ctx c = s.ctx c) :
    s2.nxt (.queue c) = s.nxt (.queue c) ∧ s2.prv (.queue c) = s.prv (.queue c) ∧
    s2.nxt (.cond c) = s.nxt (.cond c) ∧ s2.prv (.cond c) = s.prv (.cond c) := by
  simp only [State.nxt, State.prv, State.links, h, and_self]

/-- A context created at a fresh address, with an empty wait queue and either
ACTIVE or with its `cond` node linked to itself. -/
theorem QInv_fresh {cs : List Nat} {s s2 : State} {Q : Nat → List Nat} {n : Nat}
    (hI : QInv cs s Q) (hn : n ∉ cs) (hother : ∀ c, c ≠ n → s2.ctx c = s.ctx c)
    (hq1 : s2.nxt (.queue n) = .queue n) (hq2 : s2.prv (.queue n) = .queue n)
    (hc : rayS_is_active (s2.ctx n) = false →
      s2.nxt (.cond n) = .cond n ∧ s2.prv (.cond n) = .cond n) :
    QInv (n :: cs) s2 (Function.update Q n []) := by
  obtain ⟨i1, i2, i3, i4⟩ := hI
  have hne : ∀ u, u ∈ cs → u ≠ n := fun u hu e => hn (e ▸ hu)
  have hQ : ∀ u, u ∈ cs → Function.update Q n [] u = Q u :=
    fun u hu => Function.update_noteq (hne u hu) _ _
  have hmem : ∀ u, u ∈ n :: cs → ∀ x, x ∈ Function.update Q n [] u → u ∈ cs ∧ x ∈ Q u := by
    intro u hu x hx
    rcases List.mem_cons.mp hu with e | h
    · subst e
      rw [Function.update_same] at hx
      simp at hx
    · rw [hQ u h] at hx
      exact ⟨h, hx⟩
  refine ⟨?_, ?_, ?_, ?_⟩
  · intro u hu
    rcases List.mem_cons.mp hu with e | h
    · subst e
      rw [Function.update_same]
      exact (IsQueue_nil_iff s2 u).mpr ⟨hq1, hq2⟩
    · rw [hQ u h]
      apply IsQueue_frame (i1 u h)
      · intro p hpm
        cases p with
        | null => rfl
        | queue c =>
          have e : c = u := by simpa [List.mem_map] using hpm
          exact (links_of_ctx (hother c (e ▸ hne u h))).1
        | cond c =>
          have e : c ∈ Q u := by simpa [List.mem_map] using hpm
          exact (links_of_ctx (hother c (hne c (i2 u h c e).1))).2.2.1
      · intro p hpm
        cases p with
        | null => rfl
        | queue c =>
          have e : c = u := by simpa [List.mem_map] using hpm
          exact (links_of_ctx (hother c (e ▸ hne u h))).2.1
        | cond c =>
          have e : c ∈ Q u := by simpa [List.mem_map] using hpm
          exact (links_of_ctx (hother c (hne c (i2 u h c e).1))).2.2.2
  · intro u hu x hx
    obtain ⟨h1, h2⟩ := hmem u hu x hx
    have h3 := i2 u h1 x h2
    refine ⟨List.mem_cons_of_mem _ h3.1, ?_⟩
    rw [hother x (hne x h3.1)]
    exact h3.2
  · intro u hu v hv x hx1 hx2
    obtain ⟨h1, h2⟩ := hmem u hu x hx1
    obtain ⟨h3, h4⟩ := hmem v hv x hx2
    exact i3 u h1 v h3 x h2 h4
  · intro x hx ha
    rcases List.mem_cons.mp hx with e | h
    · subst e
      exact Or.inr (hc ha)
    · have e := hother x (hne x h)
      rw [e] at ha
      rcases i4 x h ha with ⟨u, hu, hxu⟩ | ⟨h1, h2⟩
      · refine Or.inl ⟨u, List.mem_cons_of_mem _ hu, ?_⟩
        rw [hQ u hu]
        exact hxu
      · right
        obtain ⟨_, _, e3, e4⟩ := links_of_ctx e
        exact ⟨e3.trans h1, e4.trans h2⟩

/-! ## The queue invariant under rouse and notify -/

theorem removed_links_congr {s s1 : State} (x : Ptr) (hn : s1.nxt = s.nxt) (hp : s1.prv = s.prv) :
    (s1.removed x).nxt = (s.removed x).nxt ∧ (s1.removed x).prv = (s.removed x).prv := by
  constructor
  · funext p
    cases p with
    | null => rfl
    | queue c =>
      rw [State.removed, relink_nxt _ _ _ _ (by simp), State.removed,
        relink_nxt _ _ _ _ (by simp), hn, hp]
    | cond c =>
      rw [State.removed, relink_nxt _ _ _ _ (by simp), State.removed,
        relink_nxt _ _ _ _ (by simp), hn, hp]
  · funext p
    cases p with
    | null => rfl
    | queue c =>
      rw [State.removed, relink_prv _ _ _ _ (by simp), State.removed,
        relink_prv _ _ _ _ (by simp), hn, hp]
    | cond c =>
      rw [State.removed, relink_prv _ _ _ _ (by simp), State.removed,
        relink_prv _ _ _ _ (by simp), hn, hp]

theorem call_rouse_quiet {env : Env} (hq : QuietEnv env) (f : RouseFn) (w frm : Nat)
    (s : State) (r : Int) (s2 : State) (h : call_rouse env f w frm s = .ok r s2) :
    s2.ctx = s.ctx := by
  cases f with
  | null => simp [call_rouse] at h
  | rayM_main_rouse => exact main_rouse_ctx w frm s s2 (final_ok h)
  | ext g => exact hq.2.1 g w frm s r s2 h

/-- What a successful `rayS_rouse` has done, when the code outside this file
is quiet: the context was inactive, its `cond` node has been unlinked and its
ACTIVE flag set; no other flag has changed. -/
theorem rouse_inv {env : Env} (hq : QuietEnv env) (w frm : Nat) (s : State) (r : Int)
    (s2 : State) (h : rayS_rouse env w frm s = .ok r s2) :
    rayS_is_active (s.ctx w) = false ∧
    s2.nxt = (s.removed (.cond w)).nxt ∧ s2.prv = (s.removed (.cond w)).prv ∧
    ∀ c, (s2.ctx c).flags = if c = w then (s.ctx w).flags ||| RAY_ACTIVE else (s.ctx c).flags := by
  unfold rayS_rouse at h
  by_cases ha : rayS_is_active ((s.trace (.trace_rouse w frm)).ctx w) = true
  · simp only [ha, if_true] at h
    cases h
  · simp only [ha, if_false, Bool.false_eq_true] at h
    cases hr : ngx_queue_remove (.cond w)
        ((s.trace (.trace_rouse w frm)).setFlags w
          (((s.trace (.trace_rouse w frm)).ctx w).flags ||| RAY_ACTIVE)) with
    | none =>
      rw [hr] at h
      cases h
    | some s3 =>
      simp only [hr] at h
      have e3 := remove_some _ _ _ hr
      have e4 : s2.ctx = s3.ctx :=
        (call_rouse_quiet hq _ _ _ (s3.trace (.invoke_rouse w frm)) _ _ h).trans rfl
      obtain ⟨g1, g2⟩ := @removed_links_congr s
        ((s.trace (.trace_rouse w frm)).setFlags w
          (((s.trace (.trace_rouse w frm)).ctx w).flags ||| RAY_ACTIVE))
        (.cond w) (by simp) (by simp)
      refine ⟨by simpa using ha, ?_, ?_, ?_⟩
      · rw [nxt_of_ctx e4, e3, g1]
      · rw [prv_of_ctx e4, e3, g2]
      · intro c
        rw [e4, e3]
        simp only [trace_ctx, State.removed, relink_flags, setFlags_flags]

/-- A successful `rayS_rouse` keeps the queue invariant. -/
theorem QInv_rouse {env : Env} (hq : QuietEnv env) {cs : List Nat} {s : State}
    {Q : Nat → List Nat} (hI : QInv cs s Q) (w frm : Nat) (hw : w ∈ cs) (r : Int) (s2 : State)
    (h : rayS_rouse env w frm s = .ok r s2) : ∃ Q2, QInv cs s2 Q2 := by
  obtain ⟨ha, hn, hp, hf⟩ := rouse_inv hq w frm s r s2 h
  rcases hI.2.2.2 w hw ha with ⟨t, ht, hwt⟩ | ⟨h1, h2⟩
  · obtain ⟨l1, l2, hQ⟩ := List.append_of_mem hwt
    exact ⟨_, QInv_unlink_member hI ht hQ hn hp hf⟩
  · refine ⟨Q, QInv_unlink_loose hI ?_ ?_ ?_ hn hp hf⟩
    · intro t ht hm
      exact member_nxt_ne (hI.1 t ht) hm h1
    · rw [h2, h1]
    · rw [h1, h2]

/-- The notify loop on the queue invariant: it empties the wait queue of `t`,
sets the ACTIVE flag of exactly the former members, and leaves the `cond`
node of the last one pointing at the queue head on both sides. -/
theorem notify_loop_inv {env : Env} (hq : QuietEnv env) (cs : List Nat) (t : Nat)
    (ht : t ∈ cs) (narg : Int) (r : Int) (s2 : State) :
    ∀ (ws : List Nat) (fuel : Nat) (c : Int) (s : State) (Q : Nat → List Nat),
      QInv cs s Q → Q t = ws → rayS_notify_loop env fuel t narg c s = .ok r s2 →
      QInv cs s2 (Function.update Q t []) ∧
      (∀ x, (s2.ctx x).flags
        = if x ∈ ws then (s.ctx x).flags ||| RAY_ACTIVE else (s.ctx x).flags) ∧
      (∀ z l, ws = l ++ [z] → s2.nxt (.cond z) = .queue t ∧ s2.prv (.cond z) = .queue t) := by
  intro ws
  induction ws with
  | nil =>
    intro fuel c s Q hI hQ h
    cases fuel with
    | zero => simp [rayS_notify_loop] at h
    | succ f =>
      have hqt := hI.1 t ht
      rw [hQ] at hqt
      rw [rayS_notify_loop, empty_of_queue hqt] at h
      simp only [decide_True, Res.ok.injEq] at h
      obtain ⟨_, rfl⟩ := h
      refine ⟨?_, fun x => by simp, fun z l e => by simp at e⟩
      rw [← hQ, Function.update_eq_self]
      exact hI
  | cons w rest ih =>
    intro fuel c s Q hI hQ h
    cases fuel with
    | zero => simp [rayS_notify_loop] at h
    | succ f =>
      have hqt := hI.1 t ht
      rw [hQ] at hqt
      rw [rayS_notify_loop, empty_of_queue hqt] at h
      simp only [List.cons_ne_nil, decide_False, head_of_queue hqt, ngx_queue_data] at h
      obtain ⟨a, s1, h1, h2⟩ := (bind_eq_ok _ _ _ _).mp h
      obtain ⟨a0, s0, h3, h4⟩ := (bind_eq_ok _ _ _ _).mp h1
      have e0 : s0.ctx = s.ctx := by
        by_cases e : narg ≠ 0
        · rw [if_pos e] at h3
          exact xcopy_ctx env t w narg s s0 (final_ok h3)
        · rw [if_neg e] at h3
          simp only [Res.ok.injEq] at h3
          rw [← h3.2]
      have hI0 : QInv cs s0 Q := QInv_congr e0 hI
      obtain ⟨_, hn, hp, hf⟩ := rouse_inv hq w t s0 a s1 h4
      have hQ0 : Q t = [] ++ w :: rest := by rw [hQ]; rfl
      have hI1 := QInv_unlink_member hI0 ht hQ0 hn hp hf
      simp only [List.nil_append] at hI1
      obtain ⟨k1, k2, k3⟩ := ih f (c + 1) s1 _ hI1 (Function.update_same _ _ _) h2
      have hwr : w ∉ rest := (List.nodup_cons.mp hqt.2).1
      refine ⟨?_, ?_, ?_⟩
      · rw [Function.update_idem] at k1
        exact k1
      · intro x
        rw [k2 x, hf x, e0]
        by_cases e : x = w
        · subst e
          simp [hwr]
        · simp [e]
      · intro z l e
        cases rest with
        | nil =>
          have hl : l = [] ∧ z = w := by
            cases l with
            | nil => simpa using e.symm
            | cons y l2 =>
              have := congrArg List.length e
              simp at this
          obtain ⟨_, rfl⟩ := hl
          have hs2 : s2 = s1 := by
            cases f with
            | zero => simp [rayS_notify_loop] at h2
            | succ f2 =>
              rw [rayS_notify_loop, empty_of_queue (hI1.1 t ht)] at h2
              simp only [Function.update_same, decide_True, Res.ok.injEq] at h2
              exact h2.2.symm
          have hqt0 : IsQueue s0 t [z] := IsQueue_congr (nxt_of_ctx e0) (prv_of_ctx e0) hqt
          have a1 : s0.nxt (.cond z) = .queue t := hqt0.1.2.1
          have a2 : s0.prv (.cond z) = .queue t := hqt0.1.1.2
          rw [hs2, hn, hp]
          constructor
          · rw [removed_nxt (by simp) (by rw [a2]; simp), a1]
          · rw [removed_prv (by simp) (by rw [a1]; simp), a2]
        | cons y rest2 =>
          cases l with
          | nil => simp at e
          | cons y2 l2 =>
            simp only [List.cons_append, List.cons.injEq] at e
            exact k3 z l2 e.2

/-- A successful `rayS_notify` on the queue invariant. -/
theorem notify_inv {env : Env} (hq : QuietEnv env) {cs : List Nat} {s : State}
    {Q : Nat → List Nat} (hI : QInv cs s Q) (t : Nat) (ht : t ∈ cs) (fuel : Nat)
    (narg r : Int) (s2 : State) (h : rayS_notify env fuel t narg s = .ok r s2) :
    QInv cs s2 (Function.update Q t []) ∧
    (∀ x, (s2.ctx x).flags
      = if x ∈ Q t then (s.ctx x).flags ||| RAY_ACTIVE else (s.ctx x).flags) ∧
    (∀ z l, Q t = l ++ [z] → s2.nxt (.cond z) = .queue t ∧ s2.prv (.cond z) = .queue t) := by
  unfold rayS_notify at h
  cases hn : (if narg = LUA_MULTRET then (s.ctx t).L.map (fun l => lua_gettop (s.lua l))
      else some narg) with
  | none => simp [hn] at h
  | some n =>
    simp only [hn] at h
    obtain ⟨a, s1, h1, h2⟩ := (bind_eq_ok _ _ _ _).mp h
    obtain ⟨k1, k2, k3⟩ := notify_loop_inv hq cs t ht n a s1 (Q t) fuel 0 s Q hI rfl h1
    have e : s2.ctx = s1.ctx := by
      by_cases e : n ≠ 0
      · rw [if_pos e] at h2
        cases hL : (s1.ctx t).L with
        | none => simp [hL] at h2
        | some l =>
          simp only [hL] at h2
          cases hpop : lua_pop (s1.lua l) n with
          | none => simp [hpop] at h2
          | some st =>
            simp only [hpop, Res.ok.injEq] at h2
            rw [← h2.2]
            rfl
      · rw [if_neg e] at h2
        simp only [Res.ok.injEq] at h2
        rw [← h2.2]
    refine ⟨QInv_congr e k1, fun x => by rw [e]; exact k2 x, fun z l hz => ?_⟩
    rw [nxt_of_ctx e, prv_of_ctx e]
    exact k3 z l hz

/-! ## The queue invariant under await and the drive loop -/

theorem inserted_links_congr {s s1 : State} (t w : Nat) (hn : s1.nxt = s.nxt)
    (hp : s1.prv = s.prv) :
    (s1.inserted t w).nxt = (s.inserted t w).nxt ∧
    (s1.inserted t w).prv = (s.inserted t w).prv := by
  constructor
  · funext p
    cases p with
    | null => rfl
    | queue c =>
      rw [State.inserted, relink_nxt _ _ _ _ (by simp), State.inserted,
        relink_nxt _ _ _ _ (by simp), hn, hp]
    | cond c =>
      rw [State.inserted, relink_nxt _ _ _ _ (by simp), State.inserted,
        relink_nxt _ _ _ _ (by simp), hn, hp]
  · funext p
    cases p with
    | null => rfl
    | queue c =>
      rw [State.inserted, relink_prv _ _ _ _ (by simp), State.inserted,
        relink_prv _ _ _ _ (by simp), hp]
    | cond c =>
      rw [State.inserted, relink_prv _ _ _ _ (by simp), State.inserted,
        relink_prv _ _ _ _ (by simp), hp]

/-- The state handed to the await capability satisfies the queue invariant,
with the caller appended to the target's queue. -/
theorem QInv_awaited {cs : List Nat} {s : State} {Q : Nat → List Nat} {t w : Nat}
    (hI : QInv cs s Q) (hw : w ∈ cs) (ht : t ∈ cs) (hact : rayS_is_active (s.ctx w) = true) :
    QInv cs (s.awaited w t) (Function.update Q t (Q t ++ [w])) := by
  obtain ⟨g1, g2⟩ := @inserted_links_congr s
    ((s.trace (.trace_await w t)).setFlags w ((s.ctx w).flags &&& bnot32 RAY_ACTIVE))
    t w (by simp) (by simp)
  exact QInv_link hI hw ht hact g1 g2 (awaited_flags s w t)

/-- The drive loop of context `M`, parked on `t`, on the queue invariant: it
ends either with `M` still inactive and queued on `t`, or (when `M` waited on
itself and was roused by its own notify) with `M` in no queue, its own queue
empty and its `cond` node still pointing at its own queue head. -/
theorem drive_loop_inv {env : Env} (hq : QuietEnv env) (cs : List Nat) (M t : Nat)
    (hM : M ∈ cs) (ht : t ∈ cs) (loop : Option Nat) (s2 : State) :
    ∀ (fuel : Nat) (s : State) (Q : Nat → List Nat), QInv cs s Q →
      rayS_is_active (s.ctx M) = false → M ∈ Q t → (t = M → ∃ l, Q M = l ++ [M]) →
      main_await_loop env fuel M loop s = .ok () s2 →
      ∃ Q2, QInv cs s2 Q2 ∧
        ((rayS_is_active (s2.ctx M) = false ∧ M ∈ Q2 t) ∨
         ((∀ u, u ∈ cs → M ∉ Q2 u) ∧ Q2 M = [] ∧
           s2.nxt (.cond M) = .queue M ∧ s2.prv (.cond M) = .queue M)) := by
  intro fuel
  induction fuel with
  | zero => intro s Q _ _ _ _ h; simp [main_await_loop] at h
  | succ f ih =>
    intro s Q hI hina hMt hself h
    rw [main_await_loop] at h
    obtain ⟨c, s1, h1, h2⟩ := (bind_eq_ok _ _ _ _).mp h
    obtain ⟨ev, s3, h3, h4⟩ := (bind_eq_ok _ _ _ _).mp h2
    obtain ⟨k1, k2, k3⟩ := notify_inv hq hI M hM (f + 1) 0 c s1 h1
    have e3 : s3.ctx = s1.ctx := by
      cases loop with
      | none => simp [uv_run_once] at h3
      | some lp => exact (hq.2.2 lp _ ev s3 h3).trans rfl
    have hI3 := QInv_congr e3 k1
    by_cases htM : t = M
    · subst htM
      obtain ⟨l, hl⟩ := hself rfl
      have hact : rayS_is_active (s3.ctx t) = true :=
        active_set (s.ctx t).flags _ (by rw [e3, k2 t, if_pos hMt])
      simp only [hact, if_true, Res.ok.injEq, true_and] at h4
      subst h4
      refine ⟨_, hI3, Or.inr ⟨?_, Function.update_same _ _ _, ?_, ?_⟩⟩
      · intro u hu hm
        by_cases e : u = t
        · subst e
          rw [Function.update_same] at hm
          simp at hm
        · rw [Function.update_noteq e] at hm
          exact e (hI.2.2.1 u hu t ht t hm hMt)
      · rw [nxt_of_ctx e3]
        exact (k3 t l hl).1
      · rw [prv_of_ctx e3]
        exact (k3 t l hl).2
    · have hMM : M ∉ Q M := fun hm => htM (hI.2.2.1 t ht M hM M hMt hm)
      have hina3 : rayS_is_active (s3.ctx M) = false := by
        rw [← hina]
        apply active_of_flags
        rw [e3, k2 M, if_neg hMM]
      have hMt3 : M ∈ Function.update Q M [] t := by
        rw [Function.update_noteq htM]
        exact hMt
      by_cases hev : ev ≠ 0
      · simp only [hina3, hev, ne_eq, not_false_eq_true, if_true, if_false,
          Bool.false_eq_true] at h4
        exact ih s3 _ hI3 hina3 hMt3 (fun e => absurd e htM) h4
      · simp only [hina3, hev, if_false, Bool.false_eq_true, Res.ok.injEq, true_and] at h4
        subst h4
        exact ⟨_, hI3, Or.inl ⟨hina3, hMt3⟩⟩

/-- A successful `rayM_main_await` on the state handed over by `rayS_await`. -/
theorem main_await_inv {env : Env} (hq : QuietEnv env) {cs : List Nat} {s : State}
    {Q : Nat → List Nat} (hI : QInv cs s Q) (M t : Nat) (hM : M ∈ cs) (ht : t ∈ cs)
    (hina : rayS_is_active (s.ctx M) = false) (hMt : M ∈ Q t)
    (hself : t = M → ∃ l, Q M = l ++ [M]) (fuel : Nat) (r : Int) (s2 : State)
    (h : rayM_main_await env fuel M t s = .ok r s2) : ∃ Q2, QInv cs s2 Q2 := by
  unfold rayM_main_await at h
  cases he : ngx_queue_empty (.queue M) s with
  | none =>
    rw [he] at h
    cases h
  | some e =>
    simp only [he] at h
    cases hL : ((s.trace (.trace_enter_main_await e)).ctx M).L with
    | none =>
      rw [hL] at h
      cases h
    | some l0 =>
      simp only [hL] at h
      obtain ⟨a, s1, h1, h2⟩ := (bind_eq_ok _ _ _ _).mp h
      have e0 : (rayS_get_loop env (s.trace (.trace_enter_main_await e))).2.ctx = s.ctx :=
        (get_loop_ctx env _).trans rfl
      have hI0 := QInv_congr e0 hI
      have hina0 : rayS_is_active
          ((rayS_get_loop env (s.trace (.trace_enter_main_await e))).2.ctx M) = false := by
        rw [e0]
        exact hina
      obtain ⟨Q2, hI1, hpark⟩ := drive_loop_inv hq cs M t hM ht _ s1 fuel _ Q hI0 hina0 hMt hself h1
      cases hr : ngx_queue_remove (.cond M)
          (s1.setFlags M ((s1.ctx M).flags ||| RAY_ACTIVE)) with
      | none =>
        rw [hr] at h2
        cases h2
      | some s3 =>
        simp only [hr] at h2
        have e3 := remove_some _ _ _ hr
        cases hL3 : ((s3.trace .trace_unloop).ctx M).L with
        | none =>
          rw [hL3] at h2
          cases h2
        | some l =>
          simp only [hL3, Res.ok.injEq] at h2
          have e2 : s2.ctx = s3.ctx := by
            rw [← h2.2]
            rfl
          obtain ⟨g1, g2⟩ := @removed_links_congr s1
            (s1.setFlags M ((s1.ctx M).flags ||| RAY_ACTIVE)) (.cond M)
            (by simp) (by simp)
          have hn : s2.nxt = (s1.removed (.cond M)).nxt := by
            rw [nxt_of_ctx e2, e3, g1]
          have hp : s2.prv = (s1.removed (.cond M)).prv := by
            rw [prv_of_ctx e2, e3, g2]
          have hf : ∀ c, (s2.ctx c).flags
              = if c = M then (s1.ctx M).flags ||| RAY_ACTIVE else (s1.ctx c).flags := by
            intro c
            rw [e2, e3]
            simp only [State.removed, relink_flags, setFlags_flags]
          rcases hpark with ⟨_, hm⟩ | ⟨hnot, hQM, c1, c2⟩
          · obtain ⟨l1, l2, hQ⟩ := List.append_of_mem hm
            exact ⟨_, QInv_unlink_member hI1 ht hQ hn hp hf⟩
          · have hqM := (IsQueue_nil_iff s1 M).mp (hQM ▸ hI1.1 M hM)
            refine ⟨Q2, QInv_unlink_loose hI1 hnot ?_ ?_ hn hp hf⟩
            · rw [c2, c1, hqM.1]
            · rw [c1, c2, hqM.2]

/-- A successful `rayS_await` keeps the queue invariant. -/
theorem QInv_await {env : Env} (hq : QuietEnv env) {cs : List Nat} {s : State}
    {Q : Nat → List Nat} (hI : QInv cs s Q) (w t : Nat) (hw : w ∈ cs) (ht : t ∈ cs)
    (fuel : Nat) (r : Int) (s2 : State) (h : rayS_await env fuel w t s = .ok r s2) :
    ∃ Q2, QInv cs s2 Q2 := by
  by_cases hact : rayS_is_active (s.ctx w) = true
  · rw [await_step env fuel w (hI.1 t ht) hact] at h
    have hIa := QInv_awaited hI hw ht hact
    cases hv : (s.ctx w).v.await with
    | null => simp [hv, call_await] at h
    | ext g =>
      simp only [hv, call_await] at h
      exact ⟨_, QInv_congr (hq.1 g w t _ r s2 h) hIa⟩
    | rayM_main_await =>
      simp only [hv, call_await] at h
      refine main_await_inv hq hIa w t hw ht ?_ ?_ ?_ fuel r s2 h
      · exact active_cleared (s.ctx w).flags _ (by rw [awaited_flags, if_pos rfl])
      · rw [Function.update_same]
        simp
      · intro e
        subst e
        exact ⟨Q t, Function.update_same _ _ _⟩
  · unfold rayS_await at h
    have hact2 : rayS_is_active ((s.trace (.trace_await w t)).ctx w) = false := by
      simpa using hact
    simp only [hact2, if_false, Bool.false_eq_true] at h
    cases h

/-! ## Creation and reachable states -/

theorem init_main_finish_ctx (env : Env) (slf L : Nat) (s6 : State) (r : Int) (s2 : State)
    (h : init_main_finish env slf L s6 = .ok r s2) : s2.ctx = s6.ctx := by
  unfold init_main_finish at h
  cases hl : (rayS_get_loop env s6).1 with
  | none =>
    rw [hl] at h
    cases h
  | some lp =>
    simp only [hl] at h
    cases hp1 : lua_pop ((rayS_get_loop env s6).2.lua L) 1 with
    | none => simp [hp1] at h
    | some st1 =>
      simp only [trace_lua, hp1] at h
      cases hp2 : lua_pop st1 1 with
      | none => simp [hp2] at h
      | some st2 =>
        simp only [hp2, Res.ok.injEq] at h
        rw [← h.2]
        exact get_loop_ctx env s6

/-- What a successful first `rayS_init_main` has done to the context records:
the new main context is ACTIVE with its queue head linked to itself, and no
other record has changed. -/
theorem init_main_inv (env : Env) (self mt L : Nat) (s : State) (r : Int) (s2 : State)
    (hnone : s.reg_main = none) (h : rayS_init_main env self mt L s = .ok r s2) :
    rayS_is_active (s2.ctx self) = true ∧
    s2.nxt (.queue self) = .queue self ∧ s2.prv (.queue self) = .queue self ∧
    (∀ c, c ≠ self → s2.ctx c = s.ctx c) := by
  obtain ⟨sN, hnew, _, _, _, _, _, _, _, _, nother, _⟩ :=
    new_spec self L none (some ray_main_v) (s.setLua L (s.lua L ++ [TValue.nil]))
  have key : ∀ X : State, (X.ctx self).flags = RAY_ACTIVE →
      X.nxt (.queue self) = .queue self → X.prv (.queue self) = .queue self →
      (∀ c, c ≠ self → X.ctx c = s.ctx c) →
      init_main_finish env self L X = .ok r s2 →
      rayS_is_active (s2.ctx self) = true ∧
      s2.nxt (.queue self) = .queue self ∧ s2.prv (.queue self) = .queue self ∧
      (∀ c, c ≠ self → s2.ctx c = s.ctx c) := by
    intro X x1 x2 x3 x4 hX
    have e := init_main_finish_ctx env self L X r s2 hX
    refine ⟨?_, by rw [nxt_of_ctx e]; exact x2, by rw [prv_of_ctx e]; exact x3,
      fun c hc => by rw [e]; exact x4 c hc⟩
    rw [e]
    simp [rayS_is_active, x1, RAY_ACTIVE]
  unfold rayS_init_main at h
  by_cases hL : L = mt
  · subst hL
    simp only [hnone, hnew, Res.bind, ne_eq, not_true_eq_false, if_false,
      init_eq _ (Ptr.queue self) (by simp), init_eq _ (Ptr.cond self) (by simp)] at h
    refine key _ ?_ ?_ ?_ ?_ h
    · simp [State.setCtx]
    · rw [relink_nxt _ _ _ _ (by simp), Function.update_noteq (by simp),
        relink_nxt _ _ _ _ (by simp)]
      simp [Function.update]
    · rw [relink_prv _ _ _ _ (by simp), Function.update_noteq (by simp),
        relink_prv _ _ _ _ (by simp)]
      simp [Function.update]
    · intro c hc
      rw [← setLua_ctx s L (s.lua L ++ [TValue.nil]), ← nother c hc]
      simp [State.setCtx, State.relink, hc, Function.update, State.prv, State.nxt, State.links]
  · simp only [hnone, hnew, Res.bind, ne_eq, hL, not_false_eq_true, if_true] at h
    cases h

/-- Every reachable state satisfies the queue invariant, when the code outside
this file is quiet. -/
theorem reachable_inv {env : Env} (hq : QuietEnv env) {cs : List Nat} {s : State}
    (h : Reachable env cs s) : ∃ Q, QInv cs s Q := by
  induction h with
  | start s =>
    refine ⟨fun _ => [], ?_, ?_, ?_, ?_⟩ <;> intro t ht <;> simp at ht
  | new cs s n L m v s2 _ hn hnew ih =>
    obtain ⟨Q, hI⟩ := ih
    obtain ⟨s1, e1, _, hfl, _, _, q1, q2, c1, c2, hother, _⟩ := new_spec n L m v s
    rw [e1] at hnew
    simp only [Res.ok.injEq, true_and] at hnew
    subst hnew
    exact ⟨_, QInv_fresh hI hn hother q1 q2 (fun _ => ⟨c1, c2⟩)⟩
  | main_new cs s n mt L r s2 _ hn hnone hinit ih =>
    obtain ⟨Q, hI⟩ := ih
    obtain ⟨a, q1, q2, hother⟩ := init_main_inv env n mt L s r s2 hnone hinit
    refine ⟨_, QInv_fresh hI hn hother q1 q2 (fun hina => ?_)⟩
    rw [a] at hina
    exact Bool.noConfusion hina
  | main_again cs s n mt L m r s2 _ hsome hinit ih =>
    rw [init_main_again env n mt L m s hsome] at hinit
    simp only [Res.ok.injEq] at hinit
    rw [← hinit.2]
    exact ih
  | await cs s fuel w t r s2 _ hw ht hop ih =>
    obtain ⟨Q, hI⟩ := ih
    exact QInv_await hq hI w t hw ht fuel r s2 hop
  | rouse cs s w frm r s2 _ hw hop ih =>
    obtain ⟨Q, hI⟩ := ih
    exact QInv_rouse hq hI w frm hw r s2 hop
  | notify cs s fuel t narg r s2 _ ht hop ih =>
    obtain ⟨Q, hI⟩ := ih
    exact ⟨_, (notify_inv hq hI t ht fuel narg r s2 hop).1⟩

/-! ## Concrete reachable states -/

theorem envW_quiet : QuietEnv envW := by
  refine ⟨fun g w t s r s2 h => ?_, fun g w t s r s2 h => ?_, fun lp s r s2 h => ?_⟩ <;>
  · simp only [envW, Res.ok.injEq] at h
    rw [← h.2]

theorem reach_sMain : Reachable envW [0] sMain :=
  Reachable.main_new [] st0 0 0 0 1 sMain (Reachable.start st0) (by simp) rfl rfl

theorem reach_sFresh : Reachable envW [1, 0] sFresh :=
  Reachable.new [0] sMain 1 0 none (some ext_v) sFresh reach_sMain (by simp) rfl

theorem reach_sTwo : Reachable envW [1, 0] sTwo :=
  Reachable.rouse [1, 0] sFresh 1 0 1 sTwo reach_sFresh (by simp) rfl

theorem reach_sQueued : Reachable envW [1, 0] sQueued :=
  Reachable.await [1, 0] sTwo 0 1 0 0 sQueued reach_sTwo (by simp) (by simp) rfl

/-! ## C11: queue membership and the ACTIVE flag -/

/-- C11, counterexample to the claim as worded: the state reached by
`rayS_init_main` followed by `rayS_new` is reachable from context creation,
yet the new context 1 has its ACTIVE flag clear and is a member of no wait
queue at all (not of exactly one). -/
theorem C11_fresh_context_counterexample :
    Reachable envW [1, 0] sFresh ∧ rayS_is_active (sFresh.ctx 1) = false ∧
    ∀ t, ¬ Member sFresh t 1 := by
  refine ⟨reach_sFresh, rfl, ?_⟩
  rintro t ⟨ws, hq, hm⟩
  exact member_nxt_ne hq hm rfl

/-- C11, amended.  Let the code outside this file be quiet (external
capabilities and reactor callbacks return without touching context records).
In every state reachable from context creation (`rayS_new`, first
`rayS_init_main`) by successful `rayS_await`, `rayS_rouse` and `rayS_notify`
calls on created contexts, every created context `w` is a member of no wait
queue when its ACTIVE flag is set; and when its ACTIVE flag is clear it is
either a member of exactly one wait queue, or of none with its `cond` node
still linked to itself, as `rayS_new` left it. -/
theorem C11_queue_membership (env : Env) (hq : QuietEnv env) (cs : List Nat) (s : State)
    (hr : Reachable env cs s) (w : Nat) (hw : w ∈ cs) :
    (rayS_is_active (s.ctx w) = true → ∀ t, t ∈ cs → ¬ Member s t w) ∧
    (rayS_is_active (s.ctx w) = false →
      (∃ t, t ∈ cs ∧ Member s t w ∧ ∀ u, u ∈ cs → Member s u w → u = t) ∨
      ((∀ t, t ∈ cs → ¬ Member s t w) ∧
        s.nxt (.cond w) = .cond w ∧ s.prv (.cond w) = .cond w)) := by
  obtain ⟨Q, i1, i2, i3, i4⟩ := reachable_inv hq hr
  have hmem : ∀ t, t ∈ cs → Member s t w → w ∈ Q t := by
    rintro t ht ⟨ws, hws, hm⟩
    rw [IsQueue_unique (i1 t ht) hws]
    exact hm
  constructor
  · intro ha t ht hm
    have := (i2 t ht w (hmem t ht hm)).2
    rw [ha] at this
    exact Bool.noConfusion this
  · intro ha
    rcases i4 w hw ha with ⟨t, ht, hwt⟩ | ⟨h1, h2⟩
    · exact Or.inl ⟨t, ht, ⟨Q t, i1 t ht, hwt⟩,
        fun u hu hm => i3 u hu t ht w (hmem u hu hm) hwt⟩
    · refine Or.inr ⟨?_, h1, h2⟩
      rintro t ht ⟨ws, hws, hm⟩
      exact member_nxt_ne hws hm h1

/-- C11 amended, at a concrete reachable state: context 1, created, roused
and then made to await on the main context 0, is inactive and a member of
exactly one wait queue. -/
theorem C11_queue_membership_witness :
    QuietEnv envW ∧ Reachable envW [1, 0] sQueued ∧ 1 ∈ [1, 0] ∧
    rayS_is_active (sQueued.ctx 1) = false ∧
    ((∃ t, t ∈ [1, 0] ∧ Member sQueued t 1 ∧ ∀ u, u ∈ [1, 0] → Member sQueued u 1 → u = t) ∨
      ((∀ t, t ∈ [1, 0] → ¬ Member sQueued t 1) ∧
        sQueued.nxt (.cond 1) = .cond 1 ∧ sQueued.prv (.cond 1) = .cond 1)) :=
  ⟨envW_quiet, reach_sQueued, by simp, rfl,
    (C11_queue_membership envW envW_quiet [1, 0] sQueued reach_sQueued 1 (by simp)).2 rfl⟩

/-! ## C13: how many contexts are ACTIVE -/

/-- What a successful `rayS_await` with an external await capability has done
to the flags, when the code outside this file is quiet. -/
theorem await_ext_inv {env : Env} (hq : QuietEnv env) (w t : Nat) (s : State) (fuel : Nat)
    (g : Nat) (r : Int) (s2 : State) (hv : (s.ctx w).v.await = .ext g)
    (h : rayS_await env fuel w t s = .ok r s2) :
    rayS_is_active (s.ctx w) = true ∧
    ∀ c, (s2.ctx c).flags
      = if c = w then (s.ctx w).flags &&& bnot32 RAY_ACTIVE else (s.ctx c).flags := by
  unfold rayS_await at h
  by_cases ha : rayS_is_active ((s.trace (.trace_await w t)).ctx w) = true
  · simp only [ha, if_true] at h
    cases hi : ngx_queue_insert_tail (.queue t) (.cond w)
        ((s.trace (.trace_await w t)).setFlags w
          (((s.trace (.trace_await w t)).ctx w).flags &&& bnot32 RAY_ACTIVE)) with
    | none =>
      rw [hi] at h
      cases h
    | some s3 =>
      simp only [hi] at h
      obtain ⟨pv, nx, e3⟩ := insert_tail_some _ _ _ _ hi
      have hv3 : (s3.ctx w).v.await = .ext g := by
        rw [e3]
        simpa using hv
      rw [hv3] at h
      have e4 : s2.ctx = s3.ctx := (hq.1 g w t _ r s2 h).trans rfl
      refine ⟨by simpa using ha, fun c => ?_⟩
      rw [e4, e3]
      simp only [trace_ctx, relink_flags, setFlags_flags]
  · simp only [ha, if_false, Bool.false_eq_true] at h
    cases h

/-- C13, counterexample to the claim as worded: after `rayS_init_main`,
`rayS_new` and `rayS_rouse` of the new context, the reachable state `sTwo`
has two contexts, 0 and 1, with ACTIVE set at the same time. -/
theorem C13_two_active_counterexample :
    Reachable envW [1, 0] sTwo ∧ (0 : Nat) ≠ 1 ∧
    rayS_is_active (sTwo.ctx 0) = true ∧ rayS_is_active (sTwo.ctx 1) = true :=
  ⟨reach_sTwo, by decide, rfl, rfl⟩

/-- C13, amended.  ACTIVE is not exclusive; what the operations guarantee,
when the code outside this file is quiet, is which flags move.  A successful
`rayS_rouse(w, x)` finds `w` inactive, leaves it ACTIVE and changes no other
context's flags.  A successful `rayS_await(w, x)` of a context with an
external await capability finds `w` ACTIVE, leaves it inactive and changes
no other context's flags.  A successful `rayS_notify(w, narg)` in a reachable
state sets ACTIVE on exactly the members of the wait queue of `w` and changes
no other flag.  `rayS_new` creates `w` inactive and the first
`rayS_init_main` creates it ACTIVE, neither touching another context. -/
theorem C13_active_moves_with_its_subject (env : Env) (hq : QuietEnv env) (w x : Nat)
    (s s2 : State) :
    (∀ r, rayS_rouse env w x s = .ok r s2 →
      rayS_is_active (s.ctx w) = false ∧ rayS_is_active (s2.ctx w) = true ∧
      ∀ c, c ≠ w → (s2.ctx c).flags = (s.ctx c).flags) ∧
    (∀ fuel g r, (s.ctx w).v.await = .ext g → rayS_await env fuel w x s = .ok r s2 →
      rayS_is_active (s.ctx w) = true ∧ rayS_is_active (s2.ctx w) = false ∧
      ∀ c, c ≠ w → (s2.ctx c).flags = (s.ctx c).flags) ∧
    (∀ cs fuel narg r, Reachable env cs s → w ∈ cs →
      rayS_notify env fuel w narg s = .ok r s2 →
      ∀ c, (Member s w c → (s2.ctx c).flags = (s.ctx c).flags ||| RAY_ACTIVE) ∧
        (¬ Member s w c → (s2.ctx c).flags = (s.ctx c).flags)) ∧
    (∀ L m v, rayS_new w L m v s = .ok w s2 →
      rayS_is_active (s2.ctx w) = false ∧ ∀ c, c ≠ w → s2.ctx c = s.ctx c) ∧
    (∀ mt L r, s.reg_main = none → rayS_init_main env w mt L s = .ok r s2 →
      rayS_is_active (s2.ctx w) = true ∧ ∀ c, c ≠ w → s2.ctx c = s.ctx c) := by
  refine ⟨fun r h => ?_, fun fuel g r hv h => ?_, fun cs fuel narg r hr hw h c => ?_,
    fun L m v h => ?_, fun mt L r hnone h => ?_⟩
  · obtain ⟨ha, _, _, hf⟩ := rouse_inv hq w x s r s2 h
    refine ⟨ha, active_set (s.ctx w).flags _ (by rw [hf w, if_pos rfl]), fun c hc => ?_⟩
    rw [hf c, if_neg hc]
  · obtain ⟨ha, hf⟩ := await_ext_inv hq w x s fuel g r s2 hv h
    refine ⟨ha, active_cleared (s.ctx w).flags _ (by rw [hf w, if_pos rfl]), fun c hc => ?_⟩
    rw [hf c, if_neg hc]
  · obtain ⟨Q, hI⟩ := reachable_inv hq hr
    obtain ⟨_, k2, _⟩ := notify_inv hq hI w hw fuel narg r s2 h
    constructor
    · rintro ⟨ws, hws, hm⟩
      rw [← IsQueue_unique (hI.1 w hw) hws] at hm
      rw [k2 c, if_pos hm]
    · intro hm
      have : c ∉ Q w := fun hc => hm ⟨Q w, hI.1 w hw, hc⟩
      rw [k2 c, if_neg this]
  · obtain ⟨s1, e1, _, hfl, _, _, _, _, _, _, hother, _⟩ := new_spec w L m v s
    rw [e1] at h
    simp only [Res.ok.injEq, true_and] at h
    subst h
    refine ⟨?_, hother⟩
    simp [rayS_is_active, hfl]
  · obtain ⟨a, _, _, hother⟩ := init_main_inv env w mt L s r s2 hnone h
    exact ⟨a, hother⟩

/-- C13 amended, at a concrete step: `rayS_rouse(1, 0)` in `sFresh` finds
context 1 inactive, leaves it ACTIVE, and context 0 keeps its flags (it stays
ACTIVE as well). -/
theorem C13_active_moves_with_its_subject_witness :
    QuietEnv envW ∧ rayS_rouse envW 1 0 sFresh = .ok 1 sTwo ∧
    rayS_is_active (sFresh.ctx 1) = false ∧ rayS_is_active (sTwo.ctx 1) = true ∧
    ∀ c, c ≠ 1 → (sTwo.ctx c).flags = (sFresh.ctx c).flags :=
  ⟨envW_quiet, rfl, (C13_active_moves_with_its_subject envW envW_quiet 1 0 sFresh sTwo).1 1 rfl⟩

/-! ## C2: postcondition of await -/

/-- Every normal return of `rayM_main_await` leaves its context ACTIVE: the
last assignment before the return is `self->flags |= RAY_ACTIVE`. -/
theorem main_await_active (env : Env) (fuel M t : Nat) (s : State) (r : Int) (s2 : State)
    (h : rayM_main_await env fuel M t s = .ok r s2) : rayS_is_active (s2.ctx M) = true := by
  unfold rayM_main_await at h
  cases he : ngx_queue_empty (.queue M) s with
  | none =>
    rw [he] at h
    cases h
  | some e =>
    simp only [he] at h
    cases hL : ((s.trace (.trace_enter_main_await e)).ctx M).L with
    | none =>
      rw [hL] at h
      cases h
    | some l0 =>
      simp only [hL] at h
      obtain ⟨a, s1, _, h2⟩ := (bind_eq_ok _ _ _ _).mp h
      cases hr : ngx_queue_remove (.cond M)
          (s1.setFlags M ((s1.ctx M).flags ||| RAY_ACTIVE)) with
      | none =>
        rw [hr] at h2
        cases h2
      | some s3 =>
        simp only [hr] at h2
        have e3 := remove_some _ _ _ hr
        cases hL3 : ((s3.trace .trace_unloop).ctx M).L with
        | none =>
          rw [hL3] at h2
          cases h2
        | some l =>
          simp only [hL3, Res.ok.injEq] at h2
          apply active_set (s1.ctx M).flags
          rw [← h2.2, e3]
          simp only [trace_ctx, State.removed, relink_flags, setFlags_flags, if_true]

/-- Every normal return of `rayS_await` on a context whose await capability is
`rayM_main_await` leaves that context ACTIVE. -/
theorem await_main_active (env : Env) (fuel W T : Nat) (s : State) (r : Int) (s2 : State)
    (hv : (s.ctx W).v.await = .rayM_main_await)
    (h : rayS_await env fuel W T s = .ok r s2) : rayS_is_active (s2.ctx W) = true := by
  unfold rayS_await at h
  by_cases ha : rayS_is_active ((s.trace (.trace_await W T)).ctx W) = true
  · simp only [ha, if_true] at h
    cases hi : ngx_queue_insert_tail (.queue T) (.cond W)
        ((s.trace (.trace_await W T)).setFlags W
          (((s.trace (.trace_await W T)).ctx W).flags &&& bnot32 RAY_ACTIVE)) with
    | none =>
      rw [hi] at h
      cases h
    | some s3 =>
      simp only [hi] at h
      obtain ⟨pv, nx, e3⟩ := insert_tail_some _ _ _ _ hi
      have hv3 : (s3.ctx W).v.await = .rayM_main_await := by
        rw [e3]
        simpa using hv
      rw [hv3] at h
      exact main_await_active env fuel W T _ r s2 h
  · simp only [ha, if_false, Bool.false_eq_true] at h
    cases h

/-- C2, counterexample to the claim as worded.  In `stI` the main context 0
is ACTIVE and the queue of context 1 is empty; `rayS_await(0, 1)` returns 3
with context 0 ACTIVE again and the queue of context 1 empty, not `[0]`.  In
`stW`, where context 2 waits on the main context 0, `rayS_await(0, 1)`
returns with the ACTIVE flag of the other context 2 changed from clear to
set. -/
theorem C2_main_await_counterexample :
    rayS_is_active (stI.ctx 0) = true ∧ IsQueue stI 1 [] ∧
    rayS_await envW 2 0 1 stI = .ok 3 sBack ∧
    rayS_is_active (sBack.ctx 0) = true ∧ IsQueue sBack 1 [] ∧ ¬ IsQueue sBack 1 [0] ∧
    rayS_is_active (stW.ctx 0) = true ∧ IsQueue stW 1 [] ∧
    rayS_await envW 3 0 1 stW = .ok 3 sFlip ∧
    rayS_is_active (stW.ctx 2) = false ∧ rayS_is_active (sFlip.ctx 2) = true ∧
    (sFlip.ctx 2).flags ≠ (stW.ctx 2).flags :=
  ⟨rfl, by decide, rfl, rfl, by decide, by decide, rfl, by decide, rfl, rfl, rfl, by decide⟩

/-- C2, amended.  For an ACTIVE context `W` and a target `T` whose wait queue
holds `qs` (all of them suspended, as the data model requires of queue
members), `rayS_await(W, T)` clears the ACTIVE flag of `W` and links `W` at
the tail before it invokes the await capability of `W` with `T`: in the
state `s1` handed to that capability the ACTIVE flag of `W` is clear, the
queue of `T` is exactly `qs ++ [W]` (length `k + 1`), and the CLOSED flag of
`W` and the flags of every other context are as before; the result of the
operation is the result of that capability call.  All of this holds of the
state in which `rayS_await` returns whenever the capability returns without
touching the context records.  It does not when the capability is the drive
loop `rayM_main_await`: every normal return then leaves `W` ACTIVE again, and,
in a reachable state with quiet code outside this file, a member of no wait
queue. -/
theorem C2_await_postcondition (env : Env) (fuel : Nat) (s : State) (W T : Nat) (qs : List Nat)
    (hW : rayS_is_active (s.ctx W) = true) (hq : IsQueue s T qs)
    (hqs : ∀ q, q ∈ qs → rayS_is_active (s.ctx q) = false) :
    ∃ s1, rayS_await env fuel W T s = call_await env fuel (s.ctx W).v.await W T s1 ∧
      rayS_is_active (s1.ctx W) = false ∧
      IsQueue s1 T (qs ++ [W]) ∧ (qs ++ [W]).length = qs.length + 1 ∧
      rayS_is_closed (s1.ctx W) = rayS_is_closed (s.ctx W) ∧
      (∀ i, i ≠ W → (s1.ctx i).flags = (s.ctx i).flags) ∧
      (∀ r s2, call_await env fuel (s.ctx W).v.await W T s1 = .ok r s2 → s2.ctx = s1.ctx →
        rayS_await env fuel W T s = .ok r s2 ∧
        rayS_is_active (s2.ctx W) = false ∧ IsQueue s2 T (qs ++ [W]) ∧
        rayS_is_closed (s2.ctx W) = rayS_is_closed (s.ctx W) ∧
        (∀ i, i ≠ W → (s2.ctx i).flags = (s.ctx i).flags)) ∧
      (∀ r s2, (s.ctx W).v.await = .rayM_main_await →
        rayS_await env fuel W T s = .ok r s2 →
        rayS_is_active (s2.ctx W) = true ∧
        (∀ cs, QuietEnv env → Reachable env cs s → W ∈ cs → T ∈ cs →
          ∀ t, t ∈ cs → ¬ Member s2 t W)) := by
  have hWq : W ∉ qs := fun h => by
    have := hqs W h
    rw [hW] at this
    exact absurd this (by simp)
  have hstep := await_step env fuel W hq hW
  have h1 : rayS_is_active ((s.awaited W T).ctx W) = false :=
    active_cleared (s.ctx W).flags _ (by rw [awaited_flags, if_pos rfl])
  have h2 := awaited_queue hq hWq
  have h3 : rayS_is_closed ((s.awaited W T).ctx W) = rayS_is_closed (s.ctx W) :=
    closed_after_clear (s.ctx W).flags _ _ rfl (by rw [awaited_flags, if_pos rfl])
  have h4 : ∀ i, i ≠ W → ((s.awaited W T).ctx i).flags = (s.ctx i).flags := by
    intro i hi; rw [awaited_flags, if_neg hi]
  refine ⟨s.awaited W T, hstep, h1, h2, by simp, h3, h4, ?_, ?_⟩
  · intro r s2 hcall hctx
    refine ⟨by rw [hstep, hcall], by rw [hctx]; exact h1,
      IsQueue_congr (nxt_of_ctx hctx) (prv_of_ctx hctx) h2, by rw [hctx]; exact h3, ?_⟩
    intro i hi
    rw [hctx]; exact h4 i hi
  · intro r s2 hv hret
    have hact := await_main_active env fuel W T s r s2 hv hret
    refine ⟨hact, fun cs hquiet hreach hWc hTc t ht => ?_⟩
    obtain ⟨Q, i1, i2, _, _⟩ :=
      reachable_inv hquiet (Reachable.await cs s fuel W T r s2 hreach hWc hTc hret)
    rintro ⟨ws, hws, hm⟩
    rw [← IsQueue_unique (i1 t ht) hws] at hm
    have := (i2 t ht W hm).2
    rw [hact] at this
    exact Bool.noConfusion this

/-- C2 amended, at concrete states.  In `stW` the ordinary context 1 awaits
on context 0, whose queue holds context 2: it returns inactive at the tail of
that queue.  In the reachable state `sFresh` the main context 0 awaits on
context 1: it returns ACTIVE and in no wait queue. -/
theorem C2_await_postcondition_witness :
    (rayS_is_active (stW.ctx 1) = true ∧ IsQueue stW 0 [2] ∧
      (∀ q, q ∈ [2] → rayS_is_active (stW.ctx q) = false) ∧
      ∃ s1, rayS_await envW 0 1 0 stW = call_await envW 0 (stW.ctx 1).v.await 1 0 s1 ∧
        rayS_is_active (s1.ctx 1) = false ∧ IsQueue s1 0 [2, 1] ∧
        rayS_await envW 0 1 0 stW = .ok 0 s1) ∧
    (rayS_is_active (sFresh.ctx 0) = true ∧ IsQueue sFresh 1 [] ∧
      (∀ q, q ∈ ([] : List Nat) → rayS_is_active (sFresh.ctx q) = false) ∧
      rayS_await envW 2 0 1 sFresh = .ok 1 sHome ∧
      rayS_is_active (sHome.ctx 0) = true ∧ ∀ t, t ∈ [1, 0] → ¬ Member sHome t 0) := by
  constructor
  · refine ⟨by decide, by decide, by decide, ?_⟩
    obtain ⟨s1, k1, k2, k3, _, _, _, k7, _⟩ :=
      C2_await_postcondition envW 0 stW 1 0 [2] (by decide) (by decide) (by decide)
    exact ⟨s1, k1, k2, k3, (k7 0 s1 rfl rfl).1⟩
  · have hq : IsQueue sFresh 1 [] := by decide
    obtain ⟨s1, _, _, _, _, _, _, _, k8⟩ :=
      C2_await_postcondition envW 2 sFresh 0 1 [] rfl hq (by simp)
    have k := k8 1 sHome rfl rfl
    exact ⟨rfl, hq, by simp, rfl, k.1,
      k.2 [1, 0] envW_quiet reach_sFresh (by simp) (by simp)⟩

end Ray
